import Mathlib

/-!
# RLLib: the episodic simulation driver (`src/RL.h`)

A shallow embedding of `TRStep`, `RLAgent`, `LearnerAgent`, `ControlAgent`,
`RLProblem` and `Simulator` of `src/RL.h`.

Conventions of the embedding.

* `double` values live in a field `K` (instantiated with `ℚ` for executable
  examples and with `ℝ` where a square root is needed); `int` values are
  mathematical integers (`Int`): signed overflow is undefined behaviour in C++
  and no claim depends on it.
* A C++ object reached through a pointer is the value of its fields; its
  virtual methods are a record of functions on that value (`ProblemOps`,
  `AgentOps`, `Control`).  A pointer that may be null is an `Option`.
* `Vector<T>`/`DenseVector<T>` values are lists of scalars.
* Calls across an interface and console output are recorded, in program
  order, in the field `trace` of the simulator.  The field is a history
  variable: no branch of the embedded code reads it.
-/

namespace RLLib

/-- Modelled from the spec: `Vector.h` is not part of the sources; a
`PVector<T>(n)` is a dense vector of dimension `n`, zero-valued. -/
def PVector {K : Type} [Zero K] (n : Nat) : List K := List.replicate n 0

/-- Modelled from the spec: `Vectors<T>::bufferedCopy(src, dst)` of the absent
`Vector.h` leaves in the buffer `dst` (allocated on first use) a copy of
`src`. -/
def Vectors.bufferedCopy {K : Type} (src : List K) (_dst : Option (List K)) :
    Option (List K) := some src

/-- The transition record `TRStep<T>` (RL.h 22-51). -/
structure TRStep (K : Type) where
  o_tp1 : List K
  r_tp1 : K
  z_tp1 : K
  endOfEpisode : Bool

/-- Constructor `TRStep(nbVars)` (RL.h 30-33). -/
def TRStep.new {K : Type} [Zero K] (nbVars : Nat) : TRStep K :=
  { o_tp1 := PVector nbVars, r_tp1 := 0, z_tp1 := 0, endOfEpisode := false }

/-- Method `TRStep::updateRTStep` (RL.h 35-40). -/
def TRStep.updateRTStep {K : Type} (t : TRStep K) (r_tp1 z_tp1 : K)
    (endOfEpisode : Bool) : TRStep K :=
  { t with r_tp1 := r_tp1, z_tp1 := z_tp1, endOfEpisode := endOfEpisode }

/-- Method `TRStep::setForcedEndOfEpisode` (RL.h 47-50). -/
def TRStep.setForcedEndOfEpisode {K : Type} (t : TRStep K) (endOfEpisode : Bool) :
    TRStep K :=
  { t with endOfEpisode := endOfEpisode }

/-- The policy interface `Control<T>` consumed by the agents.  `Control.h` is
not part of the sources, so its methods are parameters; `C` is the state of the
policy object.  Every method may change that state. -/
structure Control (K Act C : Type) where
  initialise : C → List K → Option Act × C
  step : C → Option (List K) → Option Act → List K → K → K → Option Act × C
  proposeAction : C → List K → Option Act × C
  reset : C → C
  computeValueFunction : C → List K → K

/-- Fields of an `RLAgent<T>` object (RL.h 53-81): the policy object it points
to (`control`) and the fields `self` added by the concrete subclass. -/
structure RLAgent (C L : Type) where
  control : C
  self : L

/-- The pure virtual methods of `RLAgent<T>` (RL.h 68-70). -/
structure AgentOps (K Act C L : Type) where
  initialise : RLAgent C L → TRStep K → Option Act × RLAgent C L
  getAtp1 : RLAgent C L → TRStep K → Option Act × RLAgent C L
  reset : RLAgent C L → RLAgent C L

/-- Own fields of `LearnerAgent<T>` (RL.h 88-90). -/
structure LearnerFields (K Act : Type) where
  a_t : Option Act
  absorbingState : List K
  x_t : Option (List K)

/-- Constructor `LearnerAgent(control)` (RL.h 93-96). -/
def LearnerAgent.new {K Act C : Type} [Zero K] (control : C) :
    RLAgent C (LearnerFields K Act) :=
  { control := control, self := { a_t := none, absorbingState := PVector 0, x_t := none } }

/-- Method `LearnerAgent::initialize` (RL.h 105-110); `initialize` is a reserved word of Lean, so
the embedding spells the method `initialise`. -/
def LearnerAgent.initialise {K Act C : Type} (ctl : Control K Act C)
    (ag : RLAgent C (LearnerFields K Act)) (step : TRStep K) :
    Option Act × RLAgent C (LearnerFields K Act) :=
  let r := ctl.initialise ag.control step.o_tp1
  let a_t := r.1
  let x_t := Vectors.bufferedCopy step.o_tp1 ag.self.x_t
  (a_t, { control := r.2, self := { ag.self with a_t := a_t, x_t := x_t } })

/-- Method `LearnerAgent::getAtp1` (RL.h 112-119). -/
def LearnerAgent.getAtp1 {K Act C : Type} (ctl : Control K Act C)
    (ag : RLAgent C (LearnerFields K Act)) (step : TRStep K) :
    Option Act × RLAgent C (LearnerFields K Act) :=
  let r := ctl.step ag.control ag.self.x_t ag.self.a_t
    (if step.endOfEpisode then ag.self.absorbingState else step.o_tp1) step.r_tp1 step.z_tp1
  let a_tp1 := r.1
  let x_t := Vectors.bufferedCopy step.o_tp1 ag.self.x_t
  (a_tp1, { control := r.2, self := { ag.self with a_t := a_tp1, x_t := x_t } })

/-- Method `LearnerAgent::reset` (RL.h 121-124). -/
def LearnerAgent.reset {K Act C : Type} (ctl : Control K Act C)
    (ag : RLAgent C (LearnerFields K Act)) : RLAgent C (LearnerFields K Act) :=
  { ag with control := ctl.reset ag.control }

/-- The virtual table of `LearnerAgent<T>` over a policy `ctl`. -/
def LearnerAgent.ops {K Act C : Type} (ctl : Control K Act C) :
    AgentOps K Act C (LearnerFields K Act) :=
  { initialise := LearnerAgent.initialise ctl
    getAtp1 := LearnerAgent.getAtp1 ctl
    reset := LearnerAgent.reset ctl }

/-- Method `ControlAgent::initialize` (RL.h 141-144); `initialize` is a reserved word of Lean, so
the embedding spells the method `initialise`. -/
def ControlAgent.initialise {K Act C : Type} (ctl : Control K Act C)
    (ag : RLAgent C Unit) (step : TRStep K) : Option Act × RLAgent C Unit :=
  let r := ctl.proposeAction ag.control step.o_tp1
  (r.1, { ag with control := r.2 })

/-- Method `ControlAgent::getAtp1` (RL.h 146-149). -/
def ControlAgent.getAtp1 {K Act C : Type} (ctl : Control K Act C)
    (ag : RLAgent C Unit) (step : TRStep K) : Option Act × RLAgent C Unit :=
  let r := ctl.proposeAction ag.control step.o_tp1
  (r.1, { ag with control := r.2 })

/-- Method `ControlAgent::reset` (RL.h 151-153): does nothing. -/
def ControlAgent.reset {C : Type} (ag : RLAgent C Unit) : RLAgent C Unit := ag

/-- The virtual table of `ControlAgent<T>` over a policy `ctl`. -/
def ControlAgent.ops {K Act C : Type} (ctl : Control K Act C) : AgentOps K Act C Unit :=
  { initialise := ControlAgent.initialise ctl
    getAtp1 := ControlAgent.getAtp1 ctl
    reset := ControlAgent.reset }

/-- Fields of an `RLProblem<T>` object (RL.h 159-164) and, in `env`, the fields
added by the concrete environment. -/
structure RLProblem (K Act E : Type) where
  observations : List K
  resolutions : List K
  output : TRStep K
  discreteActions : List Act
  continuousActions : List Act
  env : E

/-- The pure virtual methods of `RLProblem<T>` that the simulator calls
(RL.h 183-184). -/
structure ProblemOps (K Act E : Type) where
  initialise : RLProblem K Act E → RLProblem K Act E
  step : RLProblem K Act E → Act → RLProblem K Act E

/-- Method `RLProblem::getTRStep` (RL.h 214-217). -/
def RLProblem.getTRStep {K Act E : Type} (p : RLProblem K Act E) : TRStep K := p.output

/-- Method `RLProblem::dimension` (RL.h 225-228). -/
def RLProblem.dimension {K Act E : Type} (p : RLProblem K Act E) : Nat :=
  p.observations.length

/-- Modelled from the spec: `Timer.h` is not part of the sources.  The
wall-clock timer is a stream of measurements: the `k`-th `start()`/`stop()`
pair measures `readings k` milliseconds. -/
structure Timer (K : Type) where
  readings : Nat → K
  laps : Nat

/-- Modelled from the spec: `Timer::start` begins a measurement. -/
def Timer.start {K : Type} (t : Timer K) : Timer K := t

/-- Modelled from the spec: `Timer::stop` ends the measurement begun by `start`. -/
def Timer.stop {K : Type} (t : Timer K) : Timer K := { t with laps := t.laps + 1 }

/-- Modelled from the spec: `Timer::getElapsedTimeInMilliSec` is the length of
the last finished measurement. -/
def Timer.getElapsedTimeInMilliSec {K : Type} (t : Timer K) : K := t.readings t.laps

/-- The data fields of `Simulator::Event` (RL.h 239-243). -/
structure EventFields (K : Type) where
  nbTotalTimeSteps : Int
  nbEpisodeDone : Int
  averageTimePerStep : K
  episodeR : K
  episodeZ : K

/-- The public numeric fields of `Simulator` (RL.h 279-281): the part of the
simulator that code outside the simulator can write. -/
structure PublicFields (K : Type) where
  timeStep : Int
  episodeR : K
  episodeZ : K

/-- A listener object `Simulator::Event` (RL.h 235-257): its data fields and its
virtual `update()`, which sees those fields and may write the simulator's
public fields. -/
structure Event (K : Type) extends EventFields K where
  update : EventFields K → PublicFields K → PublicFields K

/-- Constructor `Event()` (RL.h 246-249) of a listener with the given
`update()`. -/
def Event.new {K : Type} [Zero K] (update : EventFields K → PublicFields K → PublicFields K) :
    Event K :=
  { nbTotalTimeSteps := 0, nbEpisodeDone := 0, averageTimePerStep := 0, episodeR := 0,
    episodeZ := 0, update := update }

/-- What the simulator does to the outside, in program order. -/
inductive Effect (K Act : Type) where
  | problemInitialise : Effect K Act
  | problemStep (a : Act) : Effect K Act
  | agentInitialise (step : TRStep K) : Effect K Act
  | agentGetAtp1 (step : TRStep K) : Effect K Act
  | agentReset : Effect K Act
  | progress (nbEpisodeDone timeStep : Int) (episodeR episodeZ averageTimePerStep : K) :
      Effect K Act
  | episodeEnd : Effect K Act
  | listenerUpdate (index : Nat) (fields : EventFields K) : Effect K Act
  | average (xbar : K) : Effect K Act
  | interval (twoSe : K) : Effect K Act
  | header : Effect K Act
  | runStart (run : Int) : Effect K Act
  | evaluateStart (enabled : Bool) : Effect K Act
  | sinkOpen : Effect K Act
  | valueQuery (x : List K) : Effect K Act
  | sinkValue (v : K) : Effect K Act
  | sinkEndl : Effect K Act
  | sinkClose : Effect K Act
  | problemDraw : Effect K Act

/-- Fields of `Simulator<T>` (RL.h 259-282), the objects behind `agent` and
`problem` by value, and the history `trace`. -/
structure Simulator (K Act C L E : Type) where
  agent : RLAgent C L
  problem : RLProblem K Act E
  agentAction : Option Act
  maxEpisodeTimeSteps : Int
  nbEpisodes : Int
  nbRuns : Int
  nbEpisodeDone : Int
  endingOfEpisode : Bool
  verbose : Bool
  timer : Timer K
  totalTimeInMilliseconds : K
  statistics : List K
  enableStatistics : Bool
  enableTestEpisodesAfterEachRun : Bool
  maxTestEpisodesAfterEachRun : Int
  timeStep : Int
  episodeR : K
  episodeZ : K
  onEpisodeEnd : List (Event K)
  trace : List (Effect K Act)

namespace Simulator

variable {K Act C L E : Type}

/-- Constructor `Simulator(agent, problem, maxEpisodeTimeSteps, nbEpisodes,
nbRuns)` (RL.h 284-291); the C++ defaults of `nbEpisodes` and `nbRuns` are
`-1`.  The clock that the default-constructed `timer` reads is an argument. -/
def new [Zero K] (agent : RLAgent C L) (problem : RLProblem K Act E)
    (maxEpisodeTimeSteps nbEpisodes nbRuns : Int) (clock : Nat → K) :
    Simulator K Act C L E :=
  { agent := agent, problem := problem, agentAction := none,
    maxEpisodeTimeSteps := maxEpisodeTimeSteps, nbEpisodes := nbEpisodes, nbRuns := nbRuns,
    nbEpisodeDone := 0, endingOfEpisode := false, verbose := true,
    timer := { readings := clock, laps := 0 }, totalTimeInMilliseconds := 0,
    statistics := [], enableStatistics := false, enableTestEpisodesAfterEachRun := false,
    maxTestEpisodesAfterEachRun := 20, timeStep := 0, episodeR := 0, episodeZ := 0,
    onEpisodeEnd := [], trace := [] }

/-- Method `setVerbose` (RL.h 298-301). -/
def setVerbose (s : Simulator K Act C L E) (verbose : Bool) : Simulator K Act C L E :=
  { s with verbose := verbose }

/-- Method `setRuns` (RL.h 303-306). -/
def setRuns (s : Simulator K Act C L E) (nbRuns : Int) : Simulator K Act C L E :=
  { s with nbRuns := nbRuns }

/-- Method `setEpisodes` (RL.h 308-311). -/
def setEpisodes (s : Simulator K Act C L E) (nbEpisodes : Int) : Simulator K Act C L E :=
  { s with nbEpisodes := nbEpisodes }

/-- Method `setEnableStatistics` (RL.h 313-316). -/
def setEnableStatistics (s : Simulator K Act C L E) (enableStatistics : Bool) :
    Simulator K Act C L E :=
  { s with enableStatistics := enableStatistics }

/-- Method `setTestEpisodesAfterEachRun` (RL.h 318-321). -/
def setTestEpisodesAfterEachRun (s : Simulator K Act C L E)
    (enableTestEpisodesAfterEachRun : Bool) : Simulator K Act C L E :=
  { s with enableTestEpisodesAfterEachRun := enableTestEpisodesAfterEachRun }

/-- Method `isBeginingOfEpisode` (RL.h 451-454). -/
def isBeginingOfEpisode (s : Simulator K Act C L E) : Bool := s.agentAction.isNone

/-- Method `isEndingOfEpisode` (RL.h 456-459). -/
def isEndingOfEpisode (s : Simulator K Act C L E) : Bool := s.endingOfEpisode

/-- Method `getMaxEpisodeTimeSteps` (RL.h 466-469). -/
def getMaxEpisodeTimeSteps (s : Simulator K Act C L E) : Int := s.maxEpisodeTimeSteps

/-- Method `benchmark` (RL.h 323-336).  The square root of `<cmath>` is the
argument `sqrt`; the two printed numbers go to the trace. -/
def benchmark [DivisionRing K] (sqrt : K → K) (s : Simulator K Act C L E) :
    Simulator K Act C L E :=
  let xbar := s.statistics.foldl (fun acc x => acc + x) 0 / (s.statistics.length : K)
  let sigmabar0 := s.statistics.foldl (fun acc x => acc + (x - xbar) ^ 2) 0
  let sigmabar := sqrt sigmabar0 / (s.statistics.length : K)
  let se := sigmabar / sqrt (s.statistics.length : K)
  { s with
    trace := s.trace ++ [Effect.average xbar, Effect.interval (se * 2)]
    statistics := [] }

/-- First block of `step()` (RL.h 340-357): initialise the problem and the
episode counters, or step the problem with the pending action. -/
def stepProblem [DivisionRing K] (P : ProblemOps K Act E) (s : Simulator K Act C L E) :
    Simulator K Act C L E :=
  match s.agentAction with
  | none =>
    let problem := P.initialise s.problem
    let endingOfEpisode := false
    { s with
      problem := { problem with output := problem.getTRStep.setForcedEndOfEpisode endingOfEpisode }
      timeStep := 0
      episodeR := 0
      episodeZ := 0
      totalTimeInMilliseconds := 0
      endingOfEpisode := endingOfEpisode
      trace := s.trace ++ [Effect.problemInitialise] }
  | some a =>
    { s with
      problem := P.step s.problem a
      trace := s.trace ++ [Effect.problemStep a] }

/-- Second block of `step()` (RL.h 359-376): ask the agent for the first action,
or update the counters, merge the termination flag and ask for the next
action. -/
def stepAgent [DivisionRing K] (A : AgentOps K Act C L) (s : Simulator K Act C L E) :
    Simulator K Act C L E :=
  match s.agentAction with
  | none =>
    let r := A.initialise s.agent s.problem.getTRStep
    { s with
      agentAction := r.1
      agent := r.2
      trace := s.trace ++ [Effect.agentInitialise s.problem.getTRStep] }
  | some _ =>
    let step := s.problem.getTRStep
    let timeStep := s.timeStep + 1
    let episodeR := s.episodeR + step.r_tp1
    let episodeZ := s.episodeZ + step.z_tp1
    let endingOfEpisode := step.endOfEpisode || decide (timeStep = s.maxEpisodeTimeSteps)
    let step := step.setForcedEndOfEpisode endingOfEpisode
    let timer := s.timer.start
    let r := A.getAtp1 s.agent step
    let timer := timer.stop
    { s with
      problem := { s.problem with output := step }
      timeStep := timeStep
      episodeR := episodeR
      episodeZ := episodeZ
      endingOfEpisode := endingOfEpisode
      timer := timer
      agentAction := r.1
      agent := r.2
      totalTimeInMilliseconds := s.totalTimeInMilliseconds + timer.getElapsedTimeInMilliSec
      trace := s.trace ++ [Effect.agentGetAtp1 step] }

/-- The five assignments to a listener's fields (RL.h 398-402): the values
are read from the simulator when the listener is served. -/
def eventFields [DivisionRing K] (s : Simulator K Act C L E) : EventFields K :=
  { nbTotalTimeSteps := s.timeStep
    nbEpisodeDone := s.nbEpisodeDone
    averageTimePerStep := s.totalTimeInMilliseconds / (s.timeStep : K)
    episodeR := s.episodeR
    episodeZ := s.episodeZ }

/-- The body of the listener loop (RL.h 397-403) for the listener `e` at
position `index`: write its fields, then call its `update()`, which may write
the simulator's public fields. -/
def serve [DivisionRing K] (index : Nat) (e : Event K) (s : Simulator K Act C L E) :
    Event K × Simulator K Act C L E :=
  let f := eventFields s
  let p := e.update f { timeStep := s.timeStep, episodeR := s.episodeR, episodeZ := s.episodeZ }
  ({ e with toEventFields := f },
   { s with
     timeStep := p.timeStep
     episodeR := p.episodeR
     episodeZ := p.episodeZ
     trace := s.trace ++ [Effect.listenerUpdate index f] })

/-- The listener loop of `step()` (RL.h 394-404): `done` are the listeners
already served, the second list those still to serve, in registration order. -/
def fireEvents [DivisionRing K] :
    List (Event K) → List (Event K) → Simulator K Act C L E → Simulator K Act C L E
  | done, [], s => { s with onEpisodeEnd := done }
  | done, e :: rest, s =>
    fireEvents (done ++ [(serve done.length e s).1]) rest (serve done.length e s).2

/-- The progress line of `step()` (RL.h 380-387), printed when `verbose`. -/
def report [DivisionRing K] (s : Simulator K Act C L E) : Simulator K Act C L E :=
  if s.verbose then
    let averageTimePerStep := s.totalTimeInMilliseconds / (s.timeStep : K)
    { s with
      trace := s.trace ++
        [Effect.progress s.nbEpisodeDone s.timeStep s.episodeR s.episodeZ averageTimePerStep] }
  else s

/-- The statistics sample of `step()` (RL.h 388-389). -/
def recordLength [DivisionRing K] (s : Simulator K Act C L E) : Simulator K Act C L E :=
  if s.enableStatistics then { s with statistics := s.statistics ++ [(s.timeStep : K)] }
  else s

/-- The end of the episode in `step()` (RL.h 390-392): count it and clear the
pending action. -/
def closeEpisode (s : Simulator K Act C L E) : Simulator K Act C L E :=
  { s with
    nbEpisodeDone := s.nbEpisodeDone + 1
    agentAction := none
    trace := s.trace ++ [Effect.episodeEnd] }

/-- Third block of `step()` (RL.h 378-405): the end of an episode. -/
def stepEnd [DivisionRing K] (s : Simulator K Act C L E) : Simulator K Act C L E :=
  if s.endingOfEpisode || decide (s.timeStep = s.maxEpisodeTimeSteps) then
    let s3 := closeEpisode (recordLength (report s))
    fireEvents [] s3.onEpisodeEnd s3
  else s

/-- Method `step` (RL.h 338-407). -/
def step [DivisionRing K] (P : ProblemOps K Act E) (A : AgentOps K Act C L)
    (s : Simulator K Act C L E) : Simulator K Act C L E :=
  stepEnd (stepAgent A (stepProblem P s))

/-- Method `runEpisodes` (RL.h 409-415): the `do ... while` loop, with a bound
`fuel` on the number of `step()` calls; `none` when the bound is reached
before the loop condition fails. -/
def runEpisodes [DivisionRing K] (P : ProblemOps K Act E) (A : AgentOps K Act C L) :
    Nat → Simulator K Act C L E → Option (Simulator K Act C L E)
  | 0, _ => none
  | fuel + 1, s =>
    let s1 := step P A s
    if s1.nbEpisodeDone < s1.nbEpisodes then runEpisodes P A fuel s1 else some s1

/-- Method `RLAgent::getRLAgent` (RL.h 72-75). -/
def getRLAgent (ag : RLAgent C L) : C := ag.control

/-- The nested simulator of `runEvaluate` (RL.h 419-422): a fresh
`ControlAgent` over the policy of the agent, the same problem object, the same
step cap, the given counts, and the console of `s` after the line
`@@ Evaluate=`. -/
def evaluationRunner [Zero K] (nbEpisodes nbRuns : Int) (s : Simulator K Act C L E) :
    Simulator K Act C Unit E :=
  let evaluateAgent : RLAgent C Unit := { control := getRLAgent s.agent, self := () }
  { Simulator.new evaluateAgent s.problem s.maxEpisodeTimeSteps nbEpisodes nbRuns
      s.timer.readings with
    trace := s.trace ++ [Effect.evaluateStart s.enableTestEpisodesAfterEachRun] }

/-- Method `runEvaluate(nbEpisodes, nbRuns)` (RL.h 417-426); the C++ defaults
are `nbEpisodes = 20` and `nbRuns = 1`.  The argument `runnerRun` is the method
`run()` of the nested simulator.  The nested simulator works on the same
policy object and the same problem object, so what it leaves of them is what
the outer simulator finds afterwards; it writes to the same console. -/
def runEvaluate [DivisionRing K]
    (runnerRun : Simulator K Act C Unit E → Option (Simulator K Act C Unit E))
    (nbEpisodes nbRuns : Int) (s : Simulator K Act C L E) : Option (Simulator K Act C L E) :=
  match runnerRun (evaluationRunner nbEpisodes nbRuns s) with
  | none => none
  | some r =>
    some { s with
      agent := { s.agent with control := r.agent.control }
      problem := r.problem
      trace := r.trace }

/-- The start of an iteration of the loop of `run()` (RL.h 434-440) for the run
number `run`: the line `@@ Run=`, the statistics sample cleared, the count of
completed episodes back to 0, the agent reset. -/
def startRun (A : AgentOps K Act C L) (run : Int) (s : Simulator K Act C L E) :
    Simulator K Act C L E :=
  let s1 : Simulator K Act C L E :=
    if s.verbose then { s with trace := s.trace ++ [Effect.runStart run] } else s
  let s2 : Simulator K Act C L E :=
    if s1.enableStatistics then { s1 with statistics := [] } else s1
  let s3 : Simulator K Act C L E := { s2 with nbEpisodeDone := 0 }
  { s3 with agent := A.reset s3.agent, trace := s3.trace ++ [Effect.agentReset] }

/-- The body of the loop of `run()` (RL.h 434-446) for the run number `run`;
`evaluate` is the call `runEvaluate(maxTestEpisodesAfterEachRun)` and `fuel`
bounds the `step()` calls of `runEpisodes()`. -/
def runIteration [DivisionRing K] (sqrt : K → K) (P : ProblemOps K Act E)
    (A : AgentOps K Act C L)
    (evaluate : Simulator K Act C L E → Option (Simulator K Act C L E)) (fuel : Nat) (run : Int)
    (s : Simulator K Act C L E) : Option (Simulator K Act C L E) :=
  match runEpisodes P A fuel (startRun A run s) with
  | none => none
  | some s5 =>
    let s6 : Simulator K Act C L E := if s5.enableStatistics then benchmark sqrt s5 else s5
    if s6.enableTestEpisodesAfterEachRun then evaluate s6 else some s6

/-- The loop of `run()` (RL.h 432-447) from run number `run` on, `k` runs
being left: nothing inside the loop assigns `nbRuns`, so the loop makes
`max nbRuns 0` iterations. -/
def runLoop (body : Int → Simulator K Act C L E → Option (Simulator K Act C L E)) :
    Nat → Int → Simulator K Act C L E → Option (Simulator K Act C L E)
  | 0, _, s => some s
  | k + 1, run, s =>
    match body run s with
    | none => none
    | some s1 => runLoop body k (run + 1) s1

/-- Method `run` (RL.h 428-449) with the call of `runEvaluate` as the argument
`evaluate`. -/
def runWith [DivisionRing K] (sqrt : K → K) (P : ProblemOps K Act E) (A : AgentOps K Act C L)
    (evaluate : Simulator K Act C L E → Option (Simulator K Act C L E)) (fuel : Nat)
    (s : Simulator K Act C L E) : Option (Simulator K Act C L E) :=
  let s0 : Simulator K Act C L E :=
    if s.verbose then { s with trace := s.trace ++ [Effect.header] } else s
  runLoop (runIteration sqrt P A evaluate fuel) s0.nbRuns.toNat 0 s0

/-- Method `run` (RL.h 428-449) of a simulator whose agent has the virtual
table `A` over the policy `ctl`.  `run()` calls `runEvaluate()`, which calls
`run()` of the nested simulator: `depth` bounds this nesting (`none` when an
evaluation is due and no depth is left), `fuel` bounds the `step()` calls of
each `runEpisodes()`. -/
def run [DivisionRing K] (sqrt : K → K) (P : ProblemOps K Act E) (ctl : Control K Act C) :
    Nat → (L : Type) → AgentOps K Act C L → Nat → Simulator K Act C L E →
      Option (Simulator K Act C L E)
  | 0, _, A, fuel, s => runWith sqrt P A (fun _ => none) fuel s
  | depth + 1, _, A, fuel, s =>
    runWith sqrt P A
      (fun s6 =>
        runEvaluate (run sqrt P ctl depth Unit (ControlAgent.ops ctl) fuel)
          s6.maxTestEpisodesAfterEachRun 1 s6)
      fuel s

/-- Method `RLAgent::computeValueFunction` (RL.h 77-80), which neither agent
overrides. -/
def agentValue (ctl : Control K Act C) (ag : RLAgent C L) (x : List K) : K :=
  ctl.computeValueFunction ag.control x

/-- The grid of `computeValueFunction` (RL.h 475-487) as effects: open the
sink, then for every `x` and every `y` of `axis` ask the agent and write the
value, a line end after every row, then close the sink. -/
def gridEffects (ctl : Control K Act C) (ag : RLAgent C L) (axis : List K) :
    List (Effect K Act) :=
  [Effect.sinkOpen] ++
    axis.flatMap (fun x =>
      axis.flatMap (fun y =>
        [Effect.valueQuery [x, y], Effect.sinkValue (agentValue ctl ag [x, y])]) ++
      [Effect.sinkEndl]) ++
    [Effect.sinkClose]

/-- Method `computeValueFunction` (RL.h 471-492), a `const` method: only the
history changes.  The loop variable of `for (float x = 0; x <= 10; x += 0.1)`
takes the value 0 and then the values `rest` that float arithmetic gives; `rest`
is an argument. -/
def computeValueFunction [Zero K] (ctl : Control K Act C) (rest : List K)
    (s : Simulator K Act C L E) : Simulator K Act C L E :=
  let s1 : Simulator K Act C L E :=
    if s.problem.dimension = 2 then
      { s with trace := s.trace ++ gridEffects ctl s.agent (0 :: rest) }
    else s
  { s1 with trace := s1.trace ++ [Effect.problemDraw] }

/-! ## Vocabulary of the statements -/

/-- The agent never hands a null action to the simulator. -/
def NonNull (A : AgentOps K Act C L) : Prop :=
  ∀ (ag : RLAgent C L) (r : TRStep K),
    (A.initialise ag r).1 ≠ none ∧ (A.getAtp1 ag r).1 ≠ none

/-- The record the agent is shown in a start-of-episode call from `s`: the one
written by `Problem.initialize`, with the flag cleared by the simulator. -/
def startRecord (P : ProblemOps K Act E) (s : Simulator K Act C L E) : TRStep K :=
  (P.initialise s.problem).getTRStep.setForcedEndOfEpisode false

/-- The record the environment writes in a mid-episode call from `s` with
pending action `a`. -/
def writtenRecord (P : ProblemOps K Act E) (s : Simulator K Act C L E) (a : Act) : TRStep K :=
  (P.step s.problem a).getTRStep

/-- The record the agent is shown in a mid-episode call from `s` with pending
action `a`: the written one, with the merged termination flag. -/
def midRecord (P : ProblemOps K Act E) (s : Simulator K Act C L E) (a : Act) : TRStep K :=
  (writtenRecord P s a).setForcedEndOfEpisode
    ((writtenRecord P s a).endOfEpisode || decide (s.timeStep + 1 = s.maxEpisodeTimeSteps))

/-- The record the environment writes during a `step()` call from `s`: by
`Problem.initialize` in a start-of-episode call, by `Problem.step` in a
mid-episode call. -/
def writtenIn (P : ProblemOps K Act E) (s : Simulator K Act C L E) : TRStep K :=
  match s.agentAction with
  | none => (P.initialise s.problem).getTRStep
  | some a => writtenRecord P s a

/-- The value of `timeStep` after the counter update of a `step()` call from
`s`: the reset in a start-of-episode call, the increment in a mid-episode
call. -/
def updatedTimeStep (s : Simulator K Act C L E) : Int :=
  match s.agentAction with
  | none => 0
  | some _ => s.timeStep + 1

/-- The calls on the problem and on the agent that belong to a `step()` call
from `s`, in order. -/
def callsOf (P : ProblemOps K Act E) (s : Simulator K Act C L E) : List (Effect K Act) :=
  match s.agentAction with
  | none => [Effect.problemInitialise, Effect.agentInitialise (startRecord P s)]
  | some a => [Effect.problemStep a, Effect.agentGetAtp1 (midRecord P s a)]

/-- The action the agent returns in a `step()` call from `s`. -/
def returnedAction (P : ProblemOps K Act E) (A : AgentOps K Act C L)
    (s : Simulator K Act C L E) : Option Act :=
  match s.agentAction with
  | none => (A.initialise s.agent (startRecord P s)).1
  | some a => (A.getAtp1 s.agent (midRecord P s a)).1

/-- The episode ends in the `step()` call from `s`: the count of completed
episodes goes up by one and the pending action is cleared. -/
def EndsEpisode [DivisionRing K] (P : ProblemOps K Act E) (A : AgentOps K Act C L)
    (s : Simulator K Act C L E) : Prop :=
  (step P A s).nbEpisodeDone = s.nbEpisodeDone + 1 ∧ (step P A s).agentAction = none

/-- The test that decides the end of the episode in a `step()` call from `s`:
the flag written by `Problem.step` in a mid-episode call, or the step cap. -/
def capOrFlag (P : ProblemOps K Act E) (s : Simulator K Act C L E) : Prop :=
  (s.agentAction.isSome = true ∧ (writtenIn P s).endOfEpisode = true) ∨
    updatedTimeStep s = s.maxEpisodeTimeSteps

instance capOrFlagDecidable (P : ProblemOps K Act E) (s : Simulator K Act C L E) :
    Decidable (capOrFlag P s) := by
  unfold capOrFlag
  infer_instance

end Simulator

/-- The effects that are calls on the problem or on the agent. -/
def Effect.isCall {K Act : Type} : Effect K Act → Bool
  | Effect.problemInitialise => true
  | Effect.problemStep _ => true
  | Effect.agentInitialise _ => true
  | Effect.agentGetAtp1 _ => true
  | Effect.agentReset => true
  | _ => false

/-- The effects that are neither calls on the problem or the agent nor the end
of an episode: console lines and listener updates. -/
def Effect.isQuiet {K Act : Type} : Effect K Act → Bool
  | Effect.progress _ _ _ _ _ => true
  | Effect.listenerUpdate _ _ => true
  | Effect.average _ => true
  | Effect.interval _ => true
  | _ => false

/-- Where a history of effects stands with respect to episodes. -/
inductive Phase where
  | between : Phase
  | started : Phase
  | inEpisode : Phase
  | stepped : Phase
  deriving DecidableEq, Repr

/-- One move of the episode protocol: an episode is `Problem.initialize`, then
`Agent.initialize`, then any number of pairs `Problem.step`, `Agent.getAtp1`,
then the end of the episode.  Quiet effects do not move; anything else is a
violation (`none`). -/
def Phase.next {K Act : Type} : Phase → Effect K Act → Option Phase
  | p, Effect.progress _ _ _ _ _ => some p
  | p, Effect.listenerUpdate _ _ => some p
  | p, Effect.average _ => some p
  | p, Effect.interval _ => some p
  | Phase.between, Effect.problemInitialise => some Phase.started
  | Phase.between, Effect.agentReset => some Phase.between
  | Phase.started, Effect.agentInitialise _ => some Phase.inEpisode
  | Phase.inEpisode, Effect.problemStep _ => some Phase.stepped
  | Phase.stepped, Effect.agentGetAtp1 _ => some Phase.inEpisode
  | Phase.inEpisode, Effect.episodeEnd => some Phase.between
  | _, _ => none

/-- Run the episode protocol over a history. -/
def Phase.run {K Act : Type} : Phase → List (Effect K Act) → Option Phase
  | p, [] => some p
  | p, x :: t =>
    match Phase.next p x with
    | none => none
    | some q => Phase.run q t

/-! ## Observing the calls on the policy -/

/-- A call on the policy interface, with its arguments. -/
inductive PolicyCall (K Act : Type) where
  | initialise (x : List K) : PolicyCall K Act
  | step (x_t : Option (List K)) (a_t : Option Act) (x_tp1 : List K) (r_tp1 z_tp1 : K) :
      PolicyCall K Act
  | proposeAction (x : List K) : PolicyCall K Act
  | reset : PolicyCall K Act

/-- The policy `ctl` with a log: every state-changing method behaves as in
`ctl` and appends its call to the log kept next to the policy state. -/
def Control.recorded {K Act C : Type} (ctl : Control K Act C) :
    Control K Act (C × List (PolicyCall K Act)) :=
  { initialise := fun c x =>
      ((ctl.initialise c.1 x).1, ((ctl.initialise c.1 x).2, c.2 ++ [PolicyCall.initialise x]))
    step := fun c x_t a_t x_tp1 r z =>
      ((ctl.step c.1 x_t a_t x_tp1 r z).1,
        ((ctl.step c.1 x_t a_t x_tp1 r z).2, c.2 ++ [PolicyCall.step x_t a_t x_tp1 r z]))
    proposeAction := fun c x =>
      ((ctl.proposeAction c.1 x).1,
        ((ctl.proposeAction c.1 x).2, c.2 ++ [PolicyCall.proposeAction x]))
    reset := fun c => (ctl.reset c.1, c.2 ++ [PolicyCall.reset])
    computeValueFunction := fun c x => ctl.computeValueFunction c.1 x }

/-- The calls of the log that are learning steps. -/
def PolicyCall.isStep {K Act : Type} : PolicyCall K Act → Bool
  | PolicyCall.step _ _ _ _ _ => true
  | _ => false

/-! ## Vocabulary for runs -/

/-- The simulator `s'` has the configuration of `s`: the step cap, the counts,
the switches, the clock and the listeners' `update()` are the same. -/
structure Simulator.SameSetup {K Act C L L' E : Type} (s : Simulator K Act C L E)
    (s' : Simulator K Act C L' E) : Prop where
  maxEpisodeTimeSteps : s'.maxEpisodeTimeSteps = s.maxEpisodeTimeSteps
  nbEpisodes : s'.nbEpisodes = s.nbEpisodes
  nbRuns : s'.nbRuns = s.nbRuns
  verbose : s'.verbose = s.verbose
  enableStatistics : s'.enableStatistics = s.enableStatistics
  enableTestEpisodesAfterEachRun :
    s'.enableTestEpisodesAfterEachRun = s.enableTestEpisodesAfterEachRun
  maxTestEpisodesAfterEachRun : s'.maxTestEpisodesAfterEachRun = s.maxTestEpisodesAfterEachRun
  readings : s'.timer.readings = s.timer.readings
  updates : s'.onEpisodeEnd.map Event.update = s.onEpisodeEnd.map Event.update

/-- The calls of the log that are `proposeAction` calls. -/
def PolicyCall.isPropose {K Act : Type} : PolicyCall K Act → Bool
  | PolicyCall.proposeAction _ => true
  | _ => false

/-- From `ag` to `ag'` the policy object is the same and the only calls made
on it are `proposeAction` calls. -/
def PolicyKept {K Act C L L' : Type} (ag : RLAgent (C × List (PolicyCall K Act)) L)
    (ag' : RLAgent (C × List (PolicyCall K Act)) L') : Prop :=
  ag'.control.1 = ag.control.1 ∧
    ∃ calls : List (PolicyCall K Act),
      ag'.control.2 = ag.control.2 ++ calls ∧ ∀ c ∈ calls, c.isPropose = true

/-- Inside an episode the counter `timeStep` is below the step cap and not
negative. -/
def Simulator.BelowCap {K Act C L E : Type} (s : Simulator K Act C L E) : Prop :=
  s.agentAction = none ∨ (0 ≤ s.timeStep ∧ s.timeStep < s.maxEpisodeTimeSteps)

/-! ## Vocabulary for the listeners -/

/-- The effects that are listener updates. -/
def Effect.isUpdate {K Act : Type} : Effect K Act → Bool
  | Effect.listenerUpdate _ _ => true
  | _ => false

/-- The updates of consecutive listeners from position `start` on, in order,
each with the fields that listener holds when its `update()` is called. -/
def listenerUpdates {K Act : Type} : Nat → List (EventFields K) → List (Effect K Act)
  | _, [] => []
  | start, f :: fs => Effect.listenerUpdate start f :: listenerUpdates (start + 1) fs

/-- The summary of the episode that ends in the `step()` call from `s`: the
simulator's values when the end-of-episode block is entered, with the count of
completed episodes already incremented. -/
def Simulator.episodeSummary {K Act C L E : Type} [DivisionRing K] (P : ProblemOps K Act E)
    (A : AgentOps K Act C L) (s : Simulator K Act C L E) : EventFields K :=
  { nbTotalTimeSteps := (Simulator.stepAgent A (Simulator.stepProblem P s)).timeStep
    nbEpisodeDone := (Simulator.stepAgent A (Simulator.stepProblem P s)).nbEpisodeDone + 1
    averageTimePerStep :=
      (Simulator.stepAgent A (Simulator.stepProblem P s)).totalTimeInMilliseconds /
        ((Simulator.stepAgent A (Simulator.stepProblem P s)).timeStep : K)
    episodeR := (Simulator.stepAgent A (Simulator.stepProblem P s)).episodeR
    episodeZ := (Simulator.stepAgent A (Simulator.stepProblem P s)).episodeZ }

/-! ## The swing pendulum (`src/simulation/SwingPendulum.h`) -/

/-- The functions and the constant of `<cmath>` that the pendulum uses: `sin`,
`cos` and `M_PI`.  They are arguments, so that the embedding can be evaluated
over the rationals and stated over the reals. -/
structure Libm (K : Type) where
  sin : K → K
  cos : K → K
  pi : K

/-- Modelled from the spec: `Math.h` is not part of the sources; a
`Range<T>(min, max)` is the bounded range of a variable, given by its two
bounds. -/
structure Range (K : Type) where
  minValue : K
  maxValue : K

/-- Modelled from the spec: `Range::min` of the absent `Math.h`. -/
def Range.min {K : Type} (r : Range K) : K := r.minValue

/-- Modelled from the spec: `Range::max` of the absent `Math.h`. -/
def Range.max {K : Type} (r : Range K) : K := r.maxValue

/-- Modelled from the spec: `Range::length` of the absent `Math.h`, the
distance between the bounds. -/
def Range.length {K : Type} [Sub K] (r : Range K) : K := r.maxValue - r.minValue

/-- Modelled from the spec: `Range::bound` of the absent `Math.h` clamps a value
into the range. -/
def Range.bound {K : Type} [LinearOrder K] (r : Range K) (x : K) : K :=
  Max.max r.minValue (Min.min x r.maxValue)

/-- Modelled from the spec: `Range::chooseRandom` of the absent `Math.h` picks a
point of the range; `u` is the random number between 0 and 1 that it draws. -/
def Range.chooseRandom {K : Type} [Field K] (r : Range K) (u : K) : K :=
  r.minValue + u * (r.maxValue - r.minValue)

/-- Modelled from the spec: `Action.h` is not part of the sources; an action
is the vector of its values and `at(i)` is the `i`-th of them. -/
def Action.at {K : Type} [Zero K] (a : List K) (i : Nat) : K := a.getD i 0

/-- Own fields of `SwingPendulum<T>` (SwingPendulum.h 34-43), and the source
of the random numbers: the `k`-th draw gives `draws k`. -/
structure SwingPendulumFields (K : Type) where
  uMax : K
  stepTime : K
  theta : K
  velocity : K
  maxVelocity : K
  actionRange : Range K
  thetaRange : Range K
  velocityRange : Range K
  mass : K
  length : K
  g : K
  requiredUpTime : K
  upRange : K
  upTime : Int
  random : Bool
  draws : Nat → K
  drawn : Nat

namespace SwingPendulum

variable {K : Type} [LinearOrderedField K]

/-- Constructor `SwingPendulum(random)` (SwingPendulum.h 45-63). -/
def new (m : Libm K) (random : Bool) (draws : Nat → K) :
    RLProblem K (List K) (SwingPendulumFields K) :=
  let uMax : K := 2
  let stepTime : K := 1 / 100
  let maxVelocity : K := m.pi / 4 / stepTime
  let actionRange : Range K := { minValue := -uMax, maxValue := uMax }
  { observations := PVector 2
    resolutions := (PVector 2 : List K).map (fun _ => 10)
    output := TRStep.new 2
    discreteActions := [[actionRange.min], [0], [actionRange.max]]
    continuousActions := [[0]]
    env :=
      { uMax := uMax, stepTime := stepTime, theta := 0, velocity := 0,
        maxVelocity := maxVelocity, actionRange := actionRange,
        thetaRange := { minValue := -m.pi, maxValue := m.pi },
        velocityRange := { minValue := -maxVelocity, maxValue := maxVelocity },
        mass := 1, length := 1, g := 98 / 10, requiredUpTime := 10, upRange := m.pi / 4,
        upTime := 0, random := random, draws := draws, drawn := 0 } }

/-- Method `adjustTheta` (SwingPendulum.h 73-79). -/
def adjustTheta (m : Libm K) (e : SwingPendulumFields K) : SwingPendulumFields K :=
  let e1 : SwingPendulumFields K :=
    if m.pi ≤ e.theta then { e with theta := e.theta - 2 * m.pi } else e
  if e1.theta < -m.pi then { e1 with theta := e1.theta + 2 * m.pi } else e1

/-- Method `endOfEpisode` (SwingPendulum.h 119-123): always false, the
criterion on the up time is commented out. -/
def endOfEpisode (_p : RLProblem K (List K) (SwingPendulumFields K)) : Bool := false

/-- Method `r` (SwingPendulum.h 124-127). -/
def r (m : Libm K) (p : RLProblem K (List K) (SwingPendulumFields K)) : K :=
  m.cos p.env.theta

/-- Method `z` (SwingPendulum.h 128-131). -/
def z (_p : RLProblem K (List K) (SwingPendulumFields K)) : K := 0

/-- Method `updateRTStep` (SwingPendulum.h 82-94). -/
def updateRTStep (m : Libm K) (p : RLProblem K (List K) (SwingPendulumFields K)) :
    RLProblem K (List K) (SwingPendulumFields K) :=
  let vars := p.output.o_tp1
  let vars := vars.set 0
    ((p.env.theta - p.env.thetaRange.min) * p.resolutions.getD 0 0 / p.env.thetaRange.length)
  let vars := vars.set 1
    ((p.env.velocity - p.env.velocityRange.min) * p.resolutions.getD 1 0 /
      p.env.velocityRange.length)
  let observations := (p.observations.set 0 p.env.theta).set 1 p.env.velocity
  { p with
    observations := observations
    output := ({ p.output with o_tp1 := vars }).updateRTStep (r m p) (z p) (endOfEpisode p) }

/-- Method `initialize` (SwingPendulum.h 95-105); `initialize` is a reserved
word of Lean. -/
def initialise (m : Libm K) (p : RLProblem K (List K) (SwingPendulumFields K)) :
    RLProblem K (List K) (SwingPendulumFields K) :=
  let e := p.env
  let e1 : SwingPendulumFields K := { e with upTime := 0 }
  let e2 : SwingPendulumFields K :=
    if e1.random then
      { e1 with
        theta := e1.thetaRange.chooseRandom (e1.draws e1.drawn)
        drawn := e1.drawn + 1 }
    else { e1 with theta := m.pi / 2 }
  let e3 : SwingPendulumFields K := { e2 with velocity := 0 }
  updateRTStep m { p with env := adjustTheta m e3 }

/-- Method `step` (SwingPendulum.h 107-118). -/
def step (m : Libm K) (p : RLProblem K (List K) (SwingPendulumFields K)) (a : List K) :
    RLProblem K (List K) (SwingPendulumFields K) :=
  let e := p.env
  let torque := e.actionRange.bound (Action.at a 0)
  let thetaAcc := -e.stepTime * e.velocity + e.mass * e.g * e.length * m.sin e.theta + torque
  let e1 : SwingPendulumFields K :=
    { e with velocity := e.velocityRange.bound (e.velocity + thetaAcc) }
  let e2 : SwingPendulumFields K := { e1 with theta := e1.theta + e1.velocity * e1.stepTime }
  let e3 := adjustTheta m e2
  let e4 : SwingPendulumFields K :=
    { e3 with upTime := if e3.upRange < |e3.theta| then 0 else e3.upTime + 1 }
  updateRTStep m { p with env := e4 }

/-- The virtual table of `SwingPendulum<T>`. -/
def ops (m : Libm K) : ProblemOps K (List K) (SwingPendulumFields K) :=
  { initialise := initialise m
    step := step m }

/-- The constants of the state are the ones that the constructor sets
(SwingPendulum.h 46-49): the time step, the largest velocity and the declared
ranges of theta and of the velocity. -/
def Declared (m : Libm K) (e : SwingPendulumFields K) : Prop :=
  e.stepTime = 1 / 100 ∧ e.maxVelocity = m.pi / 4 / e.stepTime ∧
  e.thetaRange.minValue = -m.pi ∧ e.thetaRange.maxValue = m.pi ∧
  e.velocityRange.minValue = -e.maxVelocity ∧ e.velocityRange.maxValue = e.maxVelocity

instance declaredDecidable (m : Libm K) (e : SwingPendulumFields K) :
    Decidable (Declared m e) := by
  unfold Declared
  infer_instance

/-- The angle is in `[-pi, pi)` and the velocity is at most `maxVelocity` in
absolute value. -/
def InRange (m : Libm K) (e : SwingPendulumFields K) : Prop :=
  -m.pi ≤ e.theta ∧ e.theta < m.pi ∧ |e.velocity| ≤ e.maxVelocity

instance inRangeDecidable (m : Libm K) (e : SwingPendulumFields K) :
    Decidable (InRange m e) := by
  unfold InRange
  infer_instance

end SwingPendulum

/-! ## Concrete objects for the examples -/

namespace Demo

/-- A counting environment: `initialize` resets the counter and writes reward
5 with termination flag `flagAtStart`; `step(a)` adds `a` to the counter,
writes reward 2 and signals termination once the counter reaches 3. -/
def problem (flagAtStart : Bool) : ProblemOps ℚ Nat Nat :=
  { initialise := fun p =>
      { p with
        env := 0
        output := { o_tp1 := [0], r_tp1 := 5, z_tp1 := 1, endOfEpisode := flagAtStart } }
    step := fun p a =>
      { p with
        env := p.env + a
        output :=
          { o_tp1 := [((p.env + a : Nat) : ℚ)], r_tp1 := 2, z_tp1 := 1,
            endOfEpisode := decide (3 ≤ p.env + a) } } }

/-- An agent that always returns the action 1. -/
def agent : AgentOps ℚ Nat Unit Unit :=
  { initialise := fun ag _ => (some 1, ag)
    getAtp1 := fun ag _ => (some 1, ag)
    reset := fun ag => ag }

/-- A freshly constructed simulator over the counting environment. -/
def sim (maxEpisodeTimeSteps nbEpisodes : Int) : Simulator ℚ Nat Unit Unit Nat :=
  Simulator.new { control := (), self := () }
    { observations := [0], resolutions := [1], output := TRStep.new 1, discreteActions := [1],
      continuousActions := [], env := 0 }
    maxEpisodeTimeSteps nbEpisodes 1 (fun _ => 0)

/-- A policy without state that always answers with the action 1. -/
def policy : Control ℚ Nat Unit :=
  { initialise := fun c _ => (some 1, c)
    step := fun c _ _ _ _ _ => (some 1, c)
    proposeAction := fun c _ => (some 1, c)
    reset := fun c => c
    computeValueFunction := fun _ _ => 0 }

/-- A freshly constructed simulator over the counting environment and a fresh
`LearnerAgent` whose policy is `policy` with an empty log. -/
def learnerSim (maxEpisodeTimeSteps nbEpisodes : Int) :
    Simulator ℚ Nat (Unit × List (PolicyCall ℚ Nat)) (LearnerFields ℚ Nat) Nat :=
  Simulator.new (LearnerAgent.new ((), []))
    { observations := [0], resolutions := [1], output := TRStep.new 1, discreteActions := [1],
      continuousActions := [], env := 0 }
    maxEpisodeTimeSteps nbEpisodes 1 (fun _ => 0)

/-- A freshly constructed simulator over real numbers that holds the
statistics sample `[10, 20, 30]`. -/
def sampleSim : Simulator ℝ Nat Unit Unit Nat :=
  { Simulator.new { control := (), self := () }
      { observations := [], resolutions := [], output := TRStep.new 0, discreteActions := [],
        continuousActions := [], env := 0 }
      5 3 1 (fun _ => 0) with
    statistics := [10, 20, 30] }

/-- A policy without state that always answers with a null action. -/
def nullPolicy : Control ℚ Nat Unit :=
  { initialise := fun c _ => (none, c)
    step := fun c _ _ _ _ _ => (none, c)
    proposeAction := fun c _ => (none, c)
    reset := fun c => c
    computeValueFunction := fun _ _ => 0 }

/-- A freshly constructed simulator over the counting environment with the
evaluation after each run switched on. -/
def evaluatedSim (maxEpisodeTimeSteps nbEpisodes : Int) : Simulator ℚ Nat Unit Unit Nat :=
  (sim maxEpisodeTimeSteps nbEpisodes).setTestEpisodesAfterEachRun true

/-- As `evaluatedSim`, with statistics switched on as well. -/
def measuredSim (maxEpisodeTimeSteps nbEpisodes : Int) : Simulator ℚ Nat Unit Unit Nat :=
  (evaluatedSim maxEpisodeTimeSteps nbEpisodes).setEnableStatistics true

/-- The freshly constructed non-random pendulum, put at its largest declared
velocity `maxVelocity`, the value at which `step` clamps the velocity. -/
def fastPendulum {K : Type} [LinearOrderedField K] (m : Libm K) :
    RLProblem K (List K) (SwingPendulumFields K) :=
  let p := SwingPendulum.new m false (fun _ => 0)
  { p with env := { p.env with velocity := p.env.maxVelocity } }

/-- An agent for the pendulum that always returns the torque 2. -/
def pushAgent {K : Type} [LinearOrderedField K] : AgentOps K (List K) Unit Unit :=
  { initialise := fun ag _ => (some [2], ag)
    getAtp1 := fun ag _ => (some [2], ag)
    reset := fun ag => ag }

/-- A freshly constructed simulator over the non-random pendulum, for one
episode and one run, with step cap `maxEpisodeTimeSteps`. -/
def pendulumSim {K : Type} [LinearOrderedField K] (m : Libm K) (maxEpisodeTimeSteps : Int) :
    Simulator K (List K) Unit Unit (SwingPendulumFields K) :=
  Simulator.new { control := (), self := () } (SwingPendulum.new m false (fun _ => 0))
    maxEpisodeTimeSteps 1 1 (fun _ => 0)

/-- The freshly constructed random pendulum whose random numbers are all 1,
the largest number that can be drawn. -/
def randomPendulum {K : Type} [LinearOrderedField K] (m : Libm K) :
    RLProblem K (List K) (SwingPendulumFields K) :=
  SwingPendulum.new m true (fun _ => 1)

end Demo

end RLLib

/-! ## The listener loop and the end-of-episode block -/

namespace RLLib

namespace Simulator

variable {K Act C L E : Type} [DivisionRing K]

theorem fireEvents_agentAction (l : List (Event K)) (d : List (Event K))
    (s : Simulator K Act C L E) : (fireEvents d l s).agentAction = s.agentAction := by
  induction l generalizing d s with
  | nil => rfl
  | cons e rest ih => rw [fireEvents, ih]; rfl

theorem fireEvents_nbEpisodeDone (l : List (Event K)) (d : List (Event K))
    (s : Simulator K Act C L E) : (fireEvents d l s).nbEpisodeDone = s.nbEpisodeDone := by
  induction l generalizing d s with
  | nil => rfl
  | cons e rest ih => rw [fireEvents, ih]; rfl

theorem fireEvents_nbEpisodes (l : List (Event K)) (d : List (Event K))
    (s : Simulator K Act C L E) : (fireEvents d l s).nbEpisodes = s.nbEpisodes := by
  induction l generalizing d s with
  | nil => rfl
  | cons e rest ih => rw [fireEvents, ih]; rfl

theorem fireEvents_maxEpisodeTimeSteps (l : List (Event K)) (d : List (Event K))
    (s : Simulator K Act C L E) :
    (fireEvents d l s).maxEpisodeTimeSteps = s.maxEpisodeTimeSteps := by
  induction l generalizing d s with
  | nil => rfl
  | cons e rest ih => rw [fireEvents, ih]; rfl

theorem fireEvents_agent (l : List (Event K)) (d : List (Event K))
    (s : Simulator K Act C L E) : (fireEvents d l s).agent = s.agent := by
  induction l generalizing d s with
  | nil => rfl
  | cons e rest ih => rw [fireEvents, ih]; rfl

theorem fireEvents_problem (l : List (Event K)) (d : List (Event K))
    (s : Simulator K Act C L E) : (fireEvents d l s).problem = s.problem := by
  induction l generalizing d s with
  | nil => rfl
  | cons e rest ih => rw [fireEvents, ih]; rfl

theorem fireEvents_statistics (l : List (Event K)) (d : List (Event K))
    (s : Simulator K Act C L E) : (fireEvents d l s).statistics = s.statistics := by
  induction l generalizing d s with
  | nil => rfl
  | cons e rest ih => rw [fireEvents, ih]; rfl

theorem fireEvents_endingOfEpisode (l : List (Event K)) (d : List (Event K))
    (s : Simulator K Act C L E) : (fireEvents d l s).endingOfEpisode = s.endingOfEpisode := by
  induction l generalizing d s with
  | nil => rfl
  | cons e rest ih => rw [fireEvents, ih]; rfl

theorem fireEvents_updates (l : List (Event K)) (d : List (Event K))
    (s : Simulator K Act C L E) :
    (fireEvents d l s).onEpisodeEnd.map Event.update = (d ++ l).map Event.update := by
  induction l generalizing d s with
  | nil => simp [fireEvents]
  | cons e rest ih => rw [fireEvents, ih]; simp [serve]

theorem fireEvents_trace (l : List (Event K)) (d : List (Event K))
    (s : Simulator K Act C L E) :
    ∃ t : List (Effect K Act), (∀ x ∈ t, x.isQuiet = true) ∧
      (fireEvents d l s).trace = s.trace ++ t := by
  induction l generalizing d s with
  | nil => exact ⟨[], by simp, by simp [fireEvents]⟩
  | cons e rest ih =>
    obtain ⟨t, h1, h2⟩ := ih (d ++ [(serve d.length e s).1]) (serve d.length e s).2
    refine ⟨Effect.listenerUpdate d.length (eventFields s) :: t, ?_, ?_⟩
    · intro x hx
      rcases List.mem_cons.mp hx with rfl | hx
      · rfl
      · exact h1 x hx
    · rw [fireEvents, h2]; simp [serve]

end Simulator

end RLLib

namespace RLLib

namespace Simulator

variable {K Act C L E : Type} [DivisionRing K]

theorem report_fields (s : Simulator K Act C L E) :
    (report s).agentAction = s.agentAction ∧ (report s).nbEpisodeDone = s.nbEpisodeDone ∧
    (report s).nbEpisodes = s.nbEpisodes ∧
    (report s).maxEpisodeTimeSteps = s.maxEpisodeTimeSteps ∧ (report s).agent = s.agent ∧
    (report s).problem = s.problem ∧ (report s).statistics = s.statistics ∧
    (report s).endingOfEpisode = s.endingOfEpisode ∧ (report s).onEpisodeEnd = s.onEpisodeEnd ∧
    (report s).timeStep = s.timeStep ∧ (report s).episodeR = s.episodeR ∧
    (report s).episodeZ = s.episodeZ ∧ (report s).enableStatistics = s.enableStatistics := by
  unfold report
  split <;> simp

theorem recordLength_fields (s : Simulator K Act C L E) :
    (recordLength s).agentAction = s.agentAction ∧
    (recordLength s).nbEpisodeDone = s.nbEpisodeDone ∧
    (recordLength s).nbEpisodes = s.nbEpisodes ∧
    (recordLength s).maxEpisodeTimeSteps = s.maxEpisodeTimeSteps ∧
    (recordLength s).agent = s.agent ∧ (recordLength s).problem = s.problem ∧
    (recordLength s).trace = s.trace ∧
    (recordLength s).endingOfEpisode = s.endingOfEpisode ∧
    (recordLength s).onEpisodeEnd = s.onEpisodeEnd ∧
    (recordLength s).timeStep = s.timeStep ∧ (recordLength s).episodeR = s.episodeR ∧
    (recordLength s).episodeZ = s.episodeZ := by
  unfold recordLength
  split <;> simp

theorem report_trace (s : Simulator K Act C L E) :
    ∃ t : List (Effect K Act), (∀ x ∈ t, x.isQuiet = true) ∧ (report s).trace = s.trace ++ t := by
  unfold report
  split
  · exact ⟨[Effect.progress s.nbEpisodeDone s.timeStep s.episodeR s.episodeZ
      (s.totalTimeInMilliseconds / (s.timeStep : K))], by simp [Effect.isQuiet], rfl⟩
  · exact ⟨[], by simp, by simp⟩

/-- The state on which the listener loop starts when the episode ends. -/
theorem closed_fields (s : Simulator K Act C L E) :
    (closeEpisode (recordLength (report s))).agentAction = none ∧
    (closeEpisode (recordLength (report s))).nbEpisodeDone = s.nbEpisodeDone + 1 ∧
    (closeEpisode (recordLength (report s))).nbEpisodes = s.nbEpisodes ∧
    (closeEpisode (recordLength (report s))).maxEpisodeTimeSteps = s.maxEpisodeTimeSteps ∧
    (closeEpisode (recordLength (report s))).agent = s.agent ∧
    (closeEpisode (recordLength (report s))).problem = s.problem ∧
    (closeEpisode (recordLength (report s))).endingOfEpisode = s.endingOfEpisode ∧
    (closeEpisode (recordLength (report s))).onEpisodeEnd = s.onEpisodeEnd ∧
    (closeEpisode (recordLength (report s))).timeStep = s.timeStep ∧
    (closeEpisode (recordLength (report s))).episodeR = s.episodeR ∧
    (closeEpisode (recordLength (report s))).episodeZ = s.episodeZ := by
  obtain ⟨a1, a2, a3, a4, a5, a6, -, a8, a9, a10, a11, a12, -⟩ := report_fields s
  obtain ⟨b1, b2, b3, b4, b5, b6, -, b8, b9, b10, b11, b12⟩ := recordLength_fields (report s)
  simp only [closeEpisode]
  refine ⟨trivial, ?_, ?_, ?_, ?_, ?_, ?_, ?_, ?_, ?_, ?_⟩
  · rw [b2, a2]
  · rw [b3, a3]
  · rw [b4, a4]
  · rw [b5, a5]
  · rw [b6, a6]
  · rw [b8, a8]
  · rw [b9, a9]
  · rw [b10, a10]
  · rw [b11, a11]
  · rw [b12, a12]

theorem stepEnd_of_not (s : Simulator K Act C L E)
    (h : ¬ (s.endingOfEpisode = true ∨ s.timeStep = s.maxEpisodeTimeSteps)) :
    stepEnd s = s := by
  simp only [not_or] at h
  simp [stepEnd, h.1, h.2]

theorem stepEnd_of (s : Simulator K Act C L E)
    (h : s.endingOfEpisode = true ∨ s.timeStep = s.maxEpisodeTimeSteps) :
    stepEnd s = fireEvents [] s.onEpisodeEnd (closeEpisode (recordLength (report s))) := by
  have hc : (s.endingOfEpisode || decide (s.timeStep = s.maxEpisodeTimeSteps)) = true := by
    simpa using h
  simp only [stepEnd, hc, if_true]
  rw [(closed_fields s).2.2.2.2.2.2.2.1]

theorem stepEnd_nbEpisodeDone (s : Simulator K Act C L E) :
    (stepEnd s).nbEpisodeDone =
      if s.endingOfEpisode = true ∨ s.timeStep = s.maxEpisodeTimeSteps then s.nbEpisodeDone + 1
      else s.nbEpisodeDone := by
  by_cases h : s.endingOfEpisode = true ∨ s.timeStep = s.maxEpisodeTimeSteps
  · rw [if_pos h, stepEnd_of s h, fireEvents_nbEpisodeDone, (closed_fields s).2.1]
  · rw [if_neg h, stepEnd_of_not s h]

theorem stepEnd_agentAction (s : Simulator K Act C L E) :
    (stepEnd s).agentAction =
      if s.endingOfEpisode = true ∨ s.timeStep = s.maxEpisodeTimeSteps then none
      else s.agentAction := by
  by_cases h : s.endingOfEpisode = true ∨ s.timeStep = s.maxEpisodeTimeSteps
  · rw [if_pos h, stepEnd_of s h, fireEvents_agentAction, (closed_fields s).1]
  · rw [if_neg h, stepEnd_of_not s h]

theorem stepEnd_config (s : Simulator K Act C L E) :
    (stepEnd s).maxEpisodeTimeSteps = s.maxEpisodeTimeSteps ∧
    (stepEnd s).nbEpisodes = s.nbEpisodes ∧ (stepEnd s).agent = s.agent ∧
    (stepEnd s).problem = s.problem ∧ (stepEnd s).endingOfEpisode = s.endingOfEpisode ∧
    (stepEnd s).onEpisodeEnd.map Event.update = s.onEpisodeEnd.map Event.update := by
  by_cases h : s.endingOfEpisode = true ∨ s.timeStep = s.maxEpisodeTimeSteps
  · obtain ⟨-, -, c3, c4, c5, c6, c7, -⟩ := closed_fields s
    rw [stepEnd_of s h, fireEvents_maxEpisodeTimeSteps, fireEvents_nbEpisodes, fireEvents_agent,
      fireEvents_problem, fireEvents_endingOfEpisode, fireEvents_updates]
    exact ⟨c4, c3, c5, c6, c7, by simp⟩
  · rw [stepEnd_of_not s h]
    exact ⟨rfl, rfl, rfl, rfl, rfl, rfl⟩

theorem stepEnd_trace (s : Simulator K Act C L E) :
    ∃ t1 t2 : List (Effect K Act), (∀ x ∈ t1, x.isQuiet = true) ∧ (∀ x ∈ t2, x.isQuiet = true) ∧
      (stepEnd s).trace = s.trace ++ t1 ++
        (if s.endingOfEpisode = true ∨ s.timeStep = s.maxEpisodeTimeSteps
          then [Effect.episodeEnd] else []) ++ t2 := by
  by_cases h : s.endingOfEpisode = true ∨ s.timeStep = s.maxEpisodeTimeSteps
  · obtain ⟨t1, q1, e1⟩ := report_trace s
    obtain ⟨t2, q2, e2⟩ := fireEvents_trace s.onEpisodeEnd []
      (closeEpisode (recordLength (report s)))
    refine ⟨t1, t2, q1, q2, ?_⟩
    rw [if_pos h, stepEnd_of s h, e2]
    simp only [closeEpisode]
    rw [(recordLength_fields (report s)).2.2.2.2.2.2.1, e1]
  · rw [if_neg h, stepEnd_of_not s h]
    exact ⟨[], [], by simp, by simp, by simp⟩

end Simulator

end RLLib

/-! ## The first two blocks of `step()` -/

namespace RLLib

namespace Simulator

variable {K Act C L E : Type} [DivisionRing K]

theorem advance_start (P : ProblemOps K Act E) (A : AgentOps K Act C L)
    (s : Simulator K Act C L E) (h : s.agentAction = none) :
    (stepAgent A (stepProblem P s)).endingOfEpisode = false ∧
    (stepAgent A (stepProblem P s)).timeStep = 0 ∧
    (stepAgent A (stepProblem P s)).episodeR = 0 ∧
    (stepAgent A (stepProblem P s)).episodeZ = 0 ∧
    (stepAgent A (stepProblem P s)).maxEpisodeTimeSteps = s.maxEpisodeTimeSteps ∧
    (stepAgent A (stepProblem P s)).nbEpisodes = s.nbEpisodes ∧
    (stepAgent A (stepProblem P s)).nbEpisodeDone = s.nbEpisodeDone ∧
    (stepAgent A (stepProblem P s)).onEpisodeEnd = s.onEpisodeEnd ∧
    (stepAgent A (stepProblem P s)).agentAction = (A.initialise s.agent (startRecord P s)).1 ∧
    (stepAgent A (stepProblem P s)).agent = (A.initialise s.agent (startRecord P s)).2 ∧
    (stepAgent A (stepProblem P s)).problem =
      { P.initialise s.problem with output := startRecord P s } ∧
    (stepAgent A (stepProblem P s)).trace =
      s.trace ++ [Effect.problemInitialise, Effect.agentInitialise (startRecord P s)] := by
  simp [stepAgent, stepProblem, h, startRecord, RLProblem.getTRStep]

theorem advance_mid (P : ProblemOps K Act E) (A : AgentOps K Act C L)
    (s : Simulator K Act C L E) (a : Act) (h : s.agentAction = some a) :
    (stepAgent A (stepProblem P s)).endingOfEpisode =
      ((writtenRecord P s a).endOfEpisode || decide (s.timeStep + 1 = s.maxEpisodeTimeSteps)) ∧
    (stepAgent A (stepProblem P s)).timeStep = s.timeStep + 1 ∧
    (stepAgent A (stepProblem P s)).episodeR = s.episodeR + (writtenRecord P s a).r_tp1 ∧
    (stepAgent A (stepProblem P s)).episodeZ = s.episodeZ + (writtenRecord P s a).z_tp1 ∧
    (stepAgent A (stepProblem P s)).maxEpisodeTimeSteps = s.maxEpisodeTimeSteps ∧
    (stepAgent A (stepProblem P s)).nbEpisodes = s.nbEpisodes ∧
    (stepAgent A (stepProblem P s)).nbEpisodeDone = s.nbEpisodeDone ∧
    (stepAgent A (stepProblem P s)).onEpisodeEnd = s.onEpisodeEnd ∧
    (stepAgent A (stepProblem P s)).agentAction = (A.getAtp1 s.agent (midRecord P s a)).1 ∧
    (stepAgent A (stepProblem P s)).agent = (A.getAtp1 s.agent (midRecord P s a)).2 ∧
    (stepAgent A (stepProblem P s)).problem =
      { P.step s.problem a with output := midRecord P s a } ∧
    (stepAgent A (stepProblem P s)).trace =
      s.trace ++ [Effect.problemStep a, Effect.agentGetAtp1 (midRecord P s a)] := by
  simp [stepAgent, stepProblem, h, midRecord, writtenRecord, RLProblem.getTRStep, Timer.start,
    Timer.stop, Timer.getElapsedTimeInMilliSec]

end Simulator

end RLLib

/-! ## One call of `step()` -/

namespace RLLib

namespace Simulator

variable {K Act C L E : Type} [DivisionRing K]

theorem capOrFlag_iff_test (P : ProblemOps K Act E) (A : AgentOps K Act C L)
    (s : Simulator K Act C L E) :
    ((stepAgent A (stepProblem P s)).endingOfEpisode = true ∨
      (stepAgent A (stepProblem P s)).timeStep =
        (stepAgent A (stepProblem P s)).maxEpisodeTimeSteps) ↔ capOrFlag P s := by
  cases h : s.agentAction with
  | none =>
    obtain ⟨h1, h2, -, -, h5, -⟩ := advance_start P A s h
    rw [h1, h2, h5]
    simp [capOrFlag, updatedTimeStep, h]
  | some a =>
    obtain ⟨h1, h2, -, -, h5, -⟩ := advance_mid P A s a h
    rw [h1, h2, h5]
    simp [capOrFlag, updatedTimeStep, writtenIn, h]

theorem step_nbEpisodeDone (P : ProblemOps K Act E) (A : AgentOps K Act C L)
    (s : Simulator K Act C L E) :
    (step P A s).nbEpisodeDone = if capOrFlag P s then s.nbEpisodeDone + 1 else s.nbEpisodeDone := by
  have hd : (stepAgent A (stepProblem P s)).nbEpisodeDone = s.nbEpisodeDone := by
    cases h : s.agentAction with
    | none => exact (advance_start P A s h).2.2.2.2.2.2.1
    | some a => exact (advance_mid P A s a h).2.2.2.2.2.2.1
  rw [step, stepEnd_nbEpisodeDone, hd]
  by_cases hc : capOrFlag P s
  · rw [if_pos hc, if_pos ((capOrFlag_iff_test P A s).mpr hc)]
  · rw [if_neg hc, if_neg (fun h => hc ((capOrFlag_iff_test P A s).mp h))]

theorem step_agentAction (P : ProblemOps K Act E) (A : AgentOps K Act C L)
    (s : Simulator K Act C L E) :
    (step P A s).agentAction = if capOrFlag P s then none else returnedAction P A s := by
  have hd : (stepAgent A (stepProblem P s)).agentAction = returnedAction P A s := by
    cases h : s.agentAction with
    | none => simpa [returnedAction, h] using (advance_start P A s h).2.2.2.2.2.2.2.2.1
    | some a => simpa [returnedAction, h] using (advance_mid P A s a h).2.2.2.2.2.2.2.2.1
  rw [step, stepEnd_agentAction, hd]
  by_cases hc : capOrFlag P s
  · rw [if_pos hc, if_pos ((capOrFlag_iff_test P A s).mpr hc)]
  · rw [if_neg hc, if_neg (fun h => hc ((capOrFlag_iff_test P A s).mp h))]

theorem step_config (P : ProblemOps K Act E) (A : AgentOps K Act C L)
    (s : Simulator K Act C L E) :
    (step P A s).maxEpisodeTimeSteps = s.maxEpisodeTimeSteps ∧
    (step P A s).nbEpisodes = s.nbEpisodes ∧
    (step P A s).onEpisodeEnd.map Event.update = s.onEpisodeEnd.map Event.update := by
  obtain ⟨e1, e2, -, -, -, e6⟩ := stepEnd_config (stepAgent A (stepProblem P s))
  rw [step, e1, e2, e6]
  cases h : s.agentAction with
  | none =>
    obtain ⟨-, -, -, -, h5, h6, -, h8, -⟩ := advance_start P A s h
    rw [h5, h6, h8]; exact ⟨rfl, rfl, rfl⟩
  | some a =>
    obtain ⟨-, -, -, -, h5, h6, -, h8, -⟩ := advance_mid P A s a h
    rw [h5, h6, h8]; exact ⟨rfl, rfl, rfl⟩

theorem step_trace (P : ProblemOps K Act E) (A : AgentOps K Act C L)
    (s : Simulator K Act C L E) :
    ∃ t1 t2 : List (Effect K Act), (∀ x ∈ t1, x.isQuiet = true) ∧ (∀ x ∈ t2, x.isQuiet = true) ∧
      (step P A s).trace = s.trace ++ callsOf P s ++ t1 ++
        (if capOrFlag P s then [Effect.episodeEnd] else []) ++ t2 := by
  obtain ⟨t1, t2, q1, q2, e⟩ := stepEnd_trace (stepAgent A (stepProblem P s))
  refine ⟨t1, t2, q1, q2, ?_⟩
  have ht : (stepAgent A (stepProblem P s)).trace = s.trace ++ callsOf P s := by
    cases h : s.agentAction with
    | none => simpa [callsOf, h] using (advance_start P A s h).2.2.2.2.2.2.2.2.2.2.2
    | some a => simpa [callsOf, h] using (advance_mid P A s a h).2.2.2.2.2.2.2.2.2.2.2
  rw [step, e, ht]
  by_cases hc : capOrFlag P s
  · rw [if_pos hc, if_pos ((capOrFlag_iff_test P A s).mpr hc)]
  · rw [if_neg hc, if_neg (fun h => hc ((capOrFlag_iff_test P A s).mp h))]

end Simulator

end RLLib

/-! ## Histories and the episode protocol -/

namespace RLLib

theorem Phase.next_quiet {K Act : Type} (p : Phase) (x : Effect K Act)
    (h : x.isQuiet = true) : Phase.next p x = some p := by
  cases x <;> simp [Effect.isQuiet] at h <;> cases p <;> rfl

theorem Phase.run_quiet {K Act : Type} (t : List (Effect K Act))
    (h : ∀ x ∈ t, x.isQuiet = true) (p : Phase) : Phase.run p t = some p := by
  induction t with
  | nil => rfl
  | cons x t ih =>
    rw [Phase.run, Phase.next_quiet p x (h x (List.mem_cons_self _ _))]
    exact ih (fun y hy => h y (List.mem_cons_of_mem _ hy))

theorem Phase.run_append {K Act : Type} (t u : List (Effect K Act)) (p q : Phase)
    (h : Phase.run p t = some q) : Phase.run p (t ++ u) = Phase.run q u := by
  induction t generalizing p with
  | nil =>
    simp only [Phase.run, Option.some.injEq] at h
    rw [List.nil_append, h]
  | cons x t ih =>
    rw [List.cons_append, Phase.run]
    rw [Phase.run] at h
    cases hx : Phase.next p x with
    | none => rw [hx] at h; exact absurd h (by simp)
    | some r =>
      rw [hx] at h
      exact ih r h

theorem Effect.quiet_not_call {K Act : Type} (x : Effect K Act) (h : x.isQuiet = true) :
    x.isCall = false := by
  cases x <;> simp [Effect.isQuiet] at h <;> rfl

theorem Effect.filter_quiet {K Act : Type} (t : List (Effect K Act))
    (h : ∀ x ∈ t, x.isQuiet = true) : t.filter Effect.isCall = [] := by
  rw [List.filter_eq_nil_iff]
  intro x hx
  rw [Effect.quiet_not_call x (h x hx)]
  simp

end RLLib

/-! ## Claims on the episode state machine -/

namespace RLLib

namespace Simulator

variable {K Act C L E : Type} [DivisionRing K]

omit [DivisionRing K] in
theorem returnedAction_ne_none (P : ProblemOps K Act E) (A : AgentOps K Act C L)
    (hA : NonNull A) (s : Simulator K Act C L E) : returnedAction P A s ≠ none := by
  unfold returnedAction
  cases s.agentAction with
  | none => exact (hA _ _).1
  | some a => exact (hA _ _).2

/-- The phase in which the history of `s` must stand. -/
theorem phase_step (P : ProblemOps K Act E) (A : AgentOps K Act C L) (hA : NonNull A)
    (s : Simulator K Act C L E)
    (h : Phase.run Phase.between s.trace =
      some (if s.agentAction.isNone = true then Phase.between else Phase.inEpisode)) :
    Phase.run Phase.between (step P A s).trace =
      some (if (step P A s).agentAction.isNone = true then Phase.between else Phase.inEpisode) := by
  obtain ⟨t1, t2, q1, q2, e⟩ := step_trace P A s
  have hcalls : Phase.run Phase.between (s.trace ++ callsOf P s) = some Phase.inEpisode := by
    rw [Phase.run_append _ _ _ _ h]
    cases ha : s.agentAction with
    | none => simp [callsOf, ha, Phase.run, Phase.next]
    | some a => simp [callsOf, ha, Phase.run, Phase.next]
  have h1 : Phase.run Phase.between (s.trace ++ callsOf P s ++ t1) = some Phase.inEpisode := by
    rw [Phase.run_append _ _ _ _ hcalls, Phase.run_quiet t1 q1]
  rw [e, step_agentAction]
  by_cases hc : capOrFlag P s
  · have h2 : Phase.run Phase.between (s.trace ++ callsOf P s ++ t1 ++ [Effect.episodeEnd]) =
        some Phase.between := by
      rw [Phase.run_append _ _ _ _ h1]; rfl
    rw [if_pos hc, if_pos hc, Phase.run_append _ _ _ _ h2, Phase.run_quiet t2 q2]
    rfl
  · have hr := returnedAction_ne_none P A hA s
    rw [if_neg hc, if_neg hc, List.append_nil, Phase.run_append _ _ _ _ h1,
      Phase.run_quiet t2 q2]
    cases hx : returnedAction P A s with
    | none => exact absurd hx hr
    | some a => rfl

theorem calls_step (P : ProblemOps K Act E) (A : AgentOps K Act C L)
    (s : Simulator K Act C L E) :
    (step P A s).trace.filter Effect.isCall = s.trace.filter Effect.isCall ++ callsOf P s := by
  obtain ⟨t1, t2, q1, q2, e⟩ := step_trace P A s
  have hc : (callsOf P s).filter Effect.isCall = callsOf P s := by
    unfold callsOf
    cases s.agentAction <;> rfl
  have he : (if capOrFlag P s then [Effect.episodeEnd] else ([] : List (Effect K Act))).filter
      Effect.isCall = [] := by
    split <;> rfl
  rw [e, List.filter_append, List.filter_append, List.filter_append, List.filter_append, hc, he,
    Effect.filter_quiet t1 q1, Effect.filter_quiet t2 q2]
  simp

theorem cleared_iff_counted (P : ProblemOps K Act E) (A : AgentOps K Act C L) (hA : NonNull A)
    (s : Simulator K Act C L E) :
    (step P A s).agentAction = none ↔ (step P A s).nbEpisodeDone = s.nbEpisodeDone + 1 := by
  rw [step_agentAction, step_nbEpisodeDone]
  by_cases hc : capOrFlag P s
  · simp [hc]
  · simp [hc, returnedAction_ne_none P A hA s]

/-- C1: from a simulator that holds no pending action and has an empty
history (a freshly constructed one), with an agent that never returns a null
action, after any number `n` of `step()` calls: the next `step()` call makes
exactly the calls `Problem.initialize`, `Agent.initialize` when the pending
action is absent and exactly `Problem.step(pending action)`, `Agent.getAtp1`
otherwise; after it the pending action is absent (`isBeginingOfEpisode()`) if
and only if the call completed an episode; and the whole history follows the
episode protocol (one `Agent.initialize`, then only `Agent.getAtp1` calls, up
to the end of the episode), standing between episodes exactly when the pending
action is absent. -/
theorem episode_protocol (P : ProblemOps K Act E) (A : AgentOps K Act C L) (hA : NonNull A)
    (s0 : Simulator K Act C L E) (h0 : s0.agentAction = none) (ht : s0.trace = []) (n : Nat) :
    ((step P A ((step P A)^[n] s0)).trace.filter Effect.isCall =
        ((step P A)^[n] s0).trace.filter Effect.isCall ++
          (match ((step P A)^[n] s0).agentAction with
            | none =>
              [Effect.problemInitialise,
                Effect.agentInitialise (startRecord P ((step P A)^[n] s0))]
            | some a =>
              [Effect.problemStep a,
                Effect.agentGetAtp1 (midRecord P ((step P A)^[n] s0) a)])) ∧
    ((step P A ((step P A)^[n] s0)).agentAction = none ↔
      (step P A ((step P A)^[n] s0)).nbEpisodeDone = ((step P A)^[n] s0).nbEpisodeDone + 1) ∧
    ((step P A ((step P A)^[n] s0)).isBeginingOfEpisode = true ↔
      (step P A ((step P A)^[n] s0)).nbEpisodeDone = ((step P A)^[n] s0).nbEpisodeDone + 1) ∧
    Phase.run Phase.between (step P A ((step P A)^[n] s0)).trace =
      some (if (step P A ((step P A)^[n] s0)).isBeginingOfEpisode = true then Phase.between
        else Phase.inEpisode) := by
  have hinv : ∀ k : Nat, Phase.run Phase.between ((step P A)^[k] s0).trace =
      some (if ((step P A)^[k] s0).agentAction.isNone = true then Phase.between
        else Phase.inEpisode) := by
    intro k
    induction k with
    | zero => simp [ht, h0, Phase.run]
    | succ k ih =>
      rw [Function.iterate_succ_apply']
      exact phase_step P A hA _ ih
  refine ⟨?_, cleared_iff_counted P A hA _, ?_, phase_step P A hA _ (hinv n)⟩
  · rw [calls_step]
    rfl
  · rw [← cleared_iff_counted P A hA]
    simp [isBeginingOfEpisode]

end Simulator

end RLLib

namespace RLLib

namespace Simulator

variable {K Act C L E : Type} [DivisionRing K]

/-- C1, at the counting environment: the hypotheses hold and the history after
four `step()` calls follows the episode protocol. -/
theorem episode_protocol_witness :
    NonNull Demo.agent ∧ (Demo.sim 5 2).agentAction = none ∧ (Demo.sim 5 2).trace = [] ∧
    Phase.run Phase.between
        (step (Demo.problem false) Demo.agent
          ((step (Demo.problem false) Demo.agent)^[3] (Demo.sim 5 2))).trace =
      some (if (step (Demo.problem false) Demo.agent
          ((step (Demo.problem false) Demo.agent)^[3] (Demo.sim 5 2))).isBeginingOfEpisode = true
        then Phase.between else Phase.inEpisode) :=
  ⟨fun _ _ => ⟨by simp [Demo.agent], by simp [Demo.agent]⟩, rfl, rfl,
    (episode_protocol (Demo.problem false) Demo.agent
      (fun _ _ => ⟨by simp [Demo.agent], by simp [Demo.agent]⟩) (Demo.sim 5 2) rfl rfl 3).2.2.2⟩

/-- C2 as stated fails: in the start-of-episode call of the counting
environment whose `initialize` signals termination, with step cap 5, the
environment's record carries the flag but no episode ends. -/
theorem ends_iff_flag_or_cap_fails :
    ¬ (EndsEpisode (Demo.problem true) Demo.agent (Demo.sim 5 1) ↔
        ((writtenIn (Demo.problem true) (Demo.sim 5 1)).endOfEpisode = true ∨
          updatedTimeStep (Demo.sim 5 1) = (Demo.sim 5 1).maxEpisodeTimeSteps)) := by
  intro h
  have hr : (writtenIn (Demo.problem true) (Demo.sim 5 1)).endOfEpisode = true := rfl
  have hl := (h.mpr (Or.inl hr)).1
  revert hl
  decide

/-- C2, amended: in every `step()` call the episode ends (the count of
completed episodes goes up by one and the pending action is cleared) if and
only if the call is a mid-episode call in which the environment signalled
termination in the record it wrote, or `timeStep` equals
`maxEpisodeTimeSteps` after the counter update; otherwise the count is
unchanged.  In a start-of-episode call the flag written by
`Problem.initialize` is overwritten with false. -/
theorem ends_iff_cap_or_flag (P : ProblemOps K Act E) (A : AgentOps K Act C L)
    (s : Simulator K Act C L E) :
    (EndsEpisode P A s ↔
      ((s.agentAction.isSome = true ∧ (writtenIn P s).endOfEpisode = true) ∨
        updatedTimeStep s = s.maxEpisodeTimeSteps)) ∧
    (¬ EndsEpisode P A s → (step P A s).nbEpisodeDone = s.nbEpisodeDone) ∧
    (s.agentAction = none →
      ((step P A s).problem.getTRStep.endOfEpisode = false ∧
        (EndsEpisode P A s ↔ s.maxEpisodeTimeSteps = 0))) := by
  have hiff : EndsEpisode P A s ↔ capOrFlag P s := by
    unfold EndsEpisode
    rw [step_agentAction, step_nbEpisodeDone]
    by_cases hc : capOrFlag P s
    · simp [hc]
    · simp [hc]
  refine ⟨hiff, ?_, ?_⟩
  · intro hn
    rw [step_nbEpisodeDone, if_neg (fun hc => hn (hiff.mpr hc))]
  · intro h
    constructor
    · rw [step, (stepEnd_config _).2.2.2.1, (advance_start P A s h).2.2.2.2.2.2.2.2.2.2.1]
      rfl
    · rw [hiff]
      simp only [capOrFlag, updatedTimeStep, h, Option.isSome_none, Bool.false_eq_true,
        false_and, false_or]
      exact eq_comm

end Simulator

end RLLib

namespace RLLib

namespace Simulator

variable {K Act C L E : Type} [DivisionRing K]

end Simulator

end RLLib

/-! ## Claims on the learning agent -/

namespace RLLib

/-- C5: `LearnerAgent.getAtp1` on a record calls the policy's `step` exactly
once (the log of the policy grows by that one call), with the buffered
observation, the previous action, the agent's absorbing-state vector if the
record's flag is set and the record's observation otherwise, and the record's
reward and auxiliary signal; it returns the policy's value unchanged, keeps it
as the new previous action, buffers the record's observation whether or not
the flag is set, and leaves the absorbing-state vector alone.  The buffer and
the previous action it finds are those left by the previous call:
`LearnerAgent.initialize` and `getAtp1` both leave the observation of their
record in the buffer and the action they return in `a_t`. -/
theorem LearnerAgent.getAtp1_spec {K Act C : Type} (ctl : Control K Act C)
    (ag : RLAgent (C × List (PolicyCall K Act)) (LearnerFields K Act)) (r : TRStep K) :
    ((LearnerAgent.getAtp1 ctl.recorded ag r).2.control.2 =
      ag.control.2 ++
        [PolicyCall.step ag.self.x_t ag.self.a_t
          (if r.endOfEpisode = true then ag.self.absorbingState else r.o_tp1) r.r_tp1 r.z_tp1]) ∧
    ((LearnerAgent.getAtp1 ctl.recorded ag r).1 =
      (ctl.step ag.control.1 ag.self.x_t ag.self.a_t
        (if r.endOfEpisode = true then ag.self.absorbingState else r.o_tp1) r.r_tp1 r.z_tp1).1) ∧
    ((LearnerAgent.getAtp1 ctl.recorded ag r).2.control.1 =
      (ctl.step ag.control.1 ag.self.x_t ag.self.a_t
        (if r.endOfEpisode = true then ag.self.absorbingState else r.o_tp1) r.r_tp1 r.z_tp1).2) ∧
    ((LearnerAgent.getAtp1 ctl.recorded ag r).2.self.a_t =
      (LearnerAgent.getAtp1 ctl.recorded ag r).1) ∧
    ((LearnerAgent.getAtp1 ctl.recorded ag r).2.self.x_t = some r.o_tp1) ∧
    ((LearnerAgent.getAtp1 ctl.recorded ag r).2.self.absorbingState = ag.self.absorbingState) ∧
    ((LearnerAgent.initialise ctl.recorded ag r).2.self.a_t =
      (LearnerAgent.initialise ctl.recorded ag r).1) ∧
    ((LearnerAgent.initialise ctl.recorded ag r).2.self.x_t = some r.o_tp1) ∧
    ((LearnerAgent.initialise ctl.recorded ag r).2.self.absorbingState =
      ag.self.absorbingState) := by
  simp [LearnerAgent.getAtp1, LearnerAgent.initialise, Control.recorded, Vectors.bufferedCopy]

end RLLib

namespace RLLib

namespace Simulator

variable {K Act C L E : Type} [DivisionRing K]

theorem step_agent (P : ProblemOps K Act E) (A : AgentOps K Act C L)
    (s : Simulator K Act C L E) :
    (step P A s).agent =
      (match s.agentAction with
        | none => (A.initialise s.agent (startRecord P s)).2
        | some a => (A.getAtp1 s.agent (midRecord P s a)).2) := by
  rw [step, (stepEnd_config _).2.2.1]
  cases h : s.agentAction with
  | none => exact (advance_start P A s h).2.2.2.2.2.2.2.2.2.1
  | some a => exact (advance_mid P A s a h).2.2.2.2.2.2.2.2.2.1

theorem counted_iff (P : ProblemOps K Act E) (A : AgentOps K Act C L)
    (s : Simulator K Act C L E) :
    (step P A s).nbEpisodeDone = s.nbEpisodeDone + 1 ↔ capOrFlag P s := by
  rw [step_nbEpisodeDone]
  by_cases hc : capOrFlag P s
  · simp [hc]
  · simp [hc]

theorem learner_invariant (P : ProblemOps K Act E) (ctl : Control K Act C)
    (s0 : Simulator K Act C (LearnerFields K Act) E) (h0 : s0.agentAction = none) (n : Nat) :
    (((step P (LearnerAgent.ops ctl))^[n] s0).agentAction = none ∨
      ((step P (LearnerAgent.ops ctl))^[n] s0).agentAction =
        ((step P (LearnerAgent.ops ctl))^[n] s0).agent.self.a_t) ∧
    ((step P (LearnerAgent.ops ctl))^[n] s0).agent.self.absorbingState =
      s0.agent.self.absorbingState := by
  induction n with
  | zero => exact ⟨Or.inl h0, rfl⟩
  | succ n ih =>
    rw [Function.iterate_succ_apply']
    generalize (step P (LearnerAgent.ops ctl))^[n] s0 = s at ih
    obtain ⟨-, ih2⟩ := ih
    rw [step_agentAction, step_agent]
    cases ha : s.agentAction with
    | none =>
      refine ⟨?_, ?_⟩
      · by_cases hc : capOrFlag P s
        · left; rw [if_pos hc]
        · right; rw [if_neg hc]; simp [returnedAction, ha, LearnerAgent.ops, LearnerAgent.initialise]
      · simpa [LearnerAgent.ops, LearnerAgent.initialise] using ih2
    | some a =>
      refine ⟨?_, ?_⟩
      · by_cases hc : capOrFlag P s
        · left; rw [if_pos hc]
        · right; rw [if_neg hc]; simp [returnedAction, ha, LearnerAgent.ops, LearnerAgent.getAtp1]
      · simpa [LearnerAgent.ops, LearnerAgent.getAtp1] using ih2

/-- C6 as stated fails for `maxEpisodeTimeSteps = 0`: the first `step()` call
of a fresh simulator over a `LearnerAgent` completes an episode, and the
policy has seen one `initialize` call and no learning step, so nothing handed
it the absorbing state. -/
theorem episode_without_absorbing_step :
    (step (Demo.problem false) (LearnerAgent.ops Demo.policy.recorded)
      (Demo.learnerSim 0 1)).nbEpisodeDone = (Demo.learnerSim 0 1).nbEpisodeDone + 1 ∧
    (step (Demo.problem false) (LearnerAgent.ops Demo.policy.recorded)
      (Demo.learnerSim 0 1)).agentAction = none ∧
    (step (Demo.problem false) (LearnerAgent.ops Demo.policy.recorded)
      (Demo.learnerSim 0 1)).agent.control.2 = [PolicyCall.initialise [0]] ∧
    (step (Demo.problem false) (LearnerAgent.ops Demo.policy.recorded)
      (Demo.learnerSim 0 1)).agent.control.2.filter PolicyCall.isStep = [] := by
  refine ⟨by decide, by decide, rfl, rfl⟩

/-- C6, amended: over a `LearnerAgent`, from a simulator between episodes and
after any number of `step()` calls.  A mid-episode call makes exactly one
learning step of the policy; its previous action is the pending action, the
one passed to `Problem.step` in this call; its next observation is the
agent's fixed absorbing-state vector if the episode ends in this call
(the environment's flag, or `timeStep` reaching `maxEpisodeTimeSteps`) and the
observation the environment wrote otherwise.  A start-of-episode call makes
one `initialize` call of the policy and no learning step, and it ends the
episode exactly when `maxEpisodeTimeSteps = 0`. -/
theorem learner_absorbing (P : ProblemOps K Act E) (ctl : Control K Act C)
    (s0 : Simulator K Act (C × List (PolicyCall K Act)) (LearnerFields K Act) E)
    (h0 : s0.agentAction = none) (n : Nat)
    (s : Simulator K Act (C × List (PolicyCall K Act)) (LearnerFields K Act) E)
    (hs : s = (step P (LearnerAgent.ops ctl.recorded))^[n] s0) :
    (s.agentAction = none →
      ((step P (LearnerAgent.ops ctl.recorded) s).agent.control.2 =
          s.agent.control.2 ++ [PolicyCall.initialise (startRecord P s).o_tp1] ∧
        ((step P (LearnerAgent.ops ctl.recorded) s).nbEpisodeDone = s.nbEpisodeDone + 1 ↔
          s.maxEpisodeTimeSteps = 0))) ∧
    (∀ a : Act, s.agentAction = some a →
      ((step P (LearnerAgent.ops ctl.recorded) s).agent.control.2 =
          s.agent.control.2 ++
            [PolicyCall.step s.agent.self.x_t (some a)
              (if (step P (LearnerAgent.ops ctl.recorded) s).nbEpisodeDone = s.nbEpisodeDone + 1
                then s0.agent.self.absorbingState else (writtenRecord P s a).o_tp1)
              (writtenRecord P s a).r_tp1 (writtenRecord P s a).z_tp1] ∧
        ((step P (LearnerAgent.ops ctl.recorded) s).nbEpisodeDone = s.nbEpisodeDone + 1 ↔
          ((writtenRecord P s a).endOfEpisode = true ∨
            s.timeStep + 1 = s.maxEpisodeTimeSteps)))) := by
  obtain ⟨inv1, inv2⟩ := learner_invariant P ctl.recorded s0 h0 n
  rw [← hs] at inv1 inv2
  constructor
  · intro ha
    constructor
    · rw [step_agent]
      simp [ha, LearnerAgent.ops, LearnerAgent.initialise, Control.recorded]
    · rw [counted_iff]
      simp only [capOrFlag, updatedTimeStep, ha, Option.isSome_none, Bool.false_eq_true,
        false_and, false_or]
      exact eq_comm
  · intro a ha
    have hat : s.agent.self.a_t = some a := by
      rcases inv1 with h | h
      · rw [ha] at h; exact absurd h (by simp)
      · rw [← h, ha]
    have hiff : (step P (LearnerAgent.ops ctl.recorded) s).nbEpisodeDone = s.nbEpisodeDone + 1 ↔
        ((writtenRecord P s a).endOfEpisode = true ∨ s.timeStep + 1 = s.maxEpisodeTimeSteps) := by
      rw [counted_iff]
      simp [capOrFlag, updatedTimeStep, writtenIn, ha]
    refine ⟨?_, hiff⟩
    by_cases hc : (writtenRecord P s a).endOfEpisode = true ∨
        s.timeStep + 1 = s.maxEpisodeTimeSteps
    · have hm : (midRecord P s a).endOfEpisode = true := by
        simpa [midRecord, TRStep.setForcedEndOfEpisode] using hc
      rw [if_pos (hiff.mpr hc), step_agent]
      simp [ha, LearnerAgent.ops, LearnerAgent.getAtp1, Control.recorded, hat, inv2, hm]
      simp [midRecord, TRStep.setForcedEndOfEpisode]
    · have hm : (midRecord P s a).endOfEpisode = false := by
        have h2 := hc
        simp only [not_or] at h2
        simp [midRecord, TRStep.setForcedEndOfEpisode, h2.1, h2.2]
      rw [if_neg (fun h => hc (hiff.mp h)), step_agent]
      simp [ha, LearnerAgent.ops, LearnerAgent.getAtp1, Control.recorded, hat, hm]
      simp [midRecord, TRStep.setForcedEndOfEpisode]

/-- C6, at the counting environment with step cap 2: the third call is the
mid-episode call in which the episode ends. -/
theorem learner_absorbing_witness :
    (Demo.learnerSim 2 1).agentAction = none ∧
    ((step (Demo.problem false) (LearnerAgent.ops Demo.policy.recorded))^[2]
      (Demo.learnerSim 2 1)).agentAction = some 1 ∧
    ((step (Demo.problem false) (LearnerAgent.ops Demo.policy.recorded)
        ((step (Demo.problem false) (LearnerAgent.ops Demo.policy.recorded))^[2]
          (Demo.learnerSim 2 1))).nbEpisodeDone =
      ((step (Demo.problem false) (LearnerAgent.ops Demo.policy.recorded))^[2]
          (Demo.learnerSim 2 1)).nbEpisodeDone + 1 ↔
      ((writtenRecord (Demo.problem false)
          ((step (Demo.problem false) (LearnerAgent.ops Demo.policy.recorded))^[2]
            (Demo.learnerSim 2 1)) 1).endOfEpisode = true ∨
        ((step (Demo.problem false) (LearnerAgent.ops Demo.policy.recorded))^[2]
            (Demo.learnerSim 2 1)).timeStep + 1 =
          ((step (Demo.problem false) (LearnerAgent.ops Demo.policy.recorded))^[2]
            (Demo.learnerSim 2 1)).maxEpisodeTimeSteps)) :=
  ⟨rfl, by decide,
    ((learner_absorbing (Demo.problem false) Demo.policy (Demo.learnerSim 2 1) rfl 2 _ rfl).2 1
      (by decide)).2⟩

end Simulator

end RLLib

/-! ## Claims on `runEpisodes()` -/

namespace RLLib

namespace Simulator

variable {K Act C L E : Type} [DivisionRing K]

theorem iterate_config (P : ProblemOps K Act E) (A : AgentOps K Act C L)
    (s : Simulator K Act C L E) (n : Nat) :
    ((step P A)^[n] s).maxEpisodeTimeSteps = s.maxEpisodeTimeSteps ∧
    ((step P A)^[n] s).nbEpisodes = s.nbEpisodes := by
  induction n with
  | zero => exact ⟨rfl, rfl⟩
  | succ n ih =>
    rw [Function.iterate_succ_apply', (step_config P A _).1, (step_config P A _).2.1]
    exact ih

theorem runEpisodes_some (P : ProblemOps K Act E) (A : AgentOps K Act C L) (k : Nat) :
    ∀ s : Simulator K Act C L E,
      (∀ i : Nat, 1 ≤ i → i ≤ k → ((step P A)^[i] s).nbEpisodeDone < s.nbEpisodes) →
      ¬ ((step P A)^[k + 1] s).nbEpisodeDone < s.nbEpisodes →
      ∀ fuel : Nat, k + 1 ≤ fuel → runEpisodes P A fuel s = some ((step P A)^[k + 1] s) := by
  induction k with
  | zero =>
    intro s _ hstop fuel hf
    obtain ⟨f, rfl⟩ : ∃ f, fuel = f + 1 := ⟨fuel - 1, by omega⟩
    have hstop1 : ¬ (step P A s).nbEpisodeDone < (step P A s).nbEpisodes := by
      rw [(step_config P A s).2.1]; exact hstop
    simp [runEpisodes, hstop1]
  | succ k ih =>
    intro s hgo hstop fuel hf
    obtain ⟨f, rfl⟩ : ∃ f, fuel = f + 1 := ⟨fuel - 1, by omega⟩
    have hgo1 : (step P A s).nbEpisodeDone < (step P A s).nbEpisodes := by
      rw [(step_config P A s).2.1]
      exact hgo 1 (Nat.le_refl 1) (by omega)
    have hnb : (step P A s).nbEpisodes = s.nbEpisodes := (step_config P A s).2.1
    have h := ih (step P A s)
      (fun i h1 h2 => by
        have := hgo (i + 1) (by omega) (by omega)
        rw [Function.iterate_succ_apply] at this
        rw [hnb]; exact this)
      (by
        rw [hnb]
        rw [Function.iterate_succ_apply] at hstop
        exact hstop)
      f (by omega)
    rw [runEpisodes]
    simp only [hgo1, if_true]
    rw [h, ← Function.iterate_succ_apply]

theorem runEpisodes_none (P : ProblemOps K Act E) (A : AgentOps K Act C L) (fuel : Nat) :
    ∀ s : Simulator K Act C L E,
      (∀ i : Nat, 1 ≤ i → i ≤ fuel → ((step P A)^[i] s).nbEpisodeDone < s.nbEpisodes) →
      runEpisodes P A fuel s = none := by
  induction fuel with
  | zero => intro s _; rfl
  | succ f ih =>
    intro s hgo
    have hnb : (step P A s).nbEpisodes = s.nbEpisodes := (step_config P A s).2.1
    have hgo1 : (step P A s).nbEpisodeDone < (step P A s).nbEpisodes := by
      rw [hnb]
      exact hgo 1 (Nat.le_refl 1) (by omega)
    rw [runEpisodes]
    simp only [hgo1, if_true]
    apply ih
    intro i h1 h2
    have := hgo (i + 1) (by omega) (by omega)
    rw [Function.iterate_succ_apply] at this
    rw [hnb]; exact this

/-- C7: when the configured episode count is not positive (and the count of
completed episodes is not negative), and more generally whenever the count of
completed episodes has reached the configured count after the first `step()`
call, `runEpisodes()` returns after exactly one `step()` call: its result is
the state after that call, for every bound of at least one call. -/
theorem runEpisodes_single_step (P : ProblemOps K Act E) (A : AgentOps K Act C L)
    (s : Simulator K Act C L E)
    (h : (s.nbEpisodes ≤ 0 ∧ 0 ≤ s.nbEpisodeDone) ∨ s.nbEpisodes ≤ (step P A s).nbEpisodeDone)
    (fuel : Nat) : runEpisodes P A (fuel + 1) s = some (step P A s) := by
  have hstop : ¬ (step P A s).nbEpisodeDone < (step P A s).nbEpisodes := by
    rw [(step_config P A s).2.1]
    rcases h with ⟨h1, h2⟩ | h
    · have : s.nbEpisodeDone ≤ (step P A s).nbEpisodeDone := by
        rw [step_nbEpisodeDone]
        split <;> omega
      omega
    · omega
  simp [runEpisodes, hstop]

/-- C7, at the counting environment with configured episode count 0. -/
theorem runEpisodes_single_step_witness :
    (((Demo.sim 5 0).nbEpisodes ≤ 0 ∧ 0 ≤ (Demo.sim 5 0).nbEpisodeDone) ∨
      (Demo.sim 5 0).nbEpisodes ≤
        (step (Demo.problem false) Demo.agent (Demo.sim 5 0)).nbEpisodeDone) ∧
    runEpisodes (Demo.problem false) Demo.agent (0 + 1) (Demo.sim 5 0) =
      some (step (Demo.problem false) Demo.agent (Demo.sim 5 0)) :=
  ⟨Or.inl (by decide),
    runEpisodes_single_step (Demo.problem false) Demo.agent (Demo.sim 5 0)
      (Or.inl (by decide)) 0⟩

/-- C8 as stated fails: with configured episode count 0 and step cap 5,
`runEpisodes()` on a fresh simulator returns after the start-of-episode call,
with no episode completed and the pending action present. -/
theorem runEpisodes_zero_no_full_episode :
    (Demo.sim 5 0).nbEpisodes = 0 ∧ (Demo.sim 5 0).agentAction = none ∧
    (Demo.sim 5 0).nbEpisodeDone = 0 ∧
    (runEpisodes (Demo.problem false) Demo.agent 100 (Demo.sim 5 0)).map
        (fun s => (s.nbEpisodeDone, s.agentAction)) = some (0, some 1) := by
  refine ⟨rfl, rfl, rfl, by decide⟩

/-- C8, amended: with configured episode count 0, on a simulator between
episodes with no episode completed and an agent that never returns a null
action, `runEpisodes()` makes exactly one `step()` call, the start-of-episode
call, and returns.  When `maxEpisodeTimeSteps` is not 0 no episode has been
completed on return and the pending action is present (the action returned by
`Agent.initialize`): an episode has been started, not finished.  Only when
`maxEpisodeTimeSteps = 0` has one episode been completed. -/
theorem runEpisodes_zero (P : ProblemOps K Act E) (A : AgentOps K Act C L) (hA : NonNull A)
    (s : Simulator K Act C L E) (h0 : s.agentAction = none) (hd : s.nbEpisodeDone = 0)
    (hn : s.nbEpisodes = 0) (fuel : Nat) :
    runEpisodes P A (fuel + 1) s = some (step P A s) ∧
    (step P A s).trace.filter Effect.isCall = s.trace.filter Effect.isCall ++
      [Effect.problemInitialise, Effect.agentInitialise (startRecord P s)] ∧
    (s.maxEpisodeTimeSteps ≠ 0 →
      (step P A s).nbEpisodeDone = 0 ∧
        (step P A s).agentAction = (A.initialise s.agent (startRecord P s)).1 ∧
        (step P A s).agentAction ≠ none) ∧
    (s.maxEpisodeTimeSteps = 0 →
      (step P A s).nbEpisodeDone = 1 ∧ (step P A s).agentAction = none) := by
  have hcap : capOrFlag P s ↔ s.maxEpisodeTimeSteps = 0 := by
    simp only [capOrFlag, updatedTimeStep, h0, Option.isSome_none, Bool.false_eq_true,
      false_and, false_or]
    exact eq_comm
  have hstop : ¬ (step P A s).nbEpisodeDone < (step P A s).nbEpisodes := by
    rw [(step_config P A s).2.1, step_nbEpisodeDone, hn, hd]
    split <;> omega
  refine ⟨by simp [runEpisodes, hstop], ?_, ?_, ?_⟩
  · rw [calls_step]; simp [callsOf, h0]
  · intro hm
    have hc : ¬ capOrFlag P s := fun h => hm (hcap.mp h)
    rw [step_nbEpisodeDone, step_agentAction, if_neg hc, if_neg hc, hd]
    refine ⟨rfl, by simp [returnedAction, h0], ?_⟩
    exact returnedAction_ne_none P A hA s
  · intro hm
    have hc : capOrFlag P s := hcap.mpr hm
    rw [step_nbEpisodeDone, step_agentAction, if_pos hc, if_pos hc, hd]
    exact ⟨rfl, rfl⟩

/-- C8 amended, at the counting environment with step cap 5. -/
theorem runEpisodes_zero_witness :
    NonNull Demo.agent ∧ (Demo.sim 5 0).agentAction = none ∧
    (Demo.sim 5 0).nbEpisodeDone = 0 ∧ (Demo.sim 5 0).nbEpisodes = 0 ∧
    runEpisodes (Demo.problem false) Demo.agent (0 + 1) (Demo.sim 5 0) =
      some (step (Demo.problem false) Demo.agent (Demo.sim 5 0)) :=
  ⟨fun _ _ => ⟨by simp [Demo.agent], by simp [Demo.agent]⟩, rfl, rfl, rfl,
    (runEpisodes_zero (Demo.problem false) Demo.agent
      (fun _ _ => ⟨by simp [Demo.agent], by simp [Demo.agent]⟩) (Demo.sim 5 0) rfl rfl rfl 0).1⟩

end Simulator

end RLLib

namespace RLLib

namespace Simulator

variable {K Act C L E : Type} [DivisionRing K]

theorem step_timeStep_of_not (P : ProblemOps K Act E) (A : AgentOps K Act C L)
    (s : Simulator K Act C L E) (hc : ¬ capOrFlag P s) :
    (step P A s).timeStep = updatedTimeStep s := by
  rw [step, stepEnd_of_not _ (fun h => hc ((capOrFlag_iff_test P A s).mp h))]
  cases h : s.agentAction with
  | none => simpa [updatedTimeStep, h] using (advance_start P A s h).2.1
  | some a => simpa [updatedTimeStep, h] using (advance_mid P A s a h).2.1

/-- From a state inside an episode, `m + 1` counter updates away from the step
cap, the episode ends within `m + 1` calls. -/
theorem mid_run (P : ProblemOps K Act E) (A : AgentOps K Act C L) (hA : NonNull A) (m : Nat) :
    ∀ s : Simulator K Act C L E, s.agentAction ≠ none →
      s.timeStep + ((m + 1 : Nat) : Int) = s.maxEpisodeTimeSteps →
      ∃ j : Nat, 1 ≤ j ∧ j ≤ m + 1 ∧
        ((step P A)^[j] s).nbEpisodeDone = s.nbEpisodeDone + 1 ∧
        ((step P A)^[j] s).agentAction = none ∧
        ∀ i : Nat, i < j → ((step P A)^[i] s).nbEpisodeDone = s.nbEpisodeDone := by
  induction m with
  | zero =>
    intro s hne ht
    have hc : capOrFlag P s := by
      right
      cases ha : s.agentAction with
      | none => exact absurd ha hne
      | some a =>
        simp only [updatedTimeStep, ha]
        push_cast at ht
        omega
    refine ⟨1, Nat.le_refl 1, Nat.le_refl 1, ?_, ?_, ?_⟩
    · rw [Function.iterate_one, step_nbEpisodeDone, if_pos hc]
    · rw [Function.iterate_one, step_agentAction, if_pos hc]
    · intro i hi
      obtain rfl : i = 0 := by omega
      rfl
  | succ m ih =>
    intro s hne ht
    by_cases hc : capOrFlag P s
    · refine ⟨1, Nat.le_refl 1, by omega, ?_, ?_, ?_⟩
      · rw [Function.iterate_one, step_nbEpisodeDone, if_pos hc]
      · rw [Function.iterate_one, step_agentAction, if_pos hc]
      · intro i hi
        obtain rfl : i = 0 := by omega
        rfl
    · have hd : (step P A s).nbEpisodeDone = s.nbEpisodeDone := by
        rw [step_nbEpisodeDone, if_neg hc]
      have ha : (step P A s).agentAction ≠ none := by
        rw [step_agentAction, if_neg hc]
        exact returnedAction_ne_none P A hA s
      have hts : (step P A s).timeStep = s.timeStep + 1 := by
        rw [step_timeStep_of_not P A s hc]
        cases hx : s.agentAction with
        | none => exact absurd hx hne
        | some a => simp [updatedTimeStep, hx]
      have ht1 : (step P A s).timeStep + ((m + 1 : Nat) : Int) =
          (step P A s).maxEpisodeTimeSteps := by
        rw [hts, (step_config P A s).1, ← ht]
        push_cast
        ring
      obtain ⟨j, hj1, hj2, e1, e2, e3⟩ := ih (step P A s) ha ht1
      refine ⟨j + 1, by omega, by omega, ?_, ?_, ?_⟩
      · rw [Function.iterate_succ_apply, e1, hd]
      · rw [Function.iterate_succ_apply, e2]
      · intro i hi
        cases i with
        | zero => rfl
        | succ i =>
          rw [Function.iterate_succ_apply, e3 i (by omega), hd]

/-- From a state between episodes with step cap `M ≥ 1`, one episode is
completed within `M + 1` calls. -/
theorem episode_run (P : ProblemOps K Act E) (A : AgentOps K Act C L) (hA : NonNull A)
    (M : Nat) (hM : 1 ≤ M) (s : Simulator K Act C L E) (h0 : s.agentAction = none)
    (hmax : s.maxEpisodeTimeSteps = (M : Int)) :
    ∃ j : Nat, 1 ≤ j ∧ j ≤ M + 1 ∧
      ((step P A)^[j] s).nbEpisodeDone = s.nbEpisodeDone + 1 ∧
      ((step P A)^[j] s).agentAction = none ∧
      ∀ i : Nat, i < j → ((step P A)^[i] s).nbEpisodeDone = s.nbEpisodeDone := by
  have hc : ¬ capOrFlag P s := by
    simp only [capOrFlag, updatedTimeStep, h0, Option.isSome_none, Bool.false_eq_true,
      false_and, false_or, hmax]
    omega
  have hd : (step P A s).nbEpisodeDone = s.nbEpisodeDone := by
    rw [step_nbEpisodeDone, if_neg hc]
  have ha : (step P A s).agentAction ≠ none := by
    rw [step_agentAction, if_neg hc]
    exact returnedAction_ne_none P A hA s
  have hts : (step P A s).timeStep = 0 := by
    rw [step_timeStep_of_not P A s hc]
    simp [updatedTimeStep, h0]
  obtain ⟨m, rfl⟩ : ∃ m, M = m + 1 := ⟨M - 1, by omega⟩
  have ht1 : (step P A s).timeStep + ((m + 1 : Nat) : Int) =
      (step P A s).maxEpisodeTimeSteps := by
    rw [hts, (step_config P A s).1, hmax]
    simp
  obtain ⟨j, hj1, hj2, e1, e2, e3⟩ := mid_run P A hA m (step P A s) ha ht1
  refine ⟨j + 1, by omega, by omega, ?_, ?_, ?_⟩
  · rw [Function.iterate_succ_apply, e1, hd]
  · rw [Function.iterate_succ_apply, e2]
  · intro i hi
    cases i with
    | zero => rfl
    | succ i => rw [Function.iterate_succ_apply, e3 i (by omega), hd]

/-- From a state between episodes with step cap `M ≥ 1`, `n` episodes are
completed within `n * (M + 1)` calls, and not before the last of them. -/
theorem episodes_run (P : ProblemOps K Act E) (A : AgentOps K Act C L) (hA : NonNull A)
    (M : Nat) (hM : 1 ≤ M) (n : Nat) :
    ∀ s : Simulator K Act C L E, s.agentAction = none →
      s.maxEpisodeTimeSteps = (M : Int) →
      ∃ k : Nat, n ≤ k ∧ k ≤ n * (M + 1) ∧
        ((step P A)^[k] s).nbEpisodeDone = s.nbEpisodeDone + (n : Int) ∧
        ((step P A)^[k] s).agentAction = none ∧
        ∀ i : Nat, i < k → ((step P A)^[i] s).nbEpisodeDone < s.nbEpisodeDone + (n : Int) := by
  induction n with
  | zero =>
    intro s h0 _
    exact ⟨0, Nat.le_refl 0, by simp, by simp, h0, fun i hi => absurd hi (Nat.not_lt_zero i)⟩
  | succ n ih =>
    intro s h0 hmax
    obtain ⟨j, hj1, hj2, e1, e2, e3⟩ := episode_run P A hA M hM s h0 hmax
    have hmax1 : ((step P A)^[j] s).maxEpisodeTimeSteps = (M : Int) := by
      rw [(iterate_config P A s j).1, hmax]
    obtain ⟨k, hk1, hk2, f1, f2, f3⟩ := ih ((step P A)^[j] s) e2 hmax1
    refine ⟨k + j, by omega, ?_, ?_, ?_, ?_⟩
    · have : (n + 1) * (M + 1) = n * (M + 1) + (M + 1) := by ring
      omega
    · rw [Function.iterate_add_apply, f1, e1]
      push_cast
      ring
    · rw [Function.iterate_add_apply, f2]
    · intro i hi
      by_cases hij : i < j
      · rw [e3 i hij]
        push_cast
        omega
      · obtain ⟨i2, rfl⟩ : ∃ i2, i = i2 + j := ⟨i - j, by omega⟩
        have := f3 i2 (by omega)
        rw [Function.iterate_add_apply]
        rw [e1] at this
        push_cast
        omega

/-- C9: with step cap `M ≥ 1`, configured episode count `n ≥ 1` and an agent
that never returns a null action, `runEpisodes()` started between episodes
with no episode completed returns after some number `k` of `step()` calls,
`1 ≤ k ≤ n * (M + 1)`: every bound of at least `k` calls gives the state after
exactly `k` calls and every smaller bound is not enough; on return exactly `n`
episodes are completed and the pending action is absent. -/
theorem runEpisodes_terminates (P : ProblemOps K Act E) (A : AgentOps K Act C L)
    (hA : NonNull A) (s : Simulator K Act C L E) (M n : Nat) (hM : 1 ≤ M) (hn : 1 ≤ n)
    (hmax : s.maxEpisodeTimeSteps = (M : Int)) (hnb : s.nbEpisodes = (n : Int))
    (h0 : s.agentAction = none) (hd : s.nbEpisodeDone = 0) :
    ∃ k : Nat, 1 ≤ k ∧ k ≤ n * (M + 1) ∧
      (∀ fuel : Nat, k ≤ fuel → runEpisodes P A fuel s = some ((step P A)^[k] s)) ∧
      (∀ fuel : Nat, fuel < k → runEpisodes P A fuel s = none) ∧
      ((step P A)^[k] s).nbEpisodeDone = (n : Int) ∧
      ((step P A)^[k] s).agentAction = none ∧
      ((step P A)^[k] s).isBeginingOfEpisode = true := by
  obtain ⟨k, hk1, hk2, e1, e2, e3⟩ := episodes_run P A hA M hM n s h0 hmax
  rw [hd, zero_add] at e1
  obtain ⟨k0, rfl⟩ : ∃ k0, k = k0 + 1 := ⟨k - 1, by omega⟩
  refine ⟨k0 + 1, by omega, hk2, ?_, ?_, e1, e2, ?_⟩
  rotate_left 2
  · rw [isBeginingOfEpisode, e2]; rfl
  · intro fuel hf
    apply runEpisodes_some P A k0 s _ _ fuel hf
    · intro i _ h2
      have := e3 i (by omega)
      rw [hd, zero_add] at this
      rw [hnb]; exact this
    · rw [e1, hnb]; omega
  · intro fuel hf
    apply runEpisodes_none P A fuel s
    intro i _ h2
    have := e3 i (by omega)
    rw [hd, zero_add] at this
    rw [hnb]; exact this

/-- C9, at the counting environment with step cap 5 and 2 episodes. -/
theorem runEpisodes_terminates_witness :
    NonNull Demo.agent ∧ 1 ≤ 5 ∧ 1 ≤ 2 ∧ (Demo.sim 5 2).maxEpisodeTimeSteps = ((5 : Nat) : Int) ∧
    (Demo.sim 5 2).nbEpisodes = ((2 : Nat) : Int) ∧ (Demo.sim 5 2).agentAction = none ∧
    (Demo.sim 5 2).nbEpisodeDone = 0 ∧
    ∃ k : Nat, 1 ≤ k ∧ k ≤ 2 * (5 + 1) ∧
      (∀ fuel : Nat, k ≤ fuel →
        runEpisodes (Demo.problem false) Demo.agent fuel (Demo.sim 5 2) =
          some ((step (Demo.problem false) Demo.agent)^[k] (Demo.sim 5 2))) ∧
      (∀ fuel : Nat, fuel < k →
        runEpisodes (Demo.problem false) Demo.agent fuel (Demo.sim 5 2) = none) ∧
      ((step (Demo.problem false) Demo.agent)^[k] (Demo.sim 5 2)).nbEpisodeDone = ((2 : Nat) : Int) ∧
      ((step (Demo.problem false) Demo.agent)^[k] (Demo.sim 5 2)).agentAction = none ∧
      ((step (Demo.problem false) Demo.agent)^[k] (Demo.sim 5 2)).isBeginingOfEpisode = true :=
  ⟨fun _ _ => ⟨by simp [Demo.agent], by simp [Demo.agent]⟩, by decide, by decide, rfl, rfl, rfl,
    rfl,
    runEpisodes_terminates (Demo.problem false) Demo.agent
      (fun _ _ => ⟨by simp [Demo.agent], by simp [Demo.agent]⟩) (Demo.sim 5 2) 5 2 (by decide)
      (by decide) rfl rfl rfl rfl⟩

end Simulator

end RLLib

/-! ## Claims on `benchmark()` -/

namespace RLLib

namespace Simulator

variable {K Act C L E : Type} [DivisionRing K]

theorem foldl_add_eq_sum (f : K → K) (l : List K) :
    ∀ a : K, l.foldl (fun acc x => acc + f x) a = a + (l.map f).sum := by
  induction l with
  | nil => intro a; simp
  | cons x l ih =>
    intro a
    rw [List.foldl_cons, ih, List.map_cons, List.sum_cons, add_assoc]

/-- C10: on a non-empty statistics sample `x_1..x_n`, `benchmark()` reports
the mean `(sum x_i) / n` and then twice the standard error, where the
dispersion is `sqrt (sum (x_i - mean)^2) / n` (one division by `n`, after the
square root) and the standard error is the dispersion divided by `sqrt n`; it
leaves the sample empty and changes nothing else.  For the sample
`[10, 20, 30]` the reported mean is 20, the dispersion is `sqrt 200 / 3` and
the reported half-width is `2 * sqrt 200 / (3 * sqrt 3)`. -/
theorem benchmark_formula (s : Simulator ℝ Act C L E) (hne : s.statistics ≠ []) :
    (benchmark Real.sqrt s).statistics = [] ∧
    (benchmark Real.sqrt s).trace =
      s.trace ++
        [Effect.average (s.statistics.sum / (s.statistics.length : ℝ)),
          Effect.interval
            (2 * ((Real.sqrt
                  ((s.statistics.map
                    (fun x => (x - s.statistics.sum / (s.statistics.length : ℝ)) ^ 2)).sum) /
                (s.statistics.length : ℝ)) /
              Real.sqrt (s.statistics.length : ℝ)))] ∧
    (benchmark Real.sqrt s).timeStep = s.timeStep ∧
    (benchmark Real.sqrt s).nbEpisodeDone = s.nbEpisodeDone ∧
    (benchmark Real.sqrt s).agentAction = s.agentAction ∧
    (s.statistics = [10, 20, 30] →
      Real.sqrt ((s.statistics.map
          (fun x => (x - s.statistics.sum / (s.statistics.length : ℝ)) ^ 2)).sum) /
        (s.statistics.length : ℝ) = Real.sqrt 200 / 3 ∧
      (benchmark Real.sqrt s).trace =
        s.trace ++
          [Effect.average 20, Effect.interval (2 * Real.sqrt 200 / (3 * Real.sqrt 3))]) := by
  have hlen : 0 < s.statistics.length := List.length_pos.mpr hne
  have hm : s.statistics.foldl (fun acc x => acc + x) 0 = s.statistics.sum := by
    have := foldl_add_eq_sum (fun x : ℝ => x) s.statistics 0
    simpa using this
  have htrace : (benchmark Real.sqrt s).trace =
      s.trace ++
        [Effect.average (s.statistics.sum / (s.statistics.length : ℝ)),
          Effect.interval
            (2 * ((Real.sqrt
                  ((s.statistics.map
                    (fun x => (x - s.statistics.sum / (s.statistics.length : ℝ)) ^ 2)).sum) /
                (s.statistics.length : ℝ)) /
              Real.sqrt (s.statistics.length : ℝ)))] := by
    simp only [benchmark, hm]
    rw [foldl_add_eq_sum (fun x : ℝ => (x - s.statistics.sum / (s.statistics.length : ℝ)) ^ 2)
      s.statistics 0, zero_add, mul_comm]
  refine ⟨rfl, htrace, rfl, rfl, rfl, ?_⟩
  intro h3
  have hsum : ((s.statistics.map
      (fun x => (x - s.statistics.sum / (s.statistics.length : ℝ)) ^ 2)).sum) = 200 := by
    rw [h3]
    norm_num
  have hl : (s.statistics.length : ℝ) = 3 := by rw [h3]; norm_num
  have hmean : s.statistics.sum / (s.statistics.length : ℝ) = 20 := by
    rw [h3]; norm_num
  refine ⟨by rw [hsum, hl], ?_⟩
  rw [htrace, hsum, hmean, hl]
  have h3pos : Real.sqrt 3 ≠ 0 := by
    have : (0 : ℝ) < Real.sqrt 3 := Real.sqrt_pos.mpr (by norm_num)
    exact ne_of_gt this
  have : 2 * (Real.sqrt 200 / 3 / Real.sqrt 3) = 2 * Real.sqrt 200 / (3 * Real.sqrt 3) := by
    field_simp
  rw [this]

/-- C10, at a freshly constructed simulator holding the sample `[10, 20, 30]`. -/
theorem benchmark_formula_witness :
    Demo.sampleSim.statistics ≠ [] ∧
    (benchmark Real.sqrt Demo.sampleSim).trace =
      Demo.sampleSim.trace ++
        [Effect.average 20, Effect.interval (2 * Real.sqrt 200 / (3 * Real.sqrt 3))] :=
  ⟨by simp [Demo.sampleSim],
    ((benchmark_formula Demo.sampleSim (by simp [Demo.sampleSim])).2.2.2.2.2 rfl).2⟩

end Simulator

end RLLib

/-! ## Claims on the listeners -/

namespace RLLib

namespace Simulator

variable {K Act C L E : Type} [DivisionRing K]

omit [DivisionRing K] in
theorem listenerUpdates_filter (fs : List (EventFields K)) :
    ∀ start : Nat, (listenerUpdates start fs : List (Effect K Act)).filter Effect.isUpdate =
      listenerUpdates start fs := by
  induction fs with
  | nil => intro start; rfl
  | cons f fs ih =>
    intro start
    simp [listenerUpdates, Effect.isUpdate, ih]

end Simulator

end RLLib

namespace RLLib

namespace Simulator

variable {K Act C L E : Type} [DivisionRing K]

theorem advance_base (P : ProblemOps K Act E) (A : AgentOps K Act C L)
    (s : Simulator K Act C L E) :
    (stepAgent A (stepProblem P s)).timeStep = updatedTimeStep s ∧
    (stepAgent A (stepProblem P s)).nbEpisodeDone = s.nbEpisodeDone ∧
    (stepAgent A (stepProblem P s)).onEpisodeEnd = s.onEpisodeEnd ∧
    (stepAgent A (stepProblem P s)).trace = s.trace ++ callsOf P s := by
  cases h : s.agentAction with
  | none =>
    obtain ⟨-, h2, -, -, -, -, h7, h8, -, -, -, h12⟩ := advance_start P A s h
    exact ⟨by simpa [updatedTimeStep, h] using h2, h7, h8, by simpa [callsOf, h] using h12⟩
  | some a =>
    obtain ⟨-, h2, -, -, -, -, h7, h8, -, -, -, h12⟩ := advance_mid P A s a h
    exact ⟨by simpa [updatedTimeStep, h] using h2, h7, h8, by simpa [callsOf, h] using h12⟩

end Simulator

end RLLib

/-! ## Claims on `computeValueFunction()` -/

namespace RLLib

namespace Simulator

variable {K Act C L E : Type}

theorem gridEffects_facts (ctl : Control K Act C) (ag : RLAgent C L) (rest : List K) [Zero K] :
    (Effect.problemDraw : Effect K Act) ∉ gridEffects ctl ag (0 :: rest) ∧
    (Effect.valueQuery [0, 0] : Effect K Act) ∈ gridEffects ctl ag (0 :: rest) ∧
    (Effect.sinkValue (agentValue ctl ag [0, 0]) : Effect K Act) ∈
      gridEffects ctl ag (0 :: rest) := by
  refine ⟨?_, ?_, ?_⟩
  · simp [gridEffects, List.mem_flatMap]
  · simp [gridEffects, List.mem_flatMap]
  · simp [gridEffects, List.mem_flatMap]

/-- C15: `computeValueFunction` leaves the simulator as it is and adds to the
history the effects `t` and then exactly one `draw()` of the environment.
When the observation dimensionality is 2, `t` is the grid: the sink is opened,
the agent's value function is asked at every grid point and each value is
written, and the sink is closed.  When the dimensionality is anything else
(1 or 3, say), `t` is empty: no value-function query and no write.  So a query
or a write occurs if and only if the dimensionality is exactly 2, and `draw()`
is invoked once in every case, after any grid write. -/
theorem computeValueFunction_spec [Zero K] (ctl : Control K Act C) (rest : List K)
    (s : Simulator K Act C L E) :
    ∃ t : List (Effect K Act),
      computeValueFunction ctl rest s = { s with trace := s.trace ++ t ++ [Effect.problemDraw] } ∧
      Effect.problemDraw ∉ t ∧
      (s.problem.dimension = 2 → t = gridEffects ctl s.agent (0 :: rest)) ∧
      (s.problem.dimension ≠ 2 → t = []) ∧
      ((∃ x : List K, Effect.valueQuery x ∈ t) ↔ s.problem.dimension = 2) ∧
      ((∃ v : K, Effect.sinkValue v ∈ t) ↔ s.problem.dimension = 2) ∧
      (Effect.sinkOpen ∈ t ↔ s.problem.dimension = 2) := by
  obtain ⟨g1, g2, g3⟩ := gridEffects_facts ctl s.agent rest
  by_cases hd : s.problem.dimension = 2
  · refine ⟨gridEffects ctl s.agent (0 :: rest), ?_, g1, fun _ => rfl, fun h => absurd hd h,
      ?_, ?_, ?_⟩
    · simp [computeValueFunction, hd]
    · exact ⟨fun _ => hd, fun _ => ⟨_, g2⟩⟩
    · exact ⟨fun _ => hd, fun _ => ⟨_, g3⟩⟩
    · exact ⟨fun _ => hd, fun _ => by simp [gridEffects]⟩
  · refine ⟨[], ?_, by simp, fun h => absurd h hd, fun _ => rfl, ?_, ?_, ?_⟩
    · simp [computeValueFunction, hd]
    · simp [hd]
    · simp [hd]
    · simp [hd]

end Simulator

end RLLib

/-! ## What `step()` and `runEpisodes()` keep -/

namespace RLLib

namespace Simulator

variable {K Act C L E : Type}

theorem SameSetup.refl (s : Simulator K Act C L E) : SameSetup s s :=
  ⟨rfl, rfl, rfl, rfl, rfl, rfl, rfl, rfl, rfl⟩

theorem SameSetup.trans {L1 L2 L3 : Type} {s1 : Simulator K Act C L1 E}
    {s2 : Simulator K Act C L2 E} {s3 : Simulator K Act C L3 E} (h12 : SameSetup s1 s2)
    (h23 : SameSetup s2 s3) : SameSetup s1 s3 :=
  ⟨h23.1.trans h12.1, h23.2.trans h12.2, h23.3.trans h12.3, h23.4.trans h12.4,
    h23.5.trans h12.5, h23.6.trans h12.6, h23.7.trans h12.7, h23.8.trans h12.8,
    h23.9.trans h12.9⟩

variable [DivisionRing K]

theorem fireEvents_sameSetup (l : List (Event K)) :
    ∀ (d : List (Event K)) (s : Simulator K Act C L E),
      (fireEvents d l s).maxEpisodeTimeSteps = s.maxEpisodeTimeSteps ∧
      (fireEvents d l s).nbEpisodes = s.nbEpisodes ∧
      (fireEvents d l s).nbRuns = s.nbRuns ∧
      (fireEvents d l s).verbose = s.verbose ∧
      (fireEvents d l s).enableStatistics = s.enableStatistics ∧
      (fireEvents d l s).enableTestEpisodesAfterEachRun = s.enableTestEpisodesAfterEachRun ∧
      (fireEvents d l s).maxTestEpisodesAfterEachRun = s.maxTestEpisodesAfterEachRun ∧
      (fireEvents d l s).timer = s.timer ∧
      (fireEvents d l s).totalTimeInMilliseconds = s.totalTimeInMilliseconds := by
  induction l with
  | nil => intro d s; exact ⟨rfl, rfl, rfl, rfl, rfl, rfl, rfl, rfl, rfl⟩
  | cons e rest ih =>
    intro d s
    rw [fireEvents]
    obtain ⟨h1, h2, h3, h4, h5, h6, h7, h8, h9⟩ :=
      ih (d ++ [(serve d.length e s).1]) (serve d.length e s).2
    rw [h1, h2, h3, h4, h5, h6, h7, h8, h9]
    exact ⟨rfl, rfl, rfl, rfl, rfl, rfl, rfl, rfl, rfl⟩

theorem stepEnd_sameSetup (s : Simulator K Act C L E) : SameSetup s (stepEnd s) := by
  by_cases h : s.endingOfEpisode = true ∨ s.timeStep = s.maxEpisodeTimeSteps
  · obtain ⟨h1, h2, h3, h4, h5, h6, h7, h8, -⟩ := fireEvents_sameSetup s.onEpisodeEnd []
      (closeEpisode (recordLength (report s)))
    rw [stepEnd_of s h]
    refine ⟨?_, ?_, ?_, ?_, ?_, ?_, ?_, ?_, ?_⟩
    · rw [h1]; exact (closed_fields s).2.2.2.1
    · rw [h2]; exact (closed_fields s).2.2.1
    · rw [h3]; simp only [closeEpisode, recordLength, report]; split <;> split <;> rfl
    · rw [h4]; simp only [closeEpisode, recordLength, report]; split <;> split <;> rfl
    · rw [h5]; simp only [closeEpisode, recordLength, report]; split <;> split <;> rfl
    · rw [h6]; simp only [closeEpisode, recordLength, report]; split <;> split <;> rfl
    · rw [h7]; simp only [closeEpisode, recordLength, report]; split <;> split <;> rfl
    · rw [h8]; simp only [closeEpisode, recordLength, report]; split <;> split <;> rfl
    · rw [fireEvents_updates]
      simp
  · rw [stepEnd_of_not s h]
    exact SameSetup.refl s

theorem advance_sameSetup (P : ProblemOps K Act E) (A : AgentOps K Act C L)
    (s : Simulator K Act C L E) : SameSetup s (stepAgent A (stepProblem P s)) := by
  cases h : s.agentAction with
  | none =>
    refine ⟨?_, ?_, ?_, ?_, ?_, ?_, ?_, ?_, ?_⟩ <;> simp [stepAgent, stepProblem, h]
  | some a =>
    refine ⟨?_, ?_, ?_, ?_, ?_, ?_, ?_, ?_, ?_⟩ <;>
      simp [stepAgent, stepProblem, h, Timer.start, Timer.stop]

theorem step_sameSetup (P : ProblemOps K Act E) (A : AgentOps K Act C L)
    (s : Simulator K Act C L E) : SameSetup s (step P A s) :=
  (advance_sameSetup P A s).trans (stepEnd_sameSetup _)

theorem iterate_sameSetup (P : ProblemOps K Act E) (A : AgentOps K Act C L)
    (s : Simulator K Act C L E) (n : Nat) : SameSetup s ((step P A)^[n] s) := by
  induction n with
  | zero => exact SameSetup.refl s
  | succ n ih =>
    rw [Function.iterate_succ_apply']
    exact ih.trans (step_sameSetup P A _)

/-- When `runEpisodes()` returns, it returns the state after some number of
`step()` calls, at least one, the last of which stopped the loop. -/
theorem runEpisodes_iterate (P : ProblemOps K Act E) (A : AgentOps K Act C L) (fuel : Nat) :
    ∀ (s s' : Simulator K Act C L E), runEpisodes P A fuel s = some s' →
      ∃ k : Nat, k < fuel ∧ s' = (step P A)^[k + 1] s ∧
        ¬ s'.nbEpisodeDone < s.nbEpisodes ∧
        ∀ i : Nat, 1 ≤ i → i ≤ k → ((step P A)^[i] s).nbEpisodeDone < s.nbEpisodes := by
  induction fuel with
  | zero => intro s s' h; simp [runEpisodes] at h
  | succ f ih =>
    intro s s' h
    rw [runEpisodes] at h
    have hnb : (step P A s).nbEpisodes = s.nbEpisodes := (step_config P A s).2.1
    by_cases hgo : (step P A s).nbEpisodeDone < (step P A s).nbEpisodes
    · simp only [hgo, if_true] at h
      obtain ⟨k, hk, e, hstop, hbefore⟩ := ih _ _ h
      refine ⟨k + 1, by omega, ?_, ?_, ?_⟩
      · rw [e]; rfl
      · rw [← hnb]; exact hstop
      · intro i h1 h2
        obtain ⟨j, rfl⟩ : ∃ j, i = j + 1 := ⟨i - 1, by omega⟩
        rw [Function.iterate_succ_apply]
        cases j with
        | zero => rw [← hnb]; exact hgo
        | succ j => rw [← hnb]; exact hbefore (j + 1) (by omega) (by omega)
    · simp only [hgo, if_false, Option.some.injEq] at h
      refine ⟨0, by omega, ?_, ?_, ?_⟩
      · rw [← h]; rfl
      · rw [← h, ← hnb]; exact hgo
      · intro i h1 h2; omega

end Simulator

end RLLib

/-! ## Claims on the evaluation sub-run -/

namespace RLLib

theorem PolicyKept.same {K Act C L : Type} (ag : RLAgent (C × List (PolicyCall K Act)) L) :
    PolicyKept ag ag :=
  ⟨rfl, [], by simp, by simp⟩

theorem PolicyKept.andThen {K Act C L1 L2 L3 : Type}
    {a1 : RLAgent (C × List (PolicyCall K Act)) L1}
    {a2 : RLAgent (C × List (PolicyCall K Act)) L2}
    {a3 : RLAgent (C × List (PolicyCall K Act)) L3}
    (h12 : PolicyKept a1 a2) (h23 : PolicyKept a2 a3) : PolicyKept a1 a3 := by
  obtain ⟨e1, c1, l1, p1⟩ := h12
  obtain ⟨e2, c2, l2, p2⟩ := h23
  refine ⟨e2.trans e1, c1 ++ c2, by rw [l2, l1, List.append_assoc], ?_⟩
  intro c hc
  rcases List.mem_append.mp hc with h | h
  · exact p1 c h
  · exact p2 c h

theorem PolicyKept.of_control_eq {K Act C L1 L2 : Type}
    {a1 : RLAgent (C × List (PolicyCall K Act)) L1}
    {a2 : RLAgent (C × List (PolicyCall K Act)) L2} (h : a2.control = a1.control) :
    PolicyKept a1 a2 :=
  ⟨by rw [h], [], by simp [h], by simp⟩

namespace Simulator

variable {K Act C L E : Type} [DivisionRing K]

theorem controlAgent_step_kept (P : ProblemOps K Act E) (ctl : Control K Act C)
    (hpure : ∀ (c : C) (x : List K), (ctl.proposeAction c x).2 = c)
    (s : Simulator K Act (C × List (PolicyCall K Act)) Unit E) :
    PolicyKept s.agent (step P (ControlAgent.ops ctl.recorded) s).agent := by
  rw [step_agent]
  cases s.agentAction with
  | none =>
    exact ⟨by simp [ControlAgent.ops, ControlAgent.initialise, Control.recorded, hpure],
      [PolicyCall.proposeAction (startRecord P s).o_tp1],
      by simp [ControlAgent.ops, ControlAgent.initialise, Control.recorded],
      by simp [PolicyCall.isPropose]⟩
  | some a =>
    exact ⟨by simp [ControlAgent.ops, ControlAgent.getAtp1, Control.recorded, hpure],
      [PolicyCall.proposeAction (midRecord P s a).o_tp1],
      by simp [ControlAgent.ops, ControlAgent.getAtp1, Control.recorded],
      by simp [PolicyCall.isPropose]⟩

theorem controlAgent_iterate_kept (P : ProblemOps K Act E) (ctl : Control K Act C)
    (hpure : ∀ (c : C) (x : List K), (ctl.proposeAction c x).2 = c)
    (s : Simulator K Act (C × List (PolicyCall K Act)) Unit E) (n : Nat) :
    PolicyKept s.agent ((step P (ControlAgent.ops ctl.recorded))^[n] s).agent := by
  induction n with
  | zero => exact PolicyKept.same _
  | succ n ih =>
    rw [Function.iterate_succ_apply']
    exact ih.andThen (controlAgent_step_kept P ctl hpure _)

omit [DivisionRing K] in
theorem runLoop_induct {S : Simulator K Act C L E → Simulator K Act C L E → Prop}
    (hrefl : ∀ s, S s s) (htrans : ∀ s1 s2 s3, S s1 s2 → S s2 s3 → S s1 s3)
    (body : Int → Simulator K Act C L E → Option (Simulator K Act C L E))
    (hbody : ∀ i s s', body i s = some s' → S s s') (k : Nat) :
    ∀ (i : Int) (s s' : Simulator K Act C L E), runLoop body k i s = some s' → S s s' := by
  induction k with
  | zero =>
    intro i s s' h
    simp only [runLoop, Option.some.injEq] at h
    rw [← h]; exact hrefl s
  | succ k ih =>
    intro i s s' h
    rw [runLoop] at h
    cases hb : body i s with
    | none => rw [hb] at h; simp at h
    | some s1 =>
      rw [hb] at h
      exact htrans _ _ _ (hbody i s s1 hb) (ih _ _ _ h)

theorem controlAgent_runIteration_kept (sqrt : K → K) (P : ProblemOps K Act E)
    (ctl : Control K Act C) (hpure : ∀ (c : C) (x : List K), (ctl.proposeAction c x).2 = c)
    (evaluate : Simulator K Act (C × List (PolicyCall K Act)) Unit E →
      Option (Simulator K Act (C × List (PolicyCall K Act)) Unit E))
    (hev : ∀ s s', evaluate s = some s' → PolicyKept s.agent s'.agent)
    (fuel : Nat) (i : Int) (s s' : Simulator K Act (C × List (PolicyCall K Act)) Unit E)
    (h : runIteration sqrt P (ControlAgent.ops ctl.recorded) evaluate fuel i s = some s') :
    PolicyKept s.agent s'.agent := by
  rw [runIteration] at h
  cases he : runEpisodes P (ControlAgent.ops ctl.recorded) fuel
      (startRun (ControlAgent.ops ctl.recorded) i s) with
  | none => rw [he] at h; simp at h
  | some s5 =>
    rw [he] at h
    obtain ⟨k, -, e5, -, -⟩ := runEpisodes_iterate P _ fuel _ _ he
    have h0 : PolicyKept s.agent (startRun (ControlAgent.ops ctl.recorded) i s).agent := by
      apply PolicyKept.of_control_eq
      simp only [startRun, ControlAgent.ops, ControlAgent.reset]
      split <;> split <;> rfl
    have h5 : PolicyKept s.agent s5.agent := by
      rw [e5]
      exact h0.andThen (controlAgent_iterate_kept P ctl hpure _ _)
    have h6 : PolicyKept s.agent
        (if s5.enableStatistics = true then benchmark sqrt s5 else s5).agent := by
      split
      · exact h5
      · exact h5
    have key : ∀ s6 : Simulator K Act (C × List (PolicyCall K Act)) Unit E,
        PolicyKept s.agent s6.agent →
        (if s6.enableTestEpisodesAfterEachRun = true then evaluate s6 else some s6) = some s' →
        PolicyKept s.agent s'.agent := by
      intro s6 k6 hk
      split at hk
      · exact k6.andThen (hev _ _ hk)
      · simp only [Option.some.injEq] at hk
        rw [← hk]; exact k6
    exact key _ h6 h

theorem controlAgent_run_kept (sqrt : K → K) (P : ProblemOps K Act E) (ctl : Control K Act C)
    (hpure : ∀ (c : C) (x : List K), (ctl.proposeAction c x).2 = c) (depth : Nat) :
    ∀ (fuel : Nat) (s s' : Simulator K Act (C × List (PolicyCall K Act)) Unit E),
      run sqrt P ctl.recorded depth Unit (ControlAgent.ops ctl.recorded) fuel s = some s' →
      PolicyKept s.agent s'.agent := by
  induction depth with
  | zero =>
    intro fuel s s' h
    rw [run, runWith] at h
    have h0 : PolicyKept s.agent
        (if s.verbose = true then { s with trace := s.trace ++ [Effect.header] } else s).agent := by
      split <;> exact PolicyKept.same _
    refine h0.andThen (runLoop_induct (S := fun a b => PolicyKept a.agent b.agent)
      (fun s => PolicyKept.same _) (fun _ _ _ h1 h2 => h1.andThen h2) _ ?_ _ _ _ _ h)
    intro i a b hb
    exact controlAgent_runIteration_kept sqrt P ctl hpure _ (fun _ _ hn => by simp at hn)
      fuel i a b hb
  | succ d ih =>
    intro fuel s s' h
    rw [run, runWith] at h
    have h0 : PolicyKept s.agent
        (if s.verbose = true then { s with trace := s.trace ++ [Effect.header] } else s).agent := by
      split <;> exact PolicyKept.same _
    refine h0.andThen (runLoop_induct (S := fun a b => PolicyKept a.agent b.agent)
      (fun s => PolicyKept.same _) (fun _ _ _ h1 h2 => h1.andThen h2) _ ?_ _ _ _ _ h)
    intro i a b hb
    refine controlAgent_runIteration_kept sqrt P ctl hpure _ ?_ fuel i a b hb
    intro x y hxy
    rw [runEvaluate] at hxy
    cases hr : run sqrt P ctl.recorded d Unit (ControlAgent.ops ctl.recorded) fuel
        (evaluationRunner x.maxTestEpisodesAfterEachRun 1 x) with
    | none => rw [hr] at hxy; simp at hxy
    | some r =>
      rw [hr] at hxy
      simp only [Option.some.injEq] at hxy
      have := ih fuel _ _ hr
      rw [← hxy]
      exact this

end Simulator

end RLLib

namespace RLLib

namespace Simulator

variable {K Act C L E : Type} [DivisionRing K]

/-- C12: when the policy's `proposeAction` does not modify the policy, a
`runEvaluate()` that returns has made only `proposeAction` calls on the shared
policy (its log grows by such calls only: no `initialize`, no `step`, no
`reset`), has left the policy's state as it was, and has left the agent's own
fields (for a `LearnerAgent` the buffered observation and the previous action)
and the outer simulator's counters, pending action and statistics as they
were.  `ControlAgent.initialize` and `ControlAgent.getAtp1` both return
`proposeAction` of the record's observation and `ControlAgent.reset` does
nothing. -/
theorem runEvaluate_frame (sqrt : K → K) (P : ProblemOps K Act E) (ctl : Control K Act C)
    (hpure : ∀ (c : C) (x : List K), (ctl.proposeAction c x).2 = c) (depth fuel : Nat)
    (nbEpisodes nbRuns : Int) (s s' : Simulator K Act (C × List (PolicyCall K Act)) L E)
    (h : runEvaluate
      (run sqrt P ctl.recorded depth Unit (ControlAgent.ops ctl.recorded) fuel)
      nbEpisodes nbRuns s = some s') :
    s'.agent.control.1 = s.agent.control.1 ∧
    (∃ calls : List (PolicyCall K Act), s'.agent.control.2 = s.agent.control.2 ++ calls ∧
      ∀ c ∈ calls, ∃ x : List K, c = PolicyCall.proposeAction x) ∧
    s'.agent.self = s.agent.self ∧
    s'.timeStep = s.timeStep ∧ s'.episodeR = s.episodeR ∧ s'.episodeZ = s.episodeZ ∧
    s'.nbEpisodeDone = s.nbEpisodeDone ∧ s'.agentAction = s.agentAction ∧
    s'.statistics = s.statistics ∧ s'.endingOfEpisode = s.endingOfEpisode ∧
    s'.totalTimeInMilliseconds = s.totalTimeInMilliseconds ∧
    (∀ (ag : RLAgent C Unit) (r : TRStep K),
      ControlAgent.initialise ctl ag r = ((ctl.proposeAction ag.control r.o_tp1).1,
        { ag with control := (ctl.proposeAction ag.control r.o_tp1).2 }) ∧
      ControlAgent.getAtp1 ctl ag r = ((ctl.proposeAction ag.control r.o_tp1).1,
        { ag with control := (ctl.proposeAction ag.control r.o_tp1).2 }) ∧
      ControlAgent.reset ag = ag) := by
  rw [runEvaluate] at h
  cases hr : run sqrt P ctl.recorded depth Unit (ControlAgent.ops ctl.recorded) fuel
      (evaluationRunner nbEpisodes nbRuns s) with
  | none => rw [hr] at h; simp at h
  | some r =>
    rw [hr] at h
    simp only [Option.some.injEq] at h
    obtain ⟨e1, calls, e2, e3⟩ := controlAgent_run_kept sqrt P ctl hpure depth fuel _ _ hr
    rw [← h]
    refine ⟨e1, ⟨calls, e2, ?_⟩, rfl, rfl, rfl, rfl, rfl, rfl, rfl, rfl, rfl,
      fun ag r => ⟨rfl, rfl, rfl⟩⟩
    intro c hc
    have := e3 c hc
    cases c <;> simp [PolicyCall.isPropose] at this ⊢

/-- C12, at the counting environment: an evaluation of 2 episodes after the
start of a learning episode. -/
theorem runEvaluate_frame_witness :
    (∀ (c : Unit) (x : List ℚ), (Demo.policy.proposeAction c x).2 = c) ∧
    ∃ s' : Simulator ℚ Nat (Unit × List (PolicyCall ℚ Nat)) (LearnerFields ℚ Nat) Nat,
      runEvaluate
        (run (fun x => x) (Demo.problem false) Demo.policy.recorded 1 Unit
          (ControlAgent.ops Demo.policy.recorded) 10)
        2 1
        (step (Demo.problem false) (LearnerAgent.ops Demo.policy.recorded)
          (Demo.learnerSim 2 1)) = some s' ∧
      s'.agent.control.1 =
        (step (Demo.problem false) (LearnerAgent.ops Demo.policy.recorded)
          (Demo.learnerSim 2 1)).agent.control.1 ∧
      s'.agent.self =
        (step (Demo.problem false) (LearnerAgent.ops Demo.policy.recorded)
          (Demo.learnerSim 2 1)).agent.self := by
  refine ⟨fun _ _ => rfl, ?_⟩
  have hsome : (runEvaluate
        (run (fun x => x) (Demo.problem false) Demo.policy.recorded 1 Unit
          (ControlAgent.ops Demo.policy.recorded) 10)
        2 1
        (step (Demo.problem false) (LearnerAgent.ops Demo.policy.recorded)
          (Demo.learnerSim 2 1))).isSome = true := by decide
  obtain ⟨s', hs'⟩ := Option.isSome_iff_exists.mp hsome
  have hf := runEvaluate_frame (fun x => x) (Demo.problem false) Demo.policy
    (fun _ _ => rfl) 1 10 2 1 _ s' hs'
  exact ⟨s', hs', hf.1, hf.2.2.1⟩

end Simulator

end RLLib

/-! ## Termination of `runEpisodes()` from any state below the step cap -/

namespace RLLib

namespace Simulator

variable {K Act C L E : Type} [DivisionRing K]

theorem step_belowCap (P : ProblemOps K Act E) (A : AgentOps K Act C L)
    (s : Simulator K Act C L E) (hM : 1 ≤ s.maxEpisodeTimeSteps) (hb : BelowCap s) :
    BelowCap (step P A s) := by
  by_cases hc : capOrFlag P s
  · left
    rw [step_agentAction, if_pos hc]
  · right
    rw [step_timeStep_of_not P A s hc, (step_config P A s).1]
    cases ha : s.agentAction with
    | none => simp only [updatedTimeStep, ha]; omega
    | some a =>
      have hcap : s.timeStep + 1 ≠ s.maxEpisodeTimeSteps := by
        intro h
        apply hc
        right
        simp only [updatedTimeStep, ha]
        exact h
      rcases hb with h | ⟨h1, h2⟩
      · rw [ha] at h; exact absurd h (by simp)
      · simp only [updatedTimeStep, ha]; omega

theorem iterate_belowCap (P : ProblemOps K Act E) (A : AgentOps K Act C L)
    (s : Simulator K Act C L E) (hM : 1 ≤ s.maxEpisodeTimeSteps) (hb : BelowCap s) (n : Nat) :
    BelowCap ((step P A)^[n] s) := by
  induction n with
  | zero => exact hb
  | succ n ih =>
    rw [Function.iterate_succ_apply']
    exact step_belowCap P A _ (by rw [(iterate_config P A s n).1]; exact hM) ih

/-- From any state below the step cap, the running episode (or the next one,
between episodes) is completed after some calls. -/
theorem episode_from (P : ProblemOps K Act E) (A : AgentOps K Act C L) (hA : NonNull A)
    (M : Nat) (hM : 1 ≤ M) (s : Simulator K Act C L E)
    (hmax : s.maxEpisodeTimeSteps = (M : Int)) (hb : BelowCap s) :
    ∃ j : Nat, 1 ≤ j ∧
      ((step P A)^[j] s).nbEpisodeDone = s.nbEpisodeDone + 1 ∧
      ((step P A)^[j] s).agentAction = none ∧
      ∀ i : Nat, i < j → ((step P A)^[i] s).nbEpisodeDone = s.nbEpisodeDone := by
  cases ha : s.agentAction with
  | none =>
    obtain ⟨j, h1, -, h3, h4, h5⟩ := episode_run P A hA M hM s ha hmax
    exact ⟨j, h1, h3, h4, h5⟩
  | some a =>
    rcases hb with h | ⟨h1, h2⟩
    · rw [ha] at h; exact absurd h (by simp)
    · obtain ⟨m, hm⟩ : ∃ m : Nat, s.timeStep + ((m + 1 : Nat) : Int) = s.maxEpisodeTimeSteps :=
        ⟨(s.maxEpisodeTimeSteps - s.timeStep - 1).toNat, by push_cast; omega⟩
      obtain ⟨j, j1, -, j3, j4, j5⟩ := mid_run P A hA m s (by rw [ha]; simp) hm
      exact ⟨j, j1, j3, j4, j5⟩

theorem episodes_from (P : ProblemOps K Act E) (A : AgentOps K Act C L) (hA : NonNull A)
    (M : Nat) (hM : 1 ≤ M) (n : Nat) (s : Simulator K Act C L E)
    (hmax : s.maxEpisodeTimeSteps = (M : Int)) (hb : BelowCap s) :
    ∃ k : Nat, n + 1 ≤ k ∧
      ((step P A)^[k] s).nbEpisodeDone = s.nbEpisodeDone + ((n + 1 : Nat) : Int) ∧
      ((step P A)^[k] s).agentAction = none ∧
      ∀ i : Nat, i < k →
        ((step P A)^[i] s).nbEpisodeDone < s.nbEpisodeDone + ((n + 1 : Nat) : Int) := by
  obtain ⟨j, j1, j3, j4, j5⟩ := episode_from P A hA M hM s hmax hb
  have hmax1 : ((step P A)^[j] s).maxEpisodeTimeSteps = (M : Int) := by
    rw [(iterate_config P A s j).1, hmax]
  obtain ⟨k, k1, -, k3, k4, k5⟩ := episodes_run P A hA M hM n ((step P A)^[j] s) j4 hmax1
  refine ⟨k + j, by omega, ?_, ?_, ?_⟩
  · rw [Function.iterate_add_apply, k3, j3]; push_cast; ring
  · rw [Function.iterate_add_apply, k4]
  · intro i hi
    by_cases hij : i < j
    · rw [j5 i hij]; push_cast; omega
    · obtain ⟨i2, rfl⟩ : ∃ i2, i = i2 + j := ⟨i - j, by omega⟩
      have := k5 i2 (by omega)
      rw [Function.iterate_add_apply]
      rw [j3] at this
      push_cast at this ⊢
      omega

/-- `runEpisodes()` returns from every state below the step cap in which no
episode is counted yet, when the agent never returns a null action. -/
theorem runEpisodes_returns (P : ProblemOps K Act E) (A : AgentOps K Act C L) (hA : NonNull A)
    (M : Nat) (hM : 1 ≤ M) (s : Simulator K Act C L E)
    (hmax : s.maxEpisodeTimeSteps = (M : Int)) (hb : BelowCap s) (hd : s.nbEpisodeDone = 0) :
    ∃ (k : Nat) (s' : Simulator K Act C L E),
      (∀ fuel : Nat, k ≤ fuel → runEpisodes P A fuel s = some s') ∧
      BelowCap s' ∧ SameSetup s s' ∧
      (1 ≤ s.nbEpisodes → s'.nbEpisodeDone = s.nbEpisodes ∧ s'.agentAction = none) := by
  by_cases hn : 1 ≤ s.nbEpisodes
  · obtain ⟨n, hn2⟩ : ∃ n : Nat, s.nbEpisodes = ((n + 1 : Nat) : Int) :=
      ⟨(s.nbEpisodes - 1).toNat, by push_cast; omega⟩
    obtain ⟨k, k1, k2, k3, k4⟩ := episodes_from P A hA M hM n s hmax hb
    obtain ⟨k0, rfl⟩ : ∃ k0, k = k0 + 1 := ⟨k - 1, by omega⟩
    refine ⟨k0 + 1, (step P A)^[k0 + 1] s, ?_, Or.inl k3, iterate_sameSetup P A s _, ?_⟩
    · intro fuel hf
      apply runEpisodes_some P A k0 s _ _ fuel hf
      · intro i _ h2
        have := k4 i (by omega)
        rw [hd, zero_add] at this
        rw [hn2]; exact this
      · rw [k2, hd, hn2]; omega
    · intro _
      exact ⟨by rw [k2, hd, hn2, zero_add], k3⟩
  · refine ⟨1, step P A s, ?_, ?_, step_sameSetup P A s, fun h => absurd h hn⟩
    · intro fuel hf
      apply runEpisodes_some P A 0 s _ _ fuel hf
      · intro i h1 h2; omega
      · rw [Function.iterate_one, step_nbEpisodeDone, hd]
        split <;> omega
    · exact step_belowCap P A s (by rw [hmax]; exact_mod_cast hM) hb

end Simulator

end RLLib

/-! ## Claims on `run()` with the evaluation enabled -/

namespace RLLib

namespace Simulator

variable {K Act C L E : Type} [DivisionRing K]

omit [DivisionRing K] in
theorem controlAgent_nonNull (ctl : Control K Act C)
    (hctl : ∀ (c : C) (x : List K), (ctl.proposeAction c x).1 ≠ none) :
    NonNull (ControlAgent.ops ctl) := by
  intro ag r
  exact ⟨hctl _ _, hctl _ _⟩

omit [DivisionRing K] in
theorem startRun_facts (A : AgentOps K Act C L) (i : Int) (s : Simulator K Act C L E) :
    SameSetup s (startRun A i s) ∧ (startRun A i s).nbEpisodeDone = 0 ∧
    (startRun A i s).agentAction = s.agentAction ∧ (startRun A i s).timeStep = s.timeStep ∧
    (startRun A i s).problem = s.problem ∧
    (s.enableStatistics = true → (startRun A i s).statistics = []) := by
  refine ⟨?_, rfl, ?_, ?_, ?_, ?_⟩
  · unfold startRun
    dsimp only
    split <;> split <;> exact ⟨rfl, rfl, rfl, rfl, rfl, rfl, rfl, rfl, rfl⟩
  · unfold startRun
    dsimp only
    split <;> split <;> rfl
  · unfold startRun
    dsimp only
    split <;> split <;> rfl
  · unfold startRun
    dsimp only
    split <;> split <;> rfl
  · intro hs
    by_cases hv : s.verbose = true <;> simp [startRun, hv, hs]

/-- The iteration of `run()` in a simulator without statistics and without
evaluation, as the nested simulator is. -/
theorem plain_iteration (sqrt : K → K) (P : ProblemOps K Act E) (A : AgentOps K Act C L)
    (hA : NonNull A) (M : Nat) (hM : 1 ≤ M) (s : Simulator K Act C L E)
    (hmax : s.maxEpisodeTimeSteps = (M : Int)) (hb : BelowCap s)
    (hst : s.enableStatistics = false) (hev : s.enableTestEpisodesAfterEachRun = false)
    (i : Int) :
    ∃ (k : Nat) (r : Simulator K Act C L E),
      (∀ fuel : Nat, k ≤ fuel →
        ∀ evaluate : Simulator K Act C L E → Option (Simulator K Act C L E),
          runIteration sqrt P A evaluate fuel i s = some r) ∧
      BelowCap r ∧ SameSetup s r ∧
      (1 ≤ s.nbEpisodes → r.nbEpisodeDone = s.nbEpisodes ∧ r.agentAction = none) := by
  obtain ⟨p1, p2, p3, p4, -, -⟩ := startRun_facts A i s
  have hb0 : BelowCap (startRun A i s) := by
    unfold BelowCap
    rw [p3, p4, p1.1]
    exact hb
  obtain ⟨k, r, hk, hbr, hsr, hn⟩ :=
    runEpisodes_returns P A hA M hM (startRun A i s) (by rw [p1.1, hmax]) hb0 p2
  have hs := p1.trans hsr
  refine ⟨k, r, ?_, hbr, hs, ?_⟩
  · intro fuel hf evaluate
    rw [runIteration, hk fuel hf]
    have h1 : r.enableStatistics = false := by rw [hs.5, hst]
    have h2 : r.enableTestEpisodesAfterEachRun = false := by rw [hs.6, hev]
    simp [h1, h2]
  · intro h1
    have := hn (by rw [p1.2]; exact h1)
    rw [p1.2] at this
    exact this

/-- The run of the nested simulator of `runEvaluate`: one iteration, number 0,
without statistics and without a further evaluation, whatever depth is
left. -/
theorem nested_run (sqrt : K → K) (P : ProblemOps K Act E) (ctl : Control K Act C)
    (hctl : ∀ (c : C) (x : List K), (ctl.proposeAction c x).1 ≠ none) (M : Nat) (hM : 1 ≤ M)
    (n : Int) (s : Simulator K Act C L E) (hmax : s.maxEpisodeTimeSteps = (M : Int)) :
    ∃ (k : Nat) (r : Simulator K Act C Unit E),
      (∀ fuel : Nat, k ≤ fuel → ∀ depth : Nat,
        run sqrt P ctl depth Unit (ControlAgent.ops ctl) fuel (evaluationRunner n 1 s) = some r ∧
        runIteration sqrt P (ControlAgent.ops ctl) (fun _ => none) fuel 0
          { evaluationRunner n 1 s with
            trace := (evaluationRunner n 1 s).trace ++ [Effect.header] } = some r) ∧
      (1 ≤ n → r.nbEpisodeDone = n ∧ r.agentAction = none) ∧
      r.enableTestEpisodesAfterEachRun = false ∧ r.maxEpisodeTimeSteps = (M : Int) := by
  obtain ⟨k, r, hk, -, hs, hn⟩ := plain_iteration sqrt P (ControlAgent.ops ctl)
    (controlAgent_nonNull ctl hctl) M hM
    { evaluationRunner n 1 s with trace := (evaluationRunner n 1 s).trace ++ [Effect.header] }
    (by simp [evaluationRunner, Simulator.new, hmax]) (Or.inl rfl) rfl rfl 0
  refine ⟨k, r, ?_, ?_, ?_, ?_⟩
  · intro fuel hf depth
    have hw : ∀ evaluate : Simulator K Act C Unit E → Option (Simulator K Act C Unit E),
        runWith sqrt P (ControlAgent.ops ctl) evaluate fuel (evaluationRunner n 1 s) = some r := by
      intro evaluate
      have h1 := hk fuel hf evaluate
      simp only [runWith, evaluationRunner, Simulator.new, if_true, Int.toNat_one, runLoop]
      simp only [evaluationRunner, Simulator.new] at h1
      rw [h1]
    constructor
    · cases depth with
      | zero => rw [run]; exact hw _
      | succ d => rw [run]; exact hw _
    · exact hk fuel hf _
  · intro h1
    exact hn h1
  · rw [hs.6]; rfl
  · rw [hs.1]; simp [evaluationRunner, Simulator.new, hmax]

end Simulator

end RLLib

namespace RLLib

namespace Simulator

variable {K Act C L E : Type} [DivisionRing K]

theorem benchmark_sameSetup (sqrt : K → K) (s : Simulator K Act C L E) :
    SameSetup s (if s.enableStatistics = true then benchmark sqrt s else s) ∧
    (if s.enableStatistics = true then benchmark sqrt s else s).agentAction = s.agentAction ∧
    (if s.enableStatistics = true then benchmark sqrt s else s).timeStep = s.timeStep ∧
    (if s.enableStatistics = true then benchmark sqrt s else s).nbEpisodeDone =
      s.nbEpisodeDone ∧
    (if s.enableStatistics = true then benchmark sqrt s else s).agent = s.agent ∧
    (if s.enableStatistics = true then benchmark sqrt s else s).problem = s.problem := by
  split
  · exact ⟨⟨rfl, rfl, rfl, rfl, rfl, rfl, rfl, rfl, rfl⟩, rfl, rfl, rfl, rfl, rfl⟩
  · exact ⟨SameSetup.refl s, rfl, rfl, rfl, rfl, rfl⟩

/-- The state in which an iteration of `run()` reaches the evaluation: after
`runEpisodes()` and, with statistics, `benchmark()`. -/
theorem iteration_reaches (sqrt : K → K) (P : ProblemOps K Act E) (A : AgentOps K Act C L)
    (hA : NonNull A) (M : Nat) (hM : 1 ≤ M) (s : Simulator K Act C L E)
    (hmax : s.maxEpisodeTimeSteps = (M : Int)) (hb : BelowCap s) (i : Int) :
    ∃ (k : Nat) (s6 : Simulator K Act C L E), SameSetup s s6 ∧ BelowCap s6 ∧
      ∀ fuel : Nat, k ≤ fuel →
        ∀ evaluate : Simulator K Act C L E → Option (Simulator K Act C L E),
          runIteration sqrt P A evaluate fuel i s =
            if s6.enableTestEpisodesAfterEachRun = true then evaluate s6 else some s6 := by
  obtain ⟨p1, p2, p3, p4, -, -⟩ := startRun_facts A i s
  have hb0 : BelowCap (startRun A i s) := by
    unfold BelowCap
    rw [p3, p4, p1.1]
    exact hb
  obtain ⟨k, s5, hk, hb5, hs5, -⟩ :=
    runEpisodes_returns P A hA M hM (startRun A i s) (by rw [p1.1, hmax]) hb0 p2
  obtain ⟨q1, q2, q3, -, -, -⟩ := benchmark_sameSetup sqrt s5
  refine ⟨k, if s5.enableStatistics = true then benchmark sqrt s5 else s5,
    (p1.trans hs5).trans q1, ?_, ?_⟩
  · unfold BelowCap
    rw [q2, q3, q1.1]
    exact hb5
  · intro fuel hf evaluate
    rw [runIteration, hk fuel hf]

/-- An iteration of `run()` with the evaluation enabled. -/
theorem evaluated_iteration (sqrt : K → K) (P : ProblemOps K Act E) (ctl : Control K Act C)
    (A : AgentOps K Act C L) (hA : NonNull A)
    (hctl : ∀ (c : C) (x : List K), (ctl.proposeAction c x).1 ≠ none) (M : Nat) (hM : 1 ≤ M)
    (s : Simulator K Act C L E) (hmax : s.maxEpisodeTimeSteps = (M : Int))
    (hflag : s.enableTestEpisodesAfterEachRun = true) (hb : BelowCap s) (i : Int) :
    ∃ (k : Nat) (s6 : Simulator K Act C L E) (r : Simulator K Act C Unit E),
      SameSetup s s6 ∧ BelowCap s6 ∧
      (1 ≤ s.maxTestEpisodesAfterEachRun →
        r.nbEpisodeDone = s.maxTestEpisodesAfterEachRun ∧ r.agentAction = none) ∧
      r.enableTestEpisodesAfterEachRun = false ∧
      ∀ fuel : Nat, k ≤ fuel → ∀ depth : Nat,
        run sqrt P ctl depth Unit (ControlAgent.ops ctl) fuel
          (evaluationRunner s.maxTestEpisodesAfterEachRun 1 s6) = some r ∧
        runIteration sqrt P (ControlAgent.ops ctl) (fun _ => none) fuel 0
          { evaluationRunner s.maxTestEpisodesAfterEachRun 1 s6 with
            trace := (evaluationRunner s.maxTestEpisodesAfterEachRun 1 s6).trace ++
              [Effect.header] } = some r ∧
        runIteration sqrt P A
          (fun x =>
            runEvaluate (run sqrt P ctl depth Unit (ControlAgent.ops ctl) fuel)
              x.maxTestEpisodesAfterEachRun 1 x)
          fuel i s =
          some { s6 with
            agent := { s6.agent with control := r.agent.control }
            problem := r.problem
            trace := r.trace } := by
  obtain ⟨k1, s6, hs6, hb6, h6⟩ := iteration_reaches sqrt P A hA M hM s hmax hb i
  obtain ⟨k2, r, hr, hn, hre, -⟩ := nested_run sqrt P ctl hctl M hM
    s.maxTestEpisodesAfterEachRun s6 (by rw [hs6.1, hmax])
  refine ⟨max k1 k2, s6, r, hs6, hb6, hn, hre, ?_⟩
  intro fuel hf depth
  have hf1 : k1 ≤ fuel := le_trans (le_max_left _ _) hf
  have hf2 : k2 ≤ fuel := le_trans (le_max_right _ _) hf
  refine ⟨(hr fuel hf2 depth).1, (hr fuel hf2 depth).2, ?_⟩
  rw [h6 fuel hf1, if_pos (by rw [hs6.6, hflag]), runEvaluate, hs6.7, (hr fuel hf2 depth).1]

omit [DivisionRing K] in
/-- A loop whose body returns, with a result that does not depend on the
bound and on the depth once the bound is large enough, returns. -/
theorem runLoop_returns (Inv : Simulator K Act C L E → Prop)
    (body : Nat → Nat → Int → Simulator K Act C L E → Option (Simulator K Act C L E))
    (hbody : ∀ (i : Int) (s : Simulator K Act C L E), Inv s →
      ∃ (k : Nat) (s' : Simulator K Act C L E), Inv s' ∧
        ∀ fuel : Nat, k ≤ fuel → ∀ depth : Nat, body fuel depth i s = some s')
    (n : Nat) :
    ∀ (i : Int) (s : Simulator K Act C L E), Inv s →
      ∃ (k : Nat) (s' : Simulator K Act C L E), Inv s' ∧
        ∀ fuel : Nat, k ≤ fuel → ∀ depth : Nat,
          runLoop (body fuel depth) n i s = some s' := by
  induction n with
  | zero => intro i s hs; exact ⟨0, s, hs, fun _ _ _ => rfl⟩
  | succ n ih =>
    intro i s hs
    obtain ⟨k1, s1, hs1, h1⟩ := hbody i s hs
    obtain ⟨k2, s2, hs2, h2⟩ := ih (i + 1) s1 hs1
    refine ⟨max k1 k2, s2, hs2, ?_⟩
    intro fuel hf depth
    rw [runLoop, h1 fuel (le_trans (le_max_left _ _) hf) depth]
    exact h2 fuel (le_trans (le_max_right _ _) hf) depth

/-- With the evaluation enabled and at least one run to make, `run()` cannot
do without the nested `run()`. -/
theorem runWith_none (sqrt : K → K) (P : ProblemOps K Act E) (A : AgentOps K Act C L)
    (evaluate : Simulator K Act C L E → Option (Simulator K Act C L E))
    (s : Simulator K Act C L E) (hev : ∀ x, SameSetup s x → evaluate x = none)
    (hflag : s.enableTestEpisodesAfterEachRun = true) (hruns : 1 ≤ s.nbRuns) (fuel : Nat) :
    runWith sqrt P A evaluate fuel s = none := by
  have hiter : ∀ (i : Int) (x : Simulator K Act C L E), SameSetup s x →
      runIteration sqrt P A evaluate fuel i x = none := by
    intro i x hx
    rw [runIteration]
    cases he : runEpisodes P A fuel (startRun A i x) with
    | none => rfl
    | some s5 =>
      obtain ⟨k, -, e5, -, -⟩ := runEpisodes_iterate P A fuel _ _ he
      have h5 : SameSetup x s5 := by
        rw [e5]
        exact (startRun_facts A i x).1.trans (iterate_sameSetup P A _ _)
      have h6 := (hx.trans h5).trans (benchmark_sameSetup sqrt s5).1
      simp only
      rw [if_pos (by rw [h6.6, hflag]), hev _ h6]
  rw [runWith]
  have h0 : SameSetup s
      (if s.verbose = true then { s with trace := s.trace ++ [Effect.header] } else s) := by
    split
    · exact ⟨rfl, rfl, rfl, rfl, rfl, rfl, rfl, rfl, rfl⟩
    · exact SameSetup.refl s
  obtain ⟨n, hn⟩ : ∃ n : Nat,
      (if s.verbose = true then { s with trace := s.trace ++ [Effect.header] }
        else s).nbRuns.toNat = n + 1 := by
    refine ⟨s.nbRuns.toNat - 1, ?_⟩
    rw [h0.3]
    omega
  simp only [hn, runLoop]
  rw [hiter _ _ h0]

end Simulator

end RLLib

namespace RLLib

namespace Simulator

variable {K Act C L E : Type} [DivisionRing K]

/-- With an agent that returns a null action at the start of every episode, no
episode is ever completed and `runEpisodes()` does not return. -/
theorem runEpisodes_null (P : ProblemOps K Act E) (A : AgentOps K Act C L)
    (hnull : ∀ (ag : RLAgent C L) (r : TRStep K), (A.initialise ag r).1 = none) (fuel : Nat) :
    ∀ s : Simulator K Act C L E, s.agentAction = none → s.maxEpisodeTimeSteps ≠ 0 →
      s.nbEpisodeDone < s.nbEpisodes → runEpisodes P A fuel s = none := by
  induction fuel with
  | zero => intro s _ _ _; rfl
  | succ f ih =>
    intro s h0 hM hlt
    have hc : ¬ capOrFlag P s := by
      simp only [capOrFlag, updatedTimeStep, h0, Option.isSome_none, Bool.false_eq_true,
        false_and, false_or]
      exact fun h => hM h.symm
    have hd : (step P A s).nbEpisodeDone = s.nbEpisodeDone := by
      rw [step_nbEpisodeDone, if_neg hc]
    have ha : (step P A s).agentAction = none := by
      rw [step_agentAction, if_neg hc]
      simp [returnedAction, h0, hnull]
    obtain ⟨c1, c2, -⟩ := step_config P A s
    rw [runEpisodes]
    simp only [hd, c2, hlt, if_true]
    exact ih _ ha (by rw [c1]; exact hM) (by rw [hd, c2]; exact hlt)

theorem nested_null (sqrt : K → K) (P : ProblemOps K Act E) (ctl : Control K Act C)
    (hnull : ∀ (c : C) (x : List K), (ctl.proposeAction c x).1 = none)
    (s : Simulator K Act C L E) (hM : s.maxEpisodeTimeSteps ≠ 0) (n : Int) (hn : 1 ≤ n)
    (depth fuel : Nat) :
    run sqrt P ctl depth Unit (ControlAgent.ops ctl) fuel (evaluationRunner n 1 s) = none := by
  have hw : ∀ evaluate : Simulator K Act C Unit E → Option (Simulator K Act C Unit E),
      runWith sqrt P (ControlAgent.ops ctl) evaluate fuel (evaluationRunner n 1 s) = none := by
    intro evaluate
    simp only [runWith, evaluationRunner, Simulator.new, if_true, Int.toNat_one, runLoop]
    obtain ⟨p1, p2, p3, -, -, -⟩ := startRun_facts (ControlAgent.ops ctl) 0
      ({ agent := { control := getRLAgent s.agent, self := () }, problem := s.problem,
          agentAction := none, maxEpisodeTimeSteps := s.maxEpisodeTimeSteps, nbEpisodes := n,
          nbRuns := 1, nbEpisodeDone := 0, endingOfEpisode := false, verbose := true,
          timer := { readings := s.timer.readings, laps := 0 }, totalTimeInMilliseconds := 0,
          statistics := [], enableStatistics := false,
          enableTestEpisodesAfterEachRun := false, maxTestEpisodesAfterEachRun := 20,
          timeStep := 0, episodeR := 0, episodeZ := 0, onEpisodeEnd := [],
          trace := s.trace ++ [Effect.evaluateStart s.enableTestEpisodesAfterEachRun] ++
            [Effect.header] } : Simulator K Act C Unit E)
    rw [runIteration, runEpisodes_null P (ControlAgent.ops ctl) (fun ag r => hnull _ _) fuel _
      p3 (by rw [p1.1]; exact hM) (by rw [p2, p1.2]; exact hn)]
  cases depth with
  | zero => rw [run]; exact hw _
  | succ d => rw [run]; exact hw _

/-- C13 as stated fails: with the evaluation enabled and step cap 5, over a
policy whose `proposeAction` returns a null action the nested run never
completes an episode, so `run()` does not return, whatever the bounds. -/
theorem run_with_null_policy_never_returns :
    (Demo.evaluatedSim 5 1).enableTestEpisodesAfterEachRun = true ∧
    1 ≤ (Demo.evaluatedSim 5 1).maxEpisodeTimeSteps ∧
    ∀ depth fuel : Nat,
      run (fun x => x) (Demo.problem false) Demo.nullPolicy depth Unit Demo.agent fuel
        (Demo.evaluatedSim 5 1) = none := by
  refine ⟨rfl, by decide, ?_⟩
  intro depth fuel
  cases depth with
  | zero =>
    rw [run]
    exact runWith_none _ _ _ _ _ (fun _ _ => rfl) rfl (by decide) fuel
  | succ d =>
    rw [run]
    refine runWith_none _ _ _ _ _ ?_ rfl (by decide) fuel
    intro x hx
    have hmax : x.maxEpisodeTimeSteps ≠ 0 := by
      rw [hx.1]; decide
    have h20 : x.maxTestEpisodesAfterEachRun = 20 := by
      rw [hx.7]; rfl
    simp only [runEvaluate]
    rw [nested_null (fun x => x) (Demo.problem false) Demo.nullPolicy (fun _ _ => rfl) x hmax
      x.maxTestEpisodesAfterEachRun (by rw [h20]; decide) d fuel]

end Simulator

end RLLib

namespace RLLib

namespace Simulator

variable {K Act C L E : Type} [DivisionRing K]

/-- C13, amended: for a simulator with the evaluation enabled, step cap
`M ≥ 1`, 20 test episodes (the constructor's value), below the step cap
(between episodes, say), whose agent and whose policy's `proposeAction` never
return a null action.  Every iteration of `run()` from such a state reaches a
state `s6` of the same kind and there makes one evaluation: the nested
simulator has the same problem object and the same step cap, 20 episodes, one
run and the evaluation disabled; its `run()` is one iteration without any
further evaluation, whatever depth is left, and returns with exactly 20
episodes completed; the iteration's result is `s6` with the policy, the problem
and the console as the nested run left them.  `run()` returns for every large
enough bound with nesting depth one (more depth changes nothing), and with no
nesting and at least one run to make it cannot. -/
theorem run_evaluation (sqrt : K → K) (P : ProblemOps K Act E) (ctl : Control K Act C)
    (A : AgentOps K Act C L) (hA : NonNull A)
    (hctl : ∀ (c : C) (x : List K), (ctl.proposeAction c x).1 ≠ none) (M : Nat) (hM : 1 ≤ M)
    (s : Simulator K Act C L E) (hmax : s.maxEpisodeTimeSteps = (M : Int))
    (hflag : s.enableTestEpisodesAfterEachRun = true)
    (h20 : s.maxTestEpisodesAfterEachRun = 20) (hb : BelowCap s) :
    (∀ i : Int, ∃ (k : Nat) (s6 : Simulator K Act C L E) (r : Simulator K Act C Unit E),
      s6.maxEpisodeTimeSteps = (M : Int) ∧ s6.enableTestEpisodesAfterEachRun = true ∧
      s6.maxTestEpisodesAfterEachRun = 20 ∧ BelowCap s6 ∧
      (evaluationRunner 20 1 s6).problem = s6.problem ∧
      (evaluationRunner 20 1 s6).agent.control = s6.agent.control ∧
      (evaluationRunner 20 1 s6).maxEpisodeTimeSteps = (M : Int) ∧
      (evaluationRunner 20 1 s6).nbEpisodes = 20 ∧
      (evaluationRunner 20 1 s6).nbRuns = 1 ∧
      (evaluationRunner 20 1 s6).nbEpisodeDone = 0 ∧
      (evaluationRunner 20 1 s6).enableTestEpisodesAfterEachRun = false ∧
      r.nbEpisodeDone = 20 ∧ r.agentAction = none ∧
      r.enableTestEpisodesAfterEachRun = false ∧
      ∀ fuel : Nat, k ≤ fuel → ∀ depth : Nat,
        run sqrt P ctl depth Unit (ControlAgent.ops ctl) fuel (evaluationRunner 20 1 s6) =
          some r ∧
        runIteration sqrt P (ControlAgent.ops ctl) (fun _ => none) fuel 0
          { evaluationRunner 20 1 s6 with
            trace := (evaluationRunner 20 1 s6).trace ++ [Effect.header] } = some r ∧
        runIteration sqrt P A
          (fun x =>
            runEvaluate (run sqrt P ctl depth Unit (ControlAgent.ops ctl) fuel)
              x.maxTestEpisodesAfterEachRun 1 x)
          fuel i s =
          some { s6 with
            agent := { s6.agent with control := r.agent.control }
            problem := r.problem
            trace := r.trace }) ∧
    (∃ (k : Nat) (s' : Simulator K Act C L E), ∀ fuel : Nat, k ≤ fuel → ∀ depth : Nat,
      run sqrt P ctl (depth + 1) L A fuel s = some s') ∧
    (1 ≤ s.nbRuns → ∀ fuel : Nat, run sqrt P ctl 0 L A fuel s = none) := by
  refine ⟨?_, ?_, ?_⟩
  · intro i
    obtain ⟨k, s6, r, hs6, hb6, hn, hre, hrun⟩ :=
      evaluated_iteration sqrt P ctl A hA hctl M hM s hmax hflag hb i
    rw [h20] at hn hrun
    obtain ⟨hn1, hn2⟩ := hn (by decide)
    exact ⟨k, s6, r, by rw [hs6.1, hmax], by rw [hs6.6, hflag], by rw [hs6.7, h20], hb6, rfl,
      rfl, by simp [evaluationRunner, Simulator.new, hs6.1, hmax], rfl, rfl, rfl, rfl, hn1, hn2,
      hre, hrun⟩
  · have hloop := runLoop_returns
      (fun x : Simulator K Act C L E => x.maxEpisodeTimeSteps = (M : Int) ∧
        x.enableTestEpisodesAfterEachRun = true ∧ BelowCap x)
      (fun fuel depth i x =>
        runIteration sqrt P A
          (fun y =>
            runEvaluate (run sqrt P ctl depth Unit (ControlAgent.ops ctl) fuel)
              y.maxTestEpisodesAfterEachRun 1 y)
          fuel i x)
      (by
        intro i x ⟨x1, x2, x3⟩
        obtain ⟨k, s6, r, hs6, hb6, -, -, hrun⟩ :=
          evaluated_iteration sqrt P ctl A hA hctl M hM x x1 x2 x3 i
        refine ⟨k,
          { s6 with
            agent := { s6.agent with control := r.agent.control }
            problem := r.problem
            trace := r.trace }, ⟨?_, ?_, ?_⟩, fun fuel hf depth => ?_⟩
        · show s6.maxEpisodeTimeSteps = (M : Int)
          rw [hs6.1, x1]
        · show s6.enableTestEpisodesAfterEachRun = true
          rw [hs6.6, x2]
        · exact hb6
        · exact (hrun fuel hf depth).2.2)
    have h0 : SameSetup s
        (if s.verbose = true then { s with trace := s.trace ++ [Effect.header] } else s) ∧
        BelowCap
          (if s.verbose = true then { s with trace := s.trace ++ [Effect.header] } else s) := by
      split
      · exact ⟨⟨rfl, rfl, rfl, rfl, rfl, rfl, rfl, rfl, rfl⟩, hb⟩
      · exact ⟨SameSetup.refl s, hb⟩
    obtain ⟨k, s', -, hk⟩ := hloop
      (if s.verbose = true then { s with trace := s.trace ++ [Effect.header] }
        else s).nbRuns.toNat 0 _ ⟨by rw [h0.1.1, hmax], by rw [h0.1.6, hflag], h0.2⟩
    refine ⟨k, s', fun fuel hf depth => ?_⟩
    rw [run, runWith]
    exact hk fuel hf depth
  · intro hruns fuel
    rw [run]
    exact runWith_none sqrt P A _ s (fun _ _ => rfl) hflag hruns fuel

/-- C13 amended, at the counting environment with step cap 5. -/
theorem run_evaluation_witness :
    NonNull Demo.agent ∧ (∀ (c : Unit) (x : List ℚ), (Demo.policy.proposeAction c x).1 ≠ none) ∧
    1 ≤ 5 ∧ (Demo.evaluatedSim 5 1).maxEpisodeTimeSteps = ((5 : Nat) : Int) ∧
    (Demo.evaluatedSim 5 1).enableTestEpisodesAfterEachRun = true ∧
    (Demo.evaluatedSim 5 1).maxTestEpisodesAfterEachRun = 20 ∧ BelowCap (Demo.evaluatedSim 5 1) ∧
    ∃ (k : Nat) (s' : Simulator ℚ Nat Unit Unit Nat), ∀ fuel : Nat, k ≤ fuel → ∀ depth : Nat,
      run (fun x => x) (Demo.problem false) Demo.policy (depth + 1) Unit Demo.agent fuel
        (Demo.evaluatedSim 5 1) = some s' :=
  ⟨fun _ _ => ⟨by simp [Demo.agent], by simp [Demo.agent]⟩,
    fun _ _ => by simp [Demo.policy], by decide, rfl, rfl, rfl, Or.inl rfl,
    (run_evaluation (fun x => x) (Demo.problem false) Demo.policy Demo.agent
      (fun _ _ => ⟨by simp [Demo.agent], by simp [Demo.agent]⟩)
      (fun _ _ => by simp [Demo.policy]) 5 (by decide) (Demo.evaluatedSim 5 1) rfl rfl rfl
      (Or.inl rfl)).2.1⟩

end Simulator

end RLLib

/-! ## Claims on the statistics sample -/

namespace RLLib

namespace Simulator

variable {K Act C L E : Type} [DivisionRing K]

theorem recordLength_statistics (s : Simulator K Act C L E) :
    (closeEpisode (recordLength s)).statistics =
      if s.enableStatistics = true then s.statistics ++ [(s.timeStep : K)]
      else s.statistics := by
  by_cases h : s.enableStatistics = true
  · simp [closeEpisode, recordLength, h]
  · simp [closeEpisode, recordLength, h]

theorem step_statistics (P : ProblemOps K Act E) (A : AgentOps K Act C L)
    (s : Simulator K Act C L E) :
    (step P A s).statistics =
      if capOrFlag P s ∧ s.enableStatistics = true then
        s.statistics ++ [((updatedTimeStep s : Int) : K)]
      else s.statistics := by
  obtain ⟨b1, -, -, -⟩ := advance_base P A s
  have hst : (stepAgent A (stepProblem P s)).statistics = s.statistics := by
    cases h : s.agentAction with
    | none => simp [stepAgent, stepProblem, h]
    | some a => simp [stepAgent, stepProblem, h]
  have hen := (advance_sameSetup P A s).5
  by_cases hc : capOrFlag P s
  · rw [step, stepEnd_of _ ((capOrFlag_iff_test P A s).mpr hc), fireEvents_statistics]
    rw [recordLength_statistics, (report_fields _).2.2.2.2.2.2.2.2.2.2.2.2, hen,
      (report_fields _).2.2.2.2.2.2.1, (report_fields _).2.2.2.2.2.2.2.2.2.1, hst, b1]
    by_cases he : s.enableStatistics = true
    · simp [hc, he]
    · simp [he]
  · rw [if_neg (fun h => hc h.1), step,
      stepEnd_of_not _ (fun h => hc ((capOrFlag_iff_test P A s).mp h)), hst]

/-- The sample and the counter move together: with statistics on, every
completed episode adds its length, which lies between 1 and the step cap. -/
theorem sample_step (P : ProblemOps K Act E) (A : AgentOps K Act C L) (M : Nat)
    (hM : 1 ≤ M) (s : Simulator K Act C L E) (hmax : s.maxEpisodeTimeSteps = (M : Int))
    (hst : s.enableStatistics = true) (hb : BelowCap s)
    (hlen : (s.statistics.length : Int) = s.nbEpisodeDone)
    (hrange : ∀ x ∈ s.statistics, ∃ t : Int, x = (t : K) ∧ 1 ≤ t ∧ t ≤ (M : Int)) :
    ((step P A s).statistics.length : Int) = (step P A s).nbEpisodeDone ∧
    ∀ x ∈ (step P A s).statistics, ∃ t : Int, x = (t : K) ∧ 1 ≤ t ∧ t ≤ (M : Int) := by
  rw [step_statistics, step_nbEpisodeDone]
  by_cases hc : capOrFlag P s
  · rw [if_pos ⟨hc, hst⟩, if_pos hc]
    refine ⟨by simp [hlen], ?_⟩
    intro x hx
    rcases List.mem_append.mp hx with h | h
    · exact hrange x h
    · rw [List.mem_singleton] at h
      refine ⟨updatedTimeStep s, h, ?_⟩
      cases ha : s.agentAction with
      | none =>
        exfalso
        simp only [capOrFlag, updatedTimeStep, ha, Option.isSome_none, Bool.false_eq_true,
          false_and, false_or, hmax] at hc
        omega
      | some a =>
        rcases hb with h0 | ⟨h1, h2⟩
        · rw [ha] at h0; exact absurd h0 (by simp)
        · simp only [updatedTimeStep, ha]
          omega
  · rw [if_neg (fun h => hc h.1), if_neg hc]
    exact ⟨hlen, hrange⟩

theorem sample_iterate (P : ProblemOps K Act E) (A : AgentOps K Act C L) (M : Nat)
    (hM : 1 ≤ M) (s : Simulator K Act C L E) (hmax : s.maxEpisodeTimeSteps = (M : Int))
    (hst : s.enableStatistics = true) (hb : BelowCap s)
    (hlen : (s.statistics.length : Int) = s.nbEpisodeDone)
    (hrange : ∀ x ∈ s.statistics, ∃ t : Int, x = (t : K) ∧ 1 ≤ t ∧ t ≤ (M : Int)) (n : Nat) :
    (((step P A)^[n] s).statistics.length : Int) = ((step P A)^[n] s).nbEpisodeDone ∧
    ∀ x ∈ ((step P A)^[n] s).statistics, ∃ t : Int, x = (t : K) ∧ 1 ≤ t ∧ t ≤ (M : Int) := by
  induction n with
  | zero => exact ⟨hlen, hrange⟩
  | succ n ih =>
    rw [Function.iterate_succ_apply']
    have hs := iterate_sameSetup P A s n
    exact sample_step P A M hM _ (by rw [hs.1, hmax]) (by rw [hs.5, hst])
      (iterate_belowCap P A s (by rw [hmax]; exact_mod_cast hM) hb n) ih.1 ih.2

end Simulator

end RLLib

namespace RLLib

namespace Simulator

variable {K Act C L E : Type} [DivisionRing K]

/-- What `runEpisodes()` hands to `benchmark()` in an iteration of `run()`
that starts between episodes with statistics on. -/
theorem sample_handed (P : ProblemOps K Act E) (A : AgentOps K Act C L) (M n : Nat)
    (hM : 1 ≤ M) (hn : 1 ≤ n) (s : Simulator K Act C L E)
    (hmax : s.maxEpisodeTimeSteps = (M : Int)) (hnb : s.nbEpisodes = (n : Int))
    (hst : s.enableStatistics = true) (h0 : s.agentAction = none) (i : Int) (fuel : Nat)
    (s5 : Simulator K Act C L E) (h5 : runEpisodes P A fuel (startRun A i s) = some s5) :
    SameSetup s s5 ∧ s5.statistics.length = n ∧
    (∀ x ∈ s5.statistics, ∃ t : Int, x = (t : K) ∧ 1 ≤ t ∧ t ≤ (M : Int)) ∧
    s5.nbEpisodeDone = (n : Int) ∧ s5.agentAction = none := by
  obtain ⟨p1, p2, p3, -, -, p6⟩ := startRun_facts A i s
  obtain ⟨k, -, e5, hstop, hbefore⟩ := runEpisodes_iterate P A fuel _ _ h5
  have hp : (startRun A i s).maxEpisodeTimeSteps = (M : Int) := by rw [p1.1, hmax]
  have hpn : (startRun A i s).nbEpisodes = (n : Int) := by rw [p1.2, hnb]
  have hb0 : BelowCap (startRun A i s) := Or.inl (by rw [p3, h0])
  have hsmp := sample_iterate P A M hM (startRun A i s) hp (by rw [p1.5, hst]) hb0
    (by rw [p6 hst, p2]; rfl) (by rw [p6 hst]; simp)
  have hprev : ((step P A)^[k] (startRun A i s)).nbEpisodeDone < (n : Int) := by
    cases k with
    | zero => rw [Function.iterate_zero, id, p2]; omega
    | succ j =>
      have := hbefore (j + 1) (by omega) (Nat.le_refl _)
      rw [hpn] at this
      exact this
  rw [hpn] at hstop
  have hlast : s5 = step P A ((step P A)^[k] (startRun A i s)) := by
    rw [e5, Function.iterate_succ_apply']
  have hcount : s5.nbEpisodeDone = (n : Int) ∧ s5.agentAction = none := by
    rw [hlast] at hstop ⊢
    rw [step_nbEpisodeDone] at hstop ⊢
    rw [step_agentAction]
    by_cases hc : capOrFlag P ((step P A)^[k] (startRun A i s))
    · rw [if_pos hc] at hstop ⊢
      rw [if_pos hc]
      exact ⟨by omega, rfl⟩
    · rw [if_neg hc] at hstop
      exact absurd hprev hstop
  obtain ⟨l1, l2⟩ := hsmp (k + 1)
  rw [← e5] at l1 l2
  refine ⟨?_, ?_, l2, hcount.1, hcount.2⟩
  · rw [e5]; exact p1.trans (iterate_sameSetup P A _ _)
  · rw [hcount.1] at l1
    exact_mod_cast l1

/-- An iteration of `run()` that starts between episodes with statistics on
ends between episodes with the sample empty. -/
theorem sample_iteration (sqrt : K → K) (P : ProblemOps K Act E) (A : AgentOps K Act C L)
    (M n : Nat) (hM : 1 ≤ M) (hn : 1 ≤ n)
    (evaluate : Simulator K Act C L E → Option (Simulator K Act C L E))
    (hev : ∀ x x', evaluate x = some x' →
      x'.statistics = x.statistics ∧ x'.agentAction = x.agentAction ∧ SameSetup x x')
    (s : Simulator K Act C L E)
    (hmax : s.maxEpisodeTimeSteps = (M : Int)) (hnb : s.nbEpisodes = (n : Int))
    (hst : s.enableStatistics = true) (h0 : s.agentAction = none) (i : Int) (fuel : Nat)
    (s' : Simulator K Act C L E) (h : runIteration sqrt P A evaluate fuel i s = some s') :
    s'.statistics = [] ∧ s'.agentAction = none ∧ SameSetup s s' := by
  rw [runIteration] at h
  cases h5 : runEpisodes P A fuel (startRun A i s) with
  | none => rw [h5] at h; simp at h
  | some s5 =>
    rw [h5] at h
    obtain ⟨q1, -, -, -, q5⟩ := sample_handed P A M n hM hn s hmax hnb hst h0 i fuel s5 h5
    have hst5 : s5.enableStatistics = true := by rw [q1.5, hst]
    simp only [hst5, if_true] at h
    have hb : SameSetup s5 (benchmark sqrt s5) := ⟨rfl, rfl, rfl, rfl, rfl, rfl, rfl, rfl, rfl⟩
    split at h
    · obtain ⟨e1, e2, e3⟩ := hev _ _ h
      exact ⟨by rw [e1]; rfl, by rw [e2]; exact q5, (q1.trans hb).trans e3⟩
    · simp only [Option.some.injEq] at h
      rw [← h]
      exact ⟨rfl, q5, q1.trans hb⟩

theorem runEvaluate_keeps
    (runnerRun : Simulator K Act C Unit E → Option (Simulator K Act C Unit E))
    (a b : Int) (x x' : Simulator K Act C L E) (h : runEvaluate runnerRun a b x = some x') :
    x'.statistics = x.statistics ∧ x'.agentAction = x.agentAction ∧ SameSetup x x' := by
  rw [runEvaluate] at h
  cases hr : runnerRun (evaluationRunner a b x) with
  | none => rw [hr] at h; simp at h
  | some r =>
    rw [hr] at h
    simp only [Option.some.injEq] at h
    rw [← h]
    exact ⟨rfl, rfl, ⟨rfl, rfl, rfl, rfl, rfl, rfl, rfl, rfl, rfl⟩⟩

omit [DivisionRing K] in
theorem runLoop_last (Inv : Simulator K Act C L E → Prop) (Post : Simulator K Act C L E → Prop)
    (body : Int → Simulator K Act C L E → Option (Simulator K Act C L E))
    (hbody : ∀ i s s', Inv s → body i s = some s' → Inv s' ∧ Post s') (k : Nat) :
    ∀ (i : Int) (s s' : Simulator K Act C L E), Inv s → runLoop body (k + 1) i s = some s' →
      Inv s' ∧ Post s' := by
  induction k with
  | zero =>
    intro i s s' hs h
    rw [runLoop] at h
    cases hb : body i s with
    | none => rw [hb] at h; simp at h
    | some s1 =>
      rw [hb] at h
      simp only [runLoop, Option.some.injEq] at h
      rw [← h]
      exact hbody i s s1 hs hb
  | succ k ih =>
    intro i s s' hs h
    rw [runLoop] at h
    cases hb : body i s with
    | none => rw [hb] at h; simp at h
    | some s1 =>
      rw [hb] at h
      exact ih (i + 1) s1 s' (hbody i s s1 hs hb).1 h

end Simulator

end RLLib

namespace RLLib

namespace Simulator

variable {K Act C L E : Type} [DivisionRing K]

/-- C14: for a simulator with statistics enabled, `nbEpisodes = n ≥ 1`, step
cap `M ≥ 1` and `nbRuns ≥ 1` that is between episodes.  An iteration of
`run()` starts with the sample cleared; whenever its `runEpisodes()` returns,
the sample it hands to `benchmark()` has exactly `n` entries, each an episode
length between 1 and `M`, so the sample count is not zero, and `benchmark()`
leaves the sample empty; the iteration ends with the sample empty and the
simulator between episodes with the same configuration, so the same holds for
the next iteration; and `run()` returns with the sample empty.  With an agent
that never returns a null action `runEpisodes()` does return. -/
theorem statistics_sample (sqrt : K → K) (P : ProblemOps K Act E) (A : AgentOps K Act C L)
    (M n : Nat) (hM : 1 ≤ M) (hn : 1 ≤ n) (s : Simulator K Act C L E)
    (hmax : s.maxEpisodeTimeSteps = (M : Int)) (hnb : s.nbEpisodes = (n : Int))
    (hst : s.enableStatistics = true) (hruns : 1 ≤ s.nbRuns) (h0 : s.agentAction = none)
    (i : Int) (fuel : Nat) :
    (startRun A i s).statistics = [] ∧
    (∀ s5 : Simulator K Act C L E, runEpisodes P A fuel (startRun A i s) = some s5 →
      s5.enableStatistics = true ∧ s5.statistics.length = n ∧ s5.statistics.length ≠ 0 ∧
      (∀ x ∈ s5.statistics, ∃ t : Int, x = (t : K) ∧ 1 ≤ t ∧ t ≤ (M : Int)) ∧
      (benchmark sqrt s5).statistics = []) ∧
    (∀ (runnerRun : Simulator K Act C Unit E → Option (Simulator K Act C Unit E))
      (s' : Simulator K Act C L E),
      runIteration sqrt P A
        (fun x => runEvaluate runnerRun x.maxTestEpisodesAfterEachRun 1 x) fuel i s = some s' →
      s'.statistics = [] ∧ s'.agentAction = none ∧ SameSetup s s') ∧
    (∀ (ctl : Control K Act C) (depth : Nat) (s' : Simulator K Act C L E),
      run sqrt P ctl depth L A fuel s = some s' → s'.statistics = [] ∧ s'.agentAction = none) ∧
    (NonNull A → ∃ (k : Nat) (s5 : Simulator K Act C L E), ∀ fuel2 : Nat, k ≤ fuel2 →
      runEpisodes P A fuel2 (startRun A i s) = some s5) := by
  obtain ⟨p1, p2, p3, p4, -, p6⟩ := startRun_facts A i s
  refine ⟨p6 hst, ?_, ?_, ?_, ?_⟩
  · intro s5 h5
    obtain ⟨q1, q2, q3, -, -⟩ := sample_handed P A M n hM hn s hmax hnb hst h0 i fuel s5 h5
    exact ⟨by rw [q1.5, hst], q2, by rw [q2]; omega, q3, rfl⟩
  · intro runnerRun s' h
    exact sample_iteration sqrt P A M n hM hn _
      (fun x x' hx => runEvaluate_keeps runnerRun _ _ x x' hx) s hmax hnb hst h0 i fuel s' h
  · intro ctl depth s' h
    have hloop : ∀ evaluate : Simulator K Act C L E → Option (Simulator K Act C L E),
        (∀ x x', evaluate x = some x' →
          x'.statistics = x.statistics ∧ x'.agentAction = x.agentAction ∧ SameSetup x x') →
        runWith sqrt P A evaluate fuel s = some s' →
        s'.statistics = [] ∧ s'.agentAction = none := by
      intro evaluate hev hw
      rw [runWith] at hw
      have hs0 : SameSetup s
          (if s.verbose = true then { s with trace := s.trace ++ [Effect.header] } else s) ∧
          (if s.verbose = true then { s with trace := s.trace ++ [Effect.header] }
            else s).agentAction = none := by
        split
        · exact ⟨⟨rfl, rfl, rfl, rfl, rfl, rfl, rfl, rfl, rfl⟩, h0⟩
        · exact ⟨SameSetup.refl s, h0⟩
      obtain ⟨j, hj⟩ : ∃ j : Nat,
          (if s.verbose = true then { s with trace := s.trace ++ [Effect.header] }
            else s).nbRuns.toNat = j + 1 := by
        refine ⟨s.nbRuns.toNat - 1, ?_⟩
        rw [hs0.1.3]
        omega
      rw [hj] at hw
      have := runLoop_last
        (fun x : Simulator K Act C L E => x.maxEpisodeTimeSteps = (M : Int) ∧
          x.nbEpisodes = (n : Int) ∧ x.enableStatistics = true ∧ x.agentAction = none)
        (fun x => x.statistics = [])
        (runIteration sqrt P A evaluate fuel)
        (by
          intro i2 a b ⟨a1, a2, a3, a4⟩ hab
          obtain ⟨b1, b2, b3⟩ := sample_iteration sqrt P A M n hM hn evaluate hev a a1 a2 a3 a4
            i2 fuel b hab
          exact ⟨⟨by rw [b3.1, a1], by rw [b3.2, a2], by rw [b3.5, a3], b2⟩, b1⟩)
        j 0 _ s' ⟨by rw [hs0.1.1, hmax], by rw [hs0.1.2, hnb], by rw [hs0.1.5, hst], hs0.2⟩ hw
      exact ⟨this.2, this.1.2.2.2⟩
    cases depth with
    | zero =>
      rw [run] at h
      exact hloop _ (fun _ _ hx => by simp at hx) h
    | succ d =>
      rw [run] at h
      exact hloop _ (fun x x' hx => runEvaluate_keeps _ _ _ x x' hx) h
  · intro hA
    obtain ⟨k, s5, hk, -, -, -⟩ := runEpisodes_returns P A hA M hM (startRun A i s)
      (by rw [p1.1, hmax]) (Or.inl (by rw [p3, h0])) p2
    exact ⟨k, s5, hk⟩

/-- C14, at the counting environment with statistics on, step cap 5 and 2
episodes: the sample handed to `benchmark()` has 2 entries. -/
theorem statistics_sample_witness :
    1 ≤ 5 ∧ 1 ≤ 2 ∧ (Demo.measuredSim 5 2).maxEpisodeTimeSteps = ((5 : Nat) : Int) ∧
    (Demo.measuredSim 5 2).nbEpisodes = ((2 : Nat) : Int) ∧
    (Demo.measuredSim 5 2).enableStatistics = true ∧ 1 ≤ (Demo.measuredSim 5 2).nbRuns ∧
    (Demo.measuredSim 5 2).agentAction = none ∧
    (runEpisodes (Demo.problem false) Demo.agent 20
      (startRun Demo.agent 0 (Demo.measuredSim 5 2))).isSome = true ∧
    ∀ s5 : Simulator ℚ Nat Unit Unit Nat,
      runEpisodes (Demo.problem false) Demo.agent 20
        (startRun Demo.agent 0 (Demo.measuredSim 5 2)) = some s5 →
      s5.enableStatistics = true ∧ s5.statistics.length = 2 ∧ s5.statistics.length ≠ 0 ∧
      (∀ x ∈ s5.statistics, ∃ t : Int, x = (t : ℚ) ∧ 1 ≤ t ∧ t ≤ ((5 : Nat) : Int)) ∧
      (benchmark (fun x => x) s5).statistics = [] :=
  ⟨by decide, by decide, rfl, rfl, rfl, by decide, rfl, by decide,
    (statistics_sample (fun x => x) (Demo.problem false) Demo.agent 5 2 (by decide) (by decide)
      (Demo.measuredSim 5 2) rfl rfl rfl (by decide) rfl 0 20).2.1⟩

end Simulator

end RLLib

/-! ## Claims on the divisor `timeStep` -/

namespace RLLib

namespace Simulator

variable {K Act C L E : Type} [DivisionRing K]

end Simulator

end RLLib

namespace RLLib

namespace Simulator

variable {K Act C L E : Type} [DivisionRing K]

end Simulator

end RLLib

namespace RLLib

namespace Simulator

variable {K Act C L E : Type} [DivisionRing K]

end Simulator

/-! ## The swing pendulum: clamping of the action and the reset -/

namespace SwingPendulum

variable {K : Type} [LinearOrderedField K]

/-- Clamping into a non-empty range twice is clamping once. -/
theorem bound_bound (r : Range K) (h : r.minValue ≤ r.maxValue) (x : K) :
    r.bound (r.bound x) = r.bound x := by
  unfold Range.bound
  have h1 : Max.max r.minValue (Min.min x r.maxValue) ≤ r.maxValue :=
    max_le h (min_le_right _ _)
  rw [min_eq_left h1, max_eq_right (le_max_left _ _)]

/-- The value of `adjustTheta` on an angle that is already in `[-pi, pi)`. -/
theorem adjustTheta_of_mem (m : Libm K) (e : SwingPendulumFields K)
    (h1 : -m.pi ≤ e.theta) (h2 : e.theta < m.pi) : adjustTheta m e = e := by
  unfold adjustTheta
  simp only [if_neg (not_le.mpr h2), if_neg (not_lt.mpr h1)]

/-- Writing the same two cells a second time changes nothing. -/
theorem set_set_again {α : Type} (l : List α) (a b : α) :
    (((l.set 0 a).set 1 b).set 0 a).set 1 b = (l.set 0 a).set 1 b := by
  cases l with
  | nil => rfl
  | cons x t => cases t <;> rfl

/-- The ranges, the resolutions and the constants of the pendulum are not
written by `step`. -/
theorem step_keeps (m : Libm K) (p : RLProblem K (List K) (SwingPendulumFields K))
    (a : List K) :
    (step m p a).env.actionRange = p.env.actionRange ∧
    (step m p a).env.thetaRange = p.env.thetaRange ∧
    (step m p a).env.velocityRange = p.env.velocityRange ∧
    (step m p a).resolutions = p.resolutions := by
  unfold step updateRTStep adjustTheta
  dsimp only
  refine ⟨?_, ?_, ?_, rfl⟩ <;> (split <;> split <;> rfl)

/-- The non-random `initialize` in closed form. -/
theorem initialise_eq (m : Libm K) (hpi : 0 < m.pi)
    (p : RLProblem K (List K) (SwingPendulumFields K)) (hr : p.env.random = false) :
    initialise m p =
      updateRTStep m
        { p with env := { p.env with upTime := 0, theta := m.pi / 2, velocity := 0 } } := by
  unfold initialise
  simp only [hr, Bool.false_eq_true, if_false]
  rw [adjustTheta_of_mem]
  · show -m.pi ≤ m.pi / 2
    linarith
  · show m.pi / 2 < m.pi
    linarith

/-- C18.  For every state of the pendulum whose action range is the declared
one, `[-uMax, uMax]` with `uMax = 2`, and for every action `a`, the total
function `step` gives the same next state and the same transition record for
`a` as for the action clamped into `[-2, 2]`; in particular every action of
value at least 2 acts as the action 2 and every action of value at most -2
acts as the action -2. -/
theorem step_clamps (m : Libm K) (p : RLProblem K (List K) (SwingPendulumFields K))
    (a : List K)
    (hmin : p.env.actionRange.minValue = -2) (hmax : p.env.actionRange.maxValue = 2) :
    step m p a = step m p [Max.max (-2) (Min.min (Action.at a 0) 2)] ∧
    (2 ≤ Action.at a 0 → step m p a = step m p [2]) ∧
    (Action.at a 0 ≤ -2 → step m p a = step m p [-2]) := by
  have hle : p.env.actionRange.minValue ≤ p.env.actionRange.maxValue := by
    rw [hmin, hmax]; norm_num
  have key : ∀ b : List K,
      p.env.actionRange.bound (Action.at b 0) = p.env.actionRange.bound (Action.at a 0) →
      step m p a = step m p b := by
    intro b hb
    unfold step
    simp only [hb]
  have hb : p.env.actionRange.bound (Action.at a 0)
      = Max.max (-2) (Min.min (Action.at a 0) 2) := by
    unfold Range.bound
    rw [hmin, hmax]
  refine ⟨key _ ?_, fun h => key _ ?_, fun h => key _ ?_⟩
  · have : Action.at [Max.max (-2 : K) (Min.min (Action.at a 0) 2)] 0
        = p.env.actionRange.bound (Action.at a 0) := by
      rw [hb]; rfl
    rw [this, bound_bound _ hle]
  · have h2 : Action.at [(2 : K)] 0 = 2 := rfl
    rw [h2, hb]
    unfold Range.bound
    rw [hmin, hmax, min_eq_right h, min_eq_right (le_refl _)]
  · have h2 : Action.at [(-2 : K)] 0 = -2 := rfl
    have h3 : Action.at a 0 ≤ 2 := le_trans h (by norm_num)
    rw [h2, hb]
    unfold Range.bound
    rw [hmin, hmax, min_eq_left h3, max_eq_left h, min_eq_left (by norm_num : (-2 : K) ≤ 2),
      max_eq_left (le_refl _)]

/-- Instance of C18: the freshly constructed pendulum over the reals and the
action 7, which acts as the action 2. -/
theorem step_clamps_witness :
    (new (⟨Real.sin, Real.cos, Real.pi⟩ : Libm ℝ) false (fun _ => 0)).env.actionRange.minValue
        = -2 ∧
    (new (⟨Real.sin, Real.cos, Real.pi⟩ : Libm ℝ) false (fun _ => 0)).env.actionRange.maxValue
        = 2 ∧
    step (⟨Real.sin, Real.cos, Real.pi⟩ : Libm ℝ)
        (new (⟨Real.sin, Real.cos, Real.pi⟩ : Libm ℝ) false (fun _ => 0)) [7]
      = step (⟨Real.sin, Real.cos, Real.pi⟩ : Libm ℝ)
        (new (⟨Real.sin, Real.cos, Real.pi⟩ : Libm ℝ) false (fun _ => 0)) [2] :=
  ⟨rfl, rfl, (step_clamps (⟨Real.sin, Real.cos, Real.pi⟩ : Libm ℝ)
    (new (⟨Real.sin, Real.cos, Real.pi⟩ : Libm ℝ) false (fun _ => 0)) [7] rfl rfl).2.1
      (by show (2 : ℝ) ≤ 7; norm_num)⟩

/-- C19.  In non-random mode, from every state of the pendulum `initialize`
leaves `theta = pi/2`, `velocity = 0`, `upTime = 0` and a transition record
with reward `cos(pi/2)`, auxiliary signal 0 and a false flag, whatever the
state was before; and a second `initialize` right after the first changes
neither the state nor the record. -/
theorem initialise_idempotent (m : Libm K) (hpi : 0 < m.pi)
    (p : RLProblem K (List K) (SwingPendulumFields K)) (hr : p.env.random = false) :
    (initialise m p).env.theta = m.pi / 2 ∧
    (initialise m p).env.velocity = 0 ∧
    (initialise m p).env.upTime = 0 ∧
    (initialise m p).output.r_tp1 = m.cos (m.pi / 2) ∧
    (initialise m p).output.z_tp1 = 0 ∧
    (initialise m p).output.endOfEpisode = false ∧
    (∀ q : RLProblem K (List K) (SwingPendulumFields K), q.env.random = false →
      (initialise m q).env.theta = (initialise m p).env.theta ∧
      (initialise m q).env.velocity = (initialise m p).env.velocity ∧
      (initialise m q).env.upTime = (initialise m p).env.upTime ∧
      (initialise m q).output.r_tp1 = (initialise m p).output.r_tp1 ∧
      (initialise m q).output.z_tp1 = (initialise m p).output.z_tp1 ∧
      (initialise m q).output.endOfEpisode = (initialise m p).output.endOfEpisode) ∧
    initialise m (initialise m p) = initialise m p := by
  have hr2 : (initialise m p).env.random = false := by
    rw [initialise_eq m hpi p hr]; exact hr
  refine ⟨?_, ?_, ?_, ?_, ?_, ?_, ?_, ?_⟩
  · rw [initialise_eq m hpi p hr]; rfl
  · rw [initialise_eq m hpi p hr]; rfl
  · rw [initialise_eq m hpi p hr]; rfl
  · rw [initialise_eq m hpi p hr]; rfl
  · rw [initialise_eq m hpi p hr]; rfl
  · rw [initialise_eq m hpi p hr]; rfl
  · intro q hq
    rw [initialise_eq m hpi p hr, initialise_eq m hpi q hq]
    exact ⟨rfl, rfl, rfl, rfl, rfl, rfl⟩
  · rw [initialise_eq m hpi _ hr2, initialise_eq m hpi p hr]
    unfold updateRTStep TRStep.updateRTStep
    simp only [set_set_again, r, z, endOfEpisode]

/-- Instance of C19: the freshly constructed non-random pendulum over the
reals. -/
theorem initialise_idempotent_witness :
    (0 : ℝ) < Real.pi ∧
    (new (⟨Real.sin, Real.cos, Real.pi⟩ : Libm ℝ) false (fun _ => 0)).env.random = false ∧
    (initialise (⟨Real.sin, Real.cos, Real.pi⟩ : Libm ℝ)
        (new (⟨Real.sin, Real.cos, Real.pi⟩ : Libm ℝ) false (fun _ => 0))).env.theta
      = Real.pi / 2 :=
  ⟨Real.pi_pos, rfl, (initialise_idempotent (⟨Real.sin, Real.cos, Real.pi⟩ : Libm ℝ)
    Real.pi_pos (new (⟨Real.sin, Real.cos, Real.pi⟩ : Libm ℝ) false (fun _ => 0)) rfl).1⟩

end SwingPendulum

/-! ## The swing pendulum: the scaled observations -/

namespace SwingPendulum

variable {K : Type} [LinearOrderedField K]

/-- The scaling `(x - a) * r / (b - a)` maps `[a, b]` onto `[0, r]`, and `b`
alone onto `r`. -/
theorem scaled_bounds (a b x r : K) (hab : a < b) (hr : 0 < r) (h1 : a ≤ x) (h2 : x ≤ b) :
    0 ≤ (x - a) * r / (b - a) ∧ (x - a) * r / (b - a) ≤ r ∧
    ((x - a) * r / (b - a) < r ↔ x < b) := by
  have hpos : 0 < b - a := sub_pos.mpr hab
  refine ⟨div_nonneg (mul_nonneg (sub_nonneg.mpr h1) hr.le) hpos.le, ?_, ?_⟩
  · rw [div_le_iff₀ hpos]
    nlinarith
  · rw [div_lt_iff₀ hpos]
    constructor
    · intro h
      by_contra hx
      have : x = b := le_antisymm h2 (not_lt.mp hx)
      rw [this, mul_comm] at h
      exact lt_irrefl _ h
    · intro h
      have : x - a < b - a := by linarith
      calc (x - a) * r < (b - a) * r := mul_lt_mul_of_pos_right this hr
        _ = r * (b - a) := mul_comm _ _

/-- The two cells that `updateRTStep` writes into a record of two
variables. -/
theorem updateRTStep_o_tp1 (m : Libm K) (p : RLProblem K (List K) (SwingPendulumFields K))
    (hlen : p.output.o_tp1.length = 2) :
    (updateRTStep m p).output.o_tp1 =
      [(p.env.theta - p.env.thetaRange.minValue) * p.resolutions.getD 0 0 /
          (p.env.thetaRange.maxValue - p.env.thetaRange.minValue),
        (p.env.velocity - p.env.velocityRange.minValue) * p.resolutions.getD 1 0 /
          (p.env.velocityRange.maxValue - p.env.velocityRange.minValue)] := by
  unfold updateRTStep TRStep.updateRTStep Range.min Range.length
  dsimp only
  match h : p.output.o_tp1, hlen with
  | [x, y], _ => rfl

/-- C16, refuted as stated.  The pendulum over the reals at its largest
declared velocity `maxVelocity` is inside both declared ranges, bounds
included, and `updateRTStep` writes the scaled velocity 10, which is the
resolution itself and so not in the half-open interval `[0, 10)`. -/
theorem scaled_velocity_reaches_resolution :
    (Demo.fastPendulum (⟨Real.sin, Real.cos, Real.pi⟩ : Libm ℝ)).env.thetaRange.min
      ≤ (Demo.fastPendulum (⟨Real.sin, Real.cos, Real.pi⟩ : Libm ℝ)).env.theta ∧
    (Demo.fastPendulum (⟨Real.sin, Real.cos, Real.pi⟩ : Libm ℝ)).env.theta
      ≤ (Demo.fastPendulum (⟨Real.sin, Real.cos, Real.pi⟩ : Libm ℝ)).env.thetaRange.max ∧
    (Demo.fastPendulum (⟨Real.sin, Real.cos, Real.pi⟩ : Libm ℝ)).env.velocityRange.min
      ≤ (Demo.fastPendulum (⟨Real.sin, Real.cos, Real.pi⟩ : Libm ℝ)).env.velocity ∧
    (Demo.fastPendulum (⟨Real.sin, Real.cos, Real.pi⟩ : Libm ℝ)).env.velocity
      ≤ (Demo.fastPendulum (⟨Real.sin, Real.cos, Real.pi⟩ : Libm ℝ)).env.velocityRange.max ∧
    (Demo.fastPendulum (⟨Real.sin, Real.cos, Real.pi⟩ : Libm ℝ)).resolutions = [10, 10] ∧
    (updateRTStep (⟨Real.sin, Real.cos, Real.pi⟩ : Libm ℝ)
      (Demo.fastPendulum (⟨Real.sin, Real.cos, Real.pi⟩ : Libm ℝ))).output.o_tp1 = [5, 10] ∧
    ¬ ((updateRTStep (⟨Real.sin, Real.cos, Real.pi⟩ : Libm ℝ)
        (Demo.fastPendulum (⟨Real.sin, Real.cos, Real.pi⟩ : Libm ℝ))).output.o_tp1.getD 1 0
      < (Demo.fastPendulum (⟨Real.sin, Real.cos, Real.pi⟩ : Libm ℝ)).resolutions.getD 1 0) := by
  have hpi : (0 : ℝ) < Real.pi := Real.pi_pos
  have hv : (0 : ℝ) < Real.pi / 4 / (1 / 100) := by positivity
  have ho : (updateRTStep (⟨Real.sin, Real.cos, Real.pi⟩ : Libm ℝ)
      (Demo.fastPendulum (⟨Real.sin, Real.cos, Real.pi⟩ : Libm ℝ))).output.o_tp1 = [5, 10] := by
    rw [updateRTStep_o_tp1 (⟨Real.sin, Real.cos, Real.pi⟩ : Libm ℝ)
      (Demo.fastPendulum (⟨Real.sin, Real.cos, Real.pi⟩ : Libm ℝ)) rfl]
    show [((0 : ℝ) - -Real.pi) * 10 / (Real.pi - -Real.pi),
      (Real.pi / 4 / (1 / 100) - -(Real.pi / 4 / (1 / 100))) * 10 /
        (Real.pi / 4 / (1 / 100) - -(Real.pi / 4 / (1 / 100)))] = [5, 10]
    have h1 : ((0 : ℝ) - -Real.pi) * 10 / (Real.pi - -Real.pi) = 5 := by
      field_simp; ring
    have h2 : (Real.pi / 4 / (1 / 100) - -(Real.pi / 4 / (1 / 100))) * 10 /
        (Real.pi / 4 / (1 / 100) - -(Real.pi / 4 / (1 / 100))) = (10 : ℝ) := by
      field_simp
    rw [h1, h2]
  refine ⟨?_, ?_, ?_, ?_, rfl, ho, ?_⟩
  · show -Real.pi ≤ (0 : ℝ)
    linarith
  · show (0 : ℝ) ≤ Real.pi
    linarith
  · show -(Real.pi / 4 / (1 / 100)) ≤ Real.pi / 4 / (1 / 100)
    linarith
  · show Real.pi / 4 / (1 / 100) ≤ Real.pi / 4 / (1 / 100)
    exact le_refl _
  · rw [ho]
    show ¬ ((10 : ℝ) < 10)
    exact lt_irrefl _

/-- C16, amended.  For every state of the pendulum whose two declared ranges
are not degenerate, whose resolutions are positive and whose record has two
variables, with theta and velocity inside their declared ranges (bounds
included), `updateRTStep` writes for both dimensions the scaled observation
`(raw_i - min_i) * resolution_i / (max_i - min_i)`; it lies in the closed
interval `[0, resolution_i]`, and it is below `resolution_i` exactly when
`raw_i` is below `max_i`. -/
theorem scaled_observations (m : Libm K) (p : RLProblem K (List K) (SwingPendulumFields K))
    (hlen : p.output.o_tp1.length = 2)
    (hr0 : 0 < p.resolutions.getD 0 0) (hr1 : 0 < p.resolutions.getD 1 0)
    (hθ : p.env.thetaRange.min < p.env.thetaRange.max)
    (hv : p.env.velocityRange.min < p.env.velocityRange.max)
    (hθ1 : p.env.thetaRange.min ≤ p.env.theta) (hθ2 : p.env.theta ≤ p.env.thetaRange.max)
    (hv1 : p.env.velocityRange.min ≤ p.env.velocity)
    (hv2 : p.env.velocity ≤ p.env.velocityRange.max) :
    (updateRTStep m p).output.o_tp1 =
      [(p.env.theta - p.env.thetaRange.min) * p.resolutions.getD 0 0 /
          (p.env.thetaRange.max - p.env.thetaRange.min),
        (p.env.velocity - p.env.velocityRange.min) * p.resolutions.getD 1 0 /
          (p.env.velocityRange.max - p.env.velocityRange.min)] ∧
    0 ≤ (updateRTStep m p).output.o_tp1.getD 0 0 ∧
    (updateRTStep m p).output.o_tp1.getD 0 0 ≤ p.resolutions.getD 0 0 ∧
    ((updateRTStep m p).output.o_tp1.getD 0 0 < p.resolutions.getD 0 0 ↔
      p.env.theta < p.env.thetaRange.max) ∧
    0 ≤ (updateRTStep m p).output.o_tp1.getD 1 0 ∧
    (updateRTStep m p).output.o_tp1.getD 1 0 ≤ p.resolutions.getD 1 0 ∧
    ((updateRTStep m p).output.o_tp1.getD 1 0 < p.resolutions.getD 1 0 ↔
      p.env.velocity < p.env.velocityRange.max) := by
  have h0 := scaled_bounds _ _ _ _ hθ hr0 hθ1 hθ2
  have h1 := scaled_bounds _ _ _ _ hv hr1 hv1 hv2
  rw [updateRTStep_o_tp1 m p hlen]
  exact ⟨rfl, h0.1, h0.2.1, h0.2.2, h1.1, h1.2.1, h1.2.2⟩

/-- Instance of C16, amended: the pendulum over the reals at its largest
declared velocity, where the scaled velocity is the resolution itself. -/
theorem scaled_observations_witness :
    (Demo.fastPendulum (⟨Real.sin, Real.cos, Real.pi⟩ : Libm ℝ)).env.velocity
      ≤ (Demo.fastPendulum (⟨Real.sin, Real.cos, Real.pi⟩ : Libm ℝ)).env.velocityRange.max ∧
    (updateRTStep (⟨Real.sin, Real.cos, Real.pi⟩ : Libm ℝ)
        (Demo.fastPendulum (⟨Real.sin, Real.cos, Real.pi⟩ : Libm ℝ))).output.o_tp1.getD 1 0
      ≤ (Demo.fastPendulum (⟨Real.sin, Real.cos, Real.pi⟩ : Libm ℝ)).resolutions.getD 1 0 :=
  have hpi : (0 : ℝ) < Real.pi := Real.pi_pos
  have hm : (0 : ℝ) < Real.pi / 4 / (1 / 100) := by positivity
  have hv2 : (Demo.fastPendulum (⟨Real.sin, Real.cos, Real.pi⟩ : Libm ℝ)).env.velocity
      ≤ (Demo.fastPendulum (⟨Real.sin, Real.cos, Real.pi⟩ : Libm ℝ)).env.velocityRange.max :=
    le_refl (Real.pi / 4 / (1 / 100))
  ⟨hv2, (scaled_observations (⟨Real.sin, Real.cos, Real.pi⟩ : Libm ℝ)
    (Demo.fastPendulum (⟨Real.sin, Real.cos, Real.pi⟩ : Libm ℝ)) rfl
    (by show (0 : ℝ) < 10; norm_num) (by show (0 : ℝ) < 10; norm_num)
    (by show -Real.pi < Real.pi; linarith)
    (by show -(Real.pi / 4 / (1 / 100)) < Real.pi / 4 / (1 / 100); linarith)
    (by show -Real.pi ≤ (0 : ℝ); linarith)
    (by show (0 : ℝ) ≤ Real.pi; linarith)
    (by show -(Real.pi / 4 / (1 / 100)) ≤ Real.pi / 4 / (1 / 100); linarith)
    hv2).2.2.2.2.2.1⟩

end SwingPendulum

/-! ## The swing pendulum under the simulator: the length of the episodes -/

namespace Simulator

variable {K Act C L E : Type} [DivisionRing K]

/-- While an action is pending, `timeStep` counts the mid-episode calls made
since the last start-of-episode call: from a state between episodes, if an
action is pending after `n` calls and `timeStep = t`, then the call number
`n - t` was the start-of-episode call and an action has been pending ever
since. -/
theorem pending_since (P : ProblemOps K Act E) (A : AgentOps K Act C L)
    (s0 : Simulator K Act C L E) (h0 : s0.agentAction = none) :
    ∀ n : Nat, ((step P A)^[n] s0).agentAction ≠ none →
      ∃ t : Nat, ((step P A)^[n] s0).timeStep = (t : Int) ∧ t + 1 ≤ n ∧
        ((step P A)^[n - (t + 1)] s0).agentAction = none ∧
        ∀ j : Nat, n - t ≤ j → j ≤ n → ((step P A)^[j] s0).agentAction ≠ none := by
  intro n
  induction n with
  | zero => intro h; exact absurd h0 h
  | succ n ih =>
    intro h
    have hs : (step P A)^[n + 1] s0 = step P A ((step P A)^[n] s0) :=
      Function.iterate_succ_apply' _ _ _
    have hc : ¬ capOrFlag P ((step P A)^[n] s0) := by
      intro hc
      apply h
      rw [hs, step_agentAction, if_pos hc]
    have ht : ((step P A)^[n + 1] s0).timeStep = updatedTimeStep ((step P A)^[n] s0) := by
      rw [hs]; exact step_timeStep_of_not P A _ hc
    cases hp : ((step P A)^[n] s0).agentAction with
    | none =>
      refine ⟨0, ?_, by omega, ?_, ?_⟩
      · rw [ht]; unfold updatedTimeStep; rw [hp]; rfl
      · show ((step P A)^[n + 1 - (0 + 1)] s0).agentAction = none
        rw [show n + 1 - (0 + 1) = n by omega]; exact hp
      · intro j hj1 hj2
        have : j = n + 1 := by omega
        rw [this]; exact h
    | some a =>
      have hne : ((step P A)^[n] s0).agentAction ≠ none := by rw [hp]; exact Option.some_ne_none a
      obtain ⟨t, h1, h2, h3, h4⟩ := ih hne
      refine ⟨t + 1, ?_, by omega, ?_, ?_⟩
      · rw [ht]; unfold updatedTimeStep; rw [hp]
        show ((step P A)^[n] s0).timeStep + 1 = ((t + 1 : Nat) : Int)
        rw [h1]; push_cast; rfl
      · rw [show n + 1 - (t + 1 + 1) = n - (t + 1) by omega]; exact h3
      · intro j hj1 hj2
        by_cases hj : j = n + 1
        · rw [hj]; exact h
        · exact h4 j (by omega) (by omega)

end Simulator

namespace SwingPendulum

variable {K C L : Type} [LinearOrderedField K]

/-- The flag of the record is false after every `initialize` and every
`step` of the pendulum. -/
theorem flag_false (m : Libm K) (p : RLProblem K (List K) (SwingPendulumFields K)) :
    (initialise m p).output.endOfEpisode = false ∧
    ∀ a : List K, (step m p a).output.endOfEpisode = false :=
  ⟨rfl, fun _ => rfl⟩

/-- With the pendulum, the test of the end of the episode is the step cap
alone. -/
theorem capOrFlag_iff_cap (m : Libm K)
    (s : Simulator K (List K) C L (SwingPendulumFields K)) :
    Simulator.capOrFlag (ops m) s ↔ Simulator.updatedTimeStep s = s.maxEpisodeTimeSteps := by
  unfold Simulator.capOrFlag
  constructor
  · rintro (⟨_, h⟩ | h)
    · exfalso
      unfold Simulator.writtenIn at h
      cases hp : s.agentAction with
      | none => rw [hp] at h; exact Bool.false_ne_true h
      | some a => rw [hp] at h; exact Bool.false_ne_true h
    · exact h
  · exact Or.inr

end SwingPendulum

namespace SwingPendulum

variable {K C L : Type} [LinearOrderedField K]

/-- With a non-null agent and step cap `M ≥ 1`, after `i + 1 ≤ M` calls from a
state between episodes the pendulum's episode is still running, with
`timeStep = i`. -/
theorem running (m : Libm K) (A : AgentOps K (List K) C L) (hA : Simulator.NonNull A)
    (M : Nat) (s0 : Simulator K (List K) C L (SwingPendulumFields K))
    (h0 : s0.agentAction = none) (hmax : s0.maxEpisodeTimeSteps = (M : Int)) :
    ∀ i : Nat, i + 1 ≤ M →
      ((Simulator.step (ops m) A)^[i + 1] s0).agentAction ≠ none ∧
      ((Simulator.step (ops m) A)^[i + 1] s0).timeStep = (i : Int) ∧
      ((Simulator.step (ops m) A)^[i + 1] s0).nbEpisodeDone = s0.nbEpisodeDone := by
  intro i
  induction i with
  | zero =>
    intro hi
    have hs : (Simulator.step (ops m) A)^[0 + 1] s0 = Simulator.step (ops m) A s0 := rfl
    have hu : Simulator.updatedTimeStep s0 = 0 := by
      unfold Simulator.updatedTimeStep; rw [h0]
    have hc : ¬ Simulator.capOrFlag (ops m) s0 := by
      rw [capOrFlag_iff_cap, hu, hmax]; omega
    rw [hs]
    refine ⟨?_, ?_, ?_⟩
    · rw [Simulator.step_agentAction, if_neg hc]
      exact Simulator.returnedAction_ne_none _ A hA s0
    · rw [Simulator.step_timeStep_of_not _ A s0 hc, hu]; rfl
    · rw [Simulator.step_nbEpisodeDone, if_neg hc]
  | succ i ih =>
    intro hi
    obtain ⟨h1, h2, h3⟩ := ih (by omega)
    have hs : (Simulator.step (ops m) A)^[i + 1 + 1] s0
        = Simulator.step (ops m) A ((Simulator.step (ops m) A)^[i + 1] s0) :=
      Function.iterate_succ_apply' _ _ _
    have hu : Simulator.updatedTimeStep ((Simulator.step (ops m) A)^[i + 1] s0)
        = ((i + 1 : Nat) : Int) := by
      unfold Simulator.updatedTimeStep
      cases hp : ((Simulator.step (ops m) A)^[i + 1] s0).agentAction with
      | none => exact absurd hp h1
      | some a =>
        show ((Simulator.step (ops m) A)^[i + 1] s0).timeStep + 1 = ((i + 1 : Nat) : Int)
        rw [h2]; push_cast; rfl
    have hc : ¬ Simulator.capOrFlag (ops m) ((Simulator.step (ops m) A)^[i + 1] s0) := by
      rw [capOrFlag_iff_cap, hu, (Simulator.iterate_config _ A s0 (i + 1)).1, hmax]; omega
    rw [hs]
    refine ⟨?_, ?_, ?_⟩
    · rw [Simulator.step_agentAction, if_neg hc]
      exact Simulator.returnedAction_ne_none _ A hA _
    · rw [Simulator.step_timeStep_of_not _ A _ hc, hu]
    · rw [Simulator.step_nbEpisodeDone, if_neg hc, h3]

/-- C17.  The pendulum never signals termination: the flag of its record is
false after every `initialize` and every `step`, for every state and action.
Under a simulator with step cap `M ≥ 1`, started between episodes, every
episode therefore runs to the cap: whenever a call completes an episode, that
episode consists of one start-of-episode call followed by exactly `M`
mid-episode calls, its summary carries the length `timeStep = M`, and `M` is
the value appended to the statistics when they are enabled.  With an agent
that never returns a null action such an episode does take place: the first
`M` calls complete no episode and the call number `M + 1` completes one. -/
theorem episodes_run_to_cap (m : Libm K) (A : AgentOps K (List K) C L) (M : Nat) (hM : 1 ≤ M)
    (s0 : Simulator K (List K) C L (SwingPendulumFields K))
    (h0 : s0.agentAction = none) (hmax : s0.maxEpisodeTimeSteps = (M : Int)) :
    (∀ p : RLProblem K (List K) (SwingPendulumFields K),
      (initialise m p).output.endOfEpisode = false) ∧
    (∀ (p : RLProblem K (List K) (SwingPendulumFields K)) (a : List K),
      (step m p a).output.endOfEpisode = false) ∧
    (∀ n : Nat,
      ((Simulator.step (ops m) A)^[n + 1] s0).nbEpisodeDone =
          ((Simulator.step (ops m) A)^[n] s0).nbEpisodeDone + 1 →
        M ≤ n ∧
        ((Simulator.step (ops m) A)^[n - M] s0).agentAction = none ∧
        (∀ j : Nat, n - M < j → j ≤ n →
          ((Simulator.step (ops m) A)^[j] s0).agentAction ≠ none) ∧
        (Simulator.episodeSummary (ops m) A
          ((Simulator.step (ops m) A)^[n] s0)).nbTotalTimeSteps = (M : Int) ∧
        (((Simulator.step (ops m) A)^[n] s0).enableStatistics = true →
          ((Simulator.step (ops m) A)^[n + 1] s0).statistics =
            ((Simulator.step (ops m) A)^[n] s0).statistics ++ [(((M : Nat) : Int) : K)])) ∧
    (Simulator.NonNull A →
      (∀ i : Nat, i ≤ M →
        ((Simulator.step (ops m) A)^[i] s0).nbEpisodeDone = s0.nbEpisodeDone) ∧
      (∀ i : Nat, 1 ≤ i → i ≤ M →
        ((Simulator.step (ops m) A)^[i] s0).agentAction ≠ none) ∧
      ((Simulator.step (ops m) A)^[M + 1] s0).nbEpisodeDone = s0.nbEpisodeDone + 1 ∧
      ((Simulator.step (ops m) A)^[M + 1] s0).agentAction = none) := by
  refine ⟨fun _ => rfl, fun _ _ => rfl, ?_, ?_⟩
  · intro n hn
    have hs : (Simulator.step (ops m) A)^[n + 1] s0
        = Simulator.step (ops m) A ((Simulator.step (ops m) A)^[n] s0) :=
      Function.iterate_succ_apply' _ _ _
    rw [hs] at hn
    have hc : Simulator.capOrFlag (ops m) ((Simulator.step (ops m) A)^[n] s0) :=
      (Simulator.counted_iff _ A _).mp hn
    have hu := (capOrFlag_iff_cap m _).mp hc
    rw [(Simulator.iterate_config _ A s0 n).1, hmax] at hu
    have hne : ((Simulator.step (ops m) A)^[n] s0).agentAction ≠ none := by
      intro hp
      unfold Simulator.updatedTimeStep at hu
      rw [hp] at hu
      have : (0 : Int) = (M : Int) := hu
      omega
    obtain ⟨t, h1, h2, h3, h4⟩ := Simulator.pending_since (ops m) A s0 h0 n hne
    have ht : t + 1 = M := by
      unfold Simulator.updatedTimeStep at hu
      cases hp : ((Simulator.step (ops m) A)^[n] s0).agentAction with
      | none => exact absurd hp hne
      | some a =>
        rw [hp] at hu
        have : ((Simulator.step (ops m) A)^[n] s0).timeStep + 1 = (M : Int) := hu
        rw [h1] at this
        omega
    subst ht
    refine ⟨h2, h3, fun j hj1 hj2 => h4 j (by omega) hj2, ?_, ?_⟩
    · show (Simulator.stepAgent A (Simulator.stepProblem (ops m)
        ((Simulator.step (ops m) A)^[n] s0))).timeStep = _
      rw [(Simulator.advance_base _ A _).1, hu]
    · intro he
      rw [hs, Simulator.step_statistics, if_pos ⟨hc, he⟩, hu]
  · intro hA
    have hrun := running m A hA M s0 h0 hmax
    refine ⟨?_, ?_, ?_, ?_⟩
    · intro i hi
      cases i with
      | zero => rfl
      | succ i => exact (hrun i hi).2.2
    · intro i hi1 hi2
      cases i with
      | zero => omega
      | succ i => exact (hrun i hi2).1
    all_goals
      obtain ⟨k, rfl⟩ : ∃ k, M = k + 1 := ⟨M - 1, by omega⟩
      obtain ⟨h1, h2, h3⟩ := hrun k (le_refl _)
      have hs : (Simulator.step (ops m) A)^[k + 1 + 1] s0
          = Simulator.step (ops m) A ((Simulator.step (ops m) A)^[k + 1] s0) :=
        Function.iterate_succ_apply' _ _ _
      have hc : Simulator.capOrFlag (ops m) ((Simulator.step (ops m) A)^[k + 1] s0) := by
        rw [capOrFlag_iff_cap, (Simulator.iterate_config _ A s0 (k + 1)).1, hmax]
        unfold Simulator.updatedTimeStep
        cases hp : ((Simulator.step (ops m) A)^[k + 1] s0).agentAction with
        | none => exact absurd hp h1
        | some a =>
          show ((Simulator.step (ops m) A)^[k + 1] s0).timeStep + 1 = ((k + 1 : Nat) : Int)
          rw [h2]; push_cast; rfl
      rw [hs]
    · rw [Simulator.step_nbEpisodeDone, if_pos hc, h3]
    · rw [Simulator.step_agentAction, if_pos hc]

/-- Instance of C17: the pendulum over the reals under a fresh simulator with
step cap 2 and the agent that always pushes; the third call completes the
first episode. -/
theorem episodes_run_to_cap_witness :
    (1 : Nat) ≤ 2 ∧
    (Demo.pendulumSim (⟨Real.sin, Real.cos, Real.pi⟩ : Libm ℝ) 2).agentAction = none ∧
    (Demo.pendulumSim (⟨Real.sin, Real.cos, Real.pi⟩ : Libm ℝ) 2).maxEpisodeTimeSteps
      = ((2 : Nat) : Int) ∧
    Simulator.NonNull (Demo.pushAgent : AgentOps ℝ (List ℝ) Unit Unit) ∧
    ((Simulator.step (ops (⟨Real.sin, Real.cos, Real.pi⟩ : Libm ℝ)) Demo.pushAgent)^[2 + 1]
      (Demo.pendulumSim (⟨Real.sin, Real.cos, Real.pi⟩ : Libm ℝ) 2)).nbEpisodeDone = 0 + 1 :=
  have hA : Simulator.NonNull (Demo.pushAgent : AgentOps ℝ (List ℝ) Unit Unit) :=
    fun _ _ => ⟨Option.some_ne_none _, Option.some_ne_none _⟩
  ⟨by decide, rfl, rfl, hA,
    ((episodes_run_to_cap (⟨Real.sin, Real.cos, Real.pi⟩ : Libm ℝ) Demo.pushAgent 2 (by decide)
      (Demo.pendulumSim (⟨Real.sin, Real.cos, Real.pi⟩ : Libm ℝ) 2) rfl rfl).2.2.2 hA).2.2.1⟩

end SwingPendulum

/-! ## The swing pendulum: the angle and the velocity stay in range -/

namespace SwingPendulum

variable {K : Type} [LinearOrderedField K]

/-- Only the angle is written by `adjustTheta`. -/
theorem adjustTheta_eq (m : Libm K) (e : SwingPendulumFields K) :
    adjustTheta m e = { e with theta := (adjustTheta m e).theta } := by
  unfold adjustTheta
  dsimp only
  split <;> split <;> rfl

/-- One wrap-around of `adjustTheta` brings every angle of `[-3 pi, 3 pi)`
into `[-pi, pi)`. -/
theorem adjustTheta_mem (m : Libm K) (e : SwingPendulumFields K)
    (h1 : -(3 * m.pi) ≤ e.theta) (h2 : e.theta < 3 * m.pi) :
    -m.pi ≤ (adjustTheta m e).theta ∧ (adjustTheta m e).theta < m.pi := by
  unfold adjustTheta
  dsimp only
  by_cases hge : m.pi ≤ e.theta
  · rw [if_pos hge]
    have hn : ¬ (e.theta - 2 * m.pi < -m.pi) := by
      intro h
      linarith
    show -m.pi ≤ (if e.theta - 2 * m.pi < -m.pi then _ else _ : SwingPendulumFields K).theta ∧ _
    rw [if_neg hn]
    constructor
    · show -m.pi ≤ e.theta - 2 * m.pi
      linarith
    · show e.theta - 2 * m.pi < m.pi
      linarith
  · rw [if_neg hge]
    by_cases hlt : e.theta < -m.pi
    · rw [if_pos hlt]
      constructor
      · show -m.pi ≤ e.theta + 2 * m.pi
        linarith
      · show e.theta + 2 * m.pi < m.pi
        linarith
    · rw [if_neg hlt]
      exact ⟨not_lt.mp hlt, not_le.mp hge⟩

/-- A value clamped into a non-empty range is in the range. -/
theorem bound_mem (r : Range K) (h : r.minValue ≤ r.maxValue) (x : K) :
    r.minValue ≤ r.bound x ∧ r.bound x ≤ r.maxValue :=
  ⟨le_max_left _ _, max_le h (min_le_right _ _)⟩

/-- The state that `step` leaves: the clamped velocity, the wrapped angle, and
the constants untouched. -/
theorem step_env (m : Libm K) (p : RLProblem K (List K) (SwingPendulumFields K))
    (a : List K) :
    (step m p a).env.velocity =
      p.env.velocityRange.bound (p.env.velocity +
        (-p.env.stepTime * p.env.velocity +
          p.env.mass * p.env.g * p.env.length * m.sin p.env.theta +
          p.env.actionRange.bound (Action.at a 0))) ∧
    (step m p a).env.theta =
      (adjustTheta m
        { p.env with
          velocity := (step m p a).env.velocity
          theta := p.env.theta + (step m p a).env.velocity * p.env.stepTime }).theta ∧
    (step m p a).env.stepTime = p.env.stepTime ∧
    (step m p a).env.maxVelocity = p.env.maxVelocity ∧
    (step m p a).env.thetaRange = p.env.thetaRange ∧
    (step m p a).env.velocityRange = p.env.velocityRange ∧
    (step m p a).env.random = p.env.random ∧
    (step m p a).env.draws = p.env.draws := by
  unfold step updateRTStep
  dsimp only
  refine ⟨?_, ?_, ?_, ?_, ?_, ?_, ?_, ?_⟩ <;>
    rw [adjustTheta_eq]

end SwingPendulum

namespace SwingPendulum

variable {K : Type} [LinearOrderedField K]

/-- The constructor sets the declared constants. -/
theorem new_declared (m : Libm K) (random : Bool) (draws : Nat → K) :
    Declared m (new m random draws).env :=
  ⟨rfl, rfl, rfl, rfl, rfl, rfl⟩

/-- With the declared constants, the largest velocity is not negative and
moves the angle by `pi / 4` in one time step. -/
theorem declared_facts (m : Libm K) (hpi : 0 < m.pi) (e : SwingPendulumFields K)
    (hd : Declared m e) :
    0 < e.stepTime ∧ 0 ≤ e.maxVelocity ∧ e.maxVelocity * e.stepTime = m.pi / 4 := by
  obtain ⟨h1, h2, -, -, -, -⟩ := hd
  have hs : 0 < e.stepTime := by rw [h1]; norm_num
  refine ⟨hs, ?_, ?_⟩
  · rw [h2]
    exact div_nonneg (div_nonneg hpi.le (by norm_num)) hs.le
  · rw [h2]
    exact div_mul_cancel₀ _ hs.ne.symm

/-- After `adjustTheta`, a state with an angle in `[-3 pi, 3 pi)` and a velocity
in range is in range. -/
theorem adjustTheta_inRange (m : Libm K) (e : SwingPendulumFields K)
    (h1 : -(3 * m.pi) ≤ e.theta) (h2 : e.theta < 3 * m.pi)
    (hv : |e.velocity| ≤ e.maxVelocity) : InRange m (adjustTheta m e) := by
  obtain ⟨h3, h4⟩ := adjustTheta_mem m e h1 h2
  refine ⟨h3, h4, ?_⟩
  rw [adjustTheta_eq]
  exact hv

/-- The declared constants are not written by `adjustTheta`. -/
theorem adjustTheta_declared (m : Libm K) (e : SwingPendulumFields K) (hd : Declared m e) :
    Declared m (adjustTheta m e) := by
  rw [adjustTheta_eq]
  exact hd

/-- After `initialize` the state is in range, in both modes; in random mode
the number drawn is between 0 and 1. -/
theorem initialise_inRange (m : Libm K) (hpi : 0 < m.pi)
    (p : RLProblem K (List K) (SwingPendulumFields K)) (hd : Declared m p.env)
    (hu : p.env.random = true → ∀ k : Nat, 0 ≤ p.env.draws k ∧ p.env.draws k ≤ 1) :
    InRange m (initialise m p).env ∧ Declared m (initialise m p).env := by
  have hf := declared_facts m hpi p.env hd
  cases hr : p.env.random with
  | false =>
    have he : (initialise m p).env
        = adjustTheta m { p.env with upTime := 0, theta := m.pi / 2, velocity := 0 } := by
      unfold initialise updateRTStep
      simp only [hr, Bool.false_eq_true, if_false]
    rw [he]
    refine ⟨adjustTheta_inRange m _ ?_ ?_ ?_, adjustTheta_declared m _ hd⟩
    · show -(3 * m.pi) ≤ m.pi / 2
      linarith
    · show m.pi / 2 < 3 * m.pi
      linarith
    · show |(0 : K)| ≤ p.env.maxVelocity
      rw [abs_zero]; exact hf.2.1
  | true =>
    have he : (initialise m p).env
        = adjustTheta m
          { p.env with
            upTime := 0
            theta := p.env.thetaRange.chooseRandom (p.env.draws p.env.drawn)
            drawn := p.env.drawn + 1
            velocity := 0 } := by
      unfold initialise updateRTStep
      simp only [hr, if_true]
    obtain ⟨h0, h1⟩ := hu hr p.env.drawn
    have h3 := hd.2.2.1
    have h4 := hd.2.2.2.1
    have hc : p.env.thetaRange.chooseRandom (p.env.draws p.env.drawn)
        = -m.pi + p.env.draws p.env.drawn * (m.pi - -m.pi) := by
      unfold Range.chooseRandom
      rw [h3, h4]
    rw [he]
    refine ⟨adjustTheta_inRange m _ ?_ ?_ ?_, adjustTheta_declared m _ hd⟩
    · show -(3 * m.pi) ≤ p.env.thetaRange.chooseRandom (p.env.draws p.env.drawn)
      rw [hc]
      nlinarith
    · show p.env.thetaRange.chooseRandom (p.env.draws p.env.drawn) < 3 * m.pi
      rw [hc]
      nlinarith
    · show |(0 : K)| ≤ p.env.maxVelocity
      rw [abs_zero]; exact hf.2.1

/-- One `step` keeps the state in range and the declared constants, and moves
the angle by at most `pi / 4` before the wrap-around. -/
theorem step_inRange (m : Libm K) (hpi : 0 < m.pi)
    (p : RLProblem K (List K) (SwingPendulumFields K)) (hd : Declared m p.env)
    (hin : InRange m p.env) (a : List K) :
    InRange m (step m p a).env ∧ Declared m (step m p a).env ∧
    |(step m p a).env.velocity * p.env.stepTime| ≤ m.pi / 4 := by
  obtain ⟨hs, hm, hq⟩ := declared_facts m hpi p.env hd
  obtain ⟨e1, e2, e3, e4, e5, e6, -, -⟩ := step_env m p a
  obtain ⟨d1, d2, d3, d4, d5, d6⟩ := hd
  obtain ⟨t1, t2, -⟩ := hin
  have hle : p.env.velocityRange.minValue ≤ p.env.velocityRange.maxValue := by
    rw [d5, d6]; linarith
  have hb : -p.env.maxVelocity ≤ (step m p a).env.velocity ∧
      (step m p a).env.velocity ≤ p.env.maxVelocity := by
    have := bound_mem p.env.velocityRange hle
      (p.env.velocity + (-p.env.stepTime * p.env.velocity +
        p.env.mass * p.env.g * p.env.length * m.sin p.env.theta +
        p.env.actionRange.bound (Action.at a 0)))
    rw [← e1, d5, d6] at this
    exact this
  have hmove : |(step m p a).env.velocity * p.env.stepTime| ≤ m.pi / 4 := by
    rw [abs_le, ← hq]
    constructor
    · have := mul_le_mul_of_nonneg_right hb.1 hs.le
      linarith
    · exact mul_le_mul_of_nonneg_right hb.2 hs.le
  obtain ⟨m1, m2⟩ := abs_le.mp hmove
  have hth := adjustTheta_mem m
    { p.env with
      velocity := (step m p a).env.velocity
      theta := p.env.theta + (step m p a).env.velocity * p.env.stepTime }
    (by show -(3 * m.pi) ≤ p.env.theta + (step m p a).env.velocity * p.env.stepTime
        linarith)
    (by show p.env.theta + (step m p a).env.velocity * p.env.stepTime < 3 * m.pi
        linarith)
  rw [← e2] at hth
  refine ⟨⟨hth.1, hth.2, ?_⟩, ⟨?_, ?_, ?_, ?_, ?_, ?_⟩, hmove⟩
  · rw [e4]; exact abs_le.mpr hb
  · rw [e3]; exact d1
  · rw [e4, e3]; exact d2
  · rw [e5]; exact d3
  · rw [e5]; exact d4
  · rw [e6, e4]; exact d5
  · rw [e6, e4]; exact d6

/-- Every sequence of `step` calls keeps a state in range, with the declared
constants. -/
theorem steps_inRange (m : Libm K) (hpi : 0 < m.pi) (as : List (List K)) :
    ∀ p : RLProblem K (List K) (SwingPendulumFields K), Declared m p.env → InRange m p.env →
      InRange m (as.foldl (step m) p).env ∧ Declared m (as.foldl (step m) p).env := by
  induction as with
  | nil => intro p hd hin; exact ⟨hin, hd⟩
  | cons a as ih =>
    intro p hd hin
    obtain ⟨h1, h2, -⟩ := step_inRange m hpi p hd hin a
    exact ih (step m p a) h2 h1

/-- C21.  For the pendulum with the constants that its constructor sets, in
particular `maxVelocity = (pi / 4) / stepTime`, the bounds `-pi ≤ theta < pi`
and `|velocity| ≤ maxVelocity` hold after `initialize` from every state (in
random mode with a drawn number between 0 and 1), are preserved by `step(a)`
for every action `a`, the clamped velocity moving the angle by at most
`pi / 4` before the single wrap-around of `adjustTheta`, and so hold after
`initialize` followed by any sequence of `step` calls. -/
theorem theta_velocity_invariant (m : Libm K) (hpi : 0 < m.pi)
    (p : RLProblem K (List K) (SwingPendulumFields K)) (hd : Declared m p.env)
    (hu : p.env.random = true → ∀ k : Nat, 0 ≤ p.env.draws k ∧ p.env.draws k ≤ 1) :
    InRange m (initialise m p).env ∧
    (∀ a : List K, InRange m p.env →
      InRange m (step m p a).env ∧
      |(step m p a).env.velocity * p.env.stepTime| ≤ m.pi / 4) ∧
    (∀ as : List (List K),
      InRange m (as.foldl (step m) (initialise m p)).env ∧
      (as.foldl (step m) (initialise m p)).env.maxVelocity
        = m.pi / 4 / (as.foldl (step m) (initialise m p)).env.stepTime) := by
  obtain ⟨h1, h2⟩ := initialise_inRange m hpi p hd hu
  refine ⟨h1, ?_, ?_⟩
  · intro a hin
    obtain ⟨k1, -, k3⟩ := step_inRange m hpi p hd hin a
    exact ⟨k1, k3⟩
  · intro as
    obtain ⟨k1, k2⟩ := steps_inRange m hpi as (initialise m p) h2 h1
    exact ⟨k1, k2.2.1⟩

/-- Instance of C21: the random pendulum over the reals whose drawn number is
1, so that `initialize` draws the angle `pi` and wraps it to `-pi`. -/
theorem theta_velocity_invariant_witness :
    (0 : ℝ) < Real.pi ∧
    Declared (⟨Real.sin, Real.cos, Real.pi⟩ : Libm ℝ)
      (Demo.randomPendulum (⟨Real.sin, Real.cos, Real.pi⟩ : Libm ℝ)).env ∧
    (∀ k : Nat,
      0 ≤ (Demo.randomPendulum (⟨Real.sin, Real.cos, Real.pi⟩ : Libm ℝ)).env.draws k ∧
      (Demo.randomPendulum (⟨Real.sin, Real.cos, Real.pi⟩ : Libm ℝ)).env.draws k ≤ 1) ∧
    InRange (⟨Real.sin, Real.cos, Real.pi⟩ : Libm ℝ)
      (initialise (⟨Real.sin, Real.cos, Real.pi⟩ : Libm ℝ)
        (Demo.randomPendulum (⟨Real.sin, Real.cos, Real.pi⟩ : Libm ℝ))).env :=
  have hu : ∀ k : Nat,
      0 ≤ (Demo.randomPendulum (⟨Real.sin, Real.cos, Real.pi⟩ : Libm ℝ)).env.draws k ∧
      (Demo.randomPendulum (⟨Real.sin, Real.cos, Real.pi⟩ : Libm ℝ)).env.draws k ≤ 1 :=
    fun _ => ⟨zero_le_one, le_refl (1 : ℝ)⟩
  ⟨Real.pi_pos, new_declared _ true _, hu,
    (theta_velocity_invariant (⟨Real.sin, Real.cos, Real.pi⟩ : Libm ℝ) Real.pi_pos
      (Demo.randomPendulum (⟨Real.sin, Real.cos, Real.pi⟩ : Libm ℝ))
      (new_declared _ true _) (fun _ => hu)).1⟩

end SwingPendulum

end RLLib
